import Mathlib

/-!
# RGK renderer: tile scheduler, Fresnel term, thin-glass filter, BRDFs,
refraction, path generation, light phase, the Whitted tracer and the LTC
table lookups

A shallow embedding of parts of `src/src/main.cpp`, `src/src/path_tracer.cpp`,
`src/src/brdf.cpp` and `src/src/LTC/ltc_beckmann.cpp`.

* `unsigned int` values are natural numbers reduced modulo `2^32` wherever the
  source arithmetic can wrap.
* `float` values are idealised as exact rationals; the library square root is
  passed in as a parameter, and `sqrtQ` is a concrete rounding square root
  used when a definition is evaluated. A NaN vector is `none`.
* Where the rounding of `float` arithmetic decides a claim it is explicit:
  `Render` accumulates the samples of a pixel through a rounding parameter
  `fl`, `roundFloat` is the rounding of binary32, and `Refract` is embedded
  over an ordered field, with the threshold `0.999f` as the `float` value.
* Loops whose termination is part of a claim take fuel and return an `Option`.
* Collaborators that are not among the sources (scene queries, sampler,
  materials, camera) are fields of environment structures.
-/

namespace RGK

/-! ## Tile scheduler (`src/src/main.cpp`) -/

/-- Number of values of an `unsigned int`. -/
def UINT_RANGE : Nat := 2 ^ 32

/-- Reduction of an `unsigned int` result. -/
def wrapU (n : Nat) : Nat := n % UINT_RANGE

/-- The constant `tile_size` of `main`. -/
def tile_size : Nat := 200

/-- A two-component float vector (`glm::vec2`). -/
abbrev Vec2 : Type := ℚ × ℚ

/-- The struct `RenderTask`. -/
structure RenderTask where
  xres : Nat
  yres : Nat
  xrange_start : Nat
  xrange_end : Nat
  yrange_start : Nat
  yrange_end : Nat
  midpoint : Vec2
  deriving DecidableEq, Repr

/-- The constructor `RenderTask(xres, yres, x1, x2, y1, y2)` of `src/src/main.cpp`.
Its initialiser list sets the six integer members; its body evaluates the
expression `glm::vec2((x1 + x2)/2.0f, (y1 + y2)/2.0f)` and discards it, so the
member `midpoint` keeps the value `vinit` that the default constructor of
`glm::vec2` left in it. -/
def RenderTask.ctor (vinit : Vec2) (xres yres x1 x2 y1 y2 : Nat) : RenderTask :=
  { xres := xres, yres := yres, xrange_start := x1, xrange_end := x2,
    yrange_start := y1, yrange_end := y2, midpoint := vinit }

/-- The centroid `((x1 + x2)/2, (y1 + y2)/2)` of a tile. -/
def RenderTask.centroid (t : RenderTask) : Vec2 :=
  (((t.xrange_start + t.xrange_end : Nat) : ℚ) / 2, ((t.yrange_start + t.yrange_end : Nat) : ℚ) / 2)

/-- The inner loop `for(unsigned int xp = 0; xp < cfg.xres; xp += tile_size)` of
`main`, started at `xp`, appending to `tasks`. `none` when the fuel runs out. -/
def splitRow (vinit : Vec2) (xres yres yp : Nat) :
    Nat → Nat → List RenderTask → Option (List RenderTask)
  | 0, _, _ => none
  | fuel + 1, xp, tasks =>
    if xp < xres then
      splitRow vinit xres yres yp fuel (wrapU (xp + tile_size))
        (tasks ++ [RenderTask.ctor vinit xres yres xp (min xres (wrapU (xp + tile_size)))
                    yp (min yres (wrapU (yp + tile_size)))])
    else some tasks

/-- The outer loop `for(unsigned int yp = 0; yp < cfg.yres; yp += tile_size)` of
`main`, started at `yp`. -/
def splitRows (vinit : Vec2) (xres yres : Nat) :
    Nat → Nat → List RenderTask → Option (List RenderTask)
  | 0, _, _ => none
  | fuel + 1, yp, tasks =>
    if yp < yres then
      match splitRow vinit xres yres yp fuel 0 tasks with
      | none => none
      | some tasks1 => splitRows vinit xres yres fuel (wrapU (yp + tile_size)) tasks1
    else some tasks

/-- The task vector of `main` after the splitting loops. -/
def splitTiles (vinit : Vec2) (fuel xres yres : Nat) : Option (List RenderTask) :=
  splitRows vinit xres yres fuel 0 []

/-- The pixels `(x, y)` passed to `output->SetPixel` by `Render(task, ...)`, in
the order of the calls: rows `y` from `yrange_start` below `yrange_end`, and
within a row `x` from `xrange_start` below `xrange_end`. -/
def Render (task : RenderTask) : List (Nat × Nat) :=
  (List.range' task.yrange_start (task.yrange_end - task.yrange_start)).flatMap fun y =>
    (List.range' task.xrange_start (task.xrange_end - task.xrange_start)).map fun x => (x, y)

/-- Whether pixel `(x, y)` lies in the rectangle of a task. -/
def RenderTask.contains (t : RenderTask) (p : Nat × Nat) : Bool :=
  decide (t.xrange_start ≤ p.1 ∧ p.1 < t.xrange_end ∧ t.yrange_start ≤ p.2 ∧ p.2 < t.yrange_end)

/-- Number of pixels of the rectangle of a task. -/
def RenderTask.area (t : RenderTask) : Nat :=
  (t.xrange_end - t.xrange_start) * (t.yrange_end - t.yrange_start)

/-- The pool size computed in `main`:
`concurrency = std::max((unsigned int)1, concurrency - 1)`. -/
def poolSize (hw : Nat) : Nat := max 1 (wrapU (hw + UINT_RANGE - 1))

/-- Largest image extent for which the loop counter plus `tile_size` stays
below `2^32` on every iteration. -/
def NO_WRAP_MAX : Nat := 4294967200

/-! ## Fresnel term and thin-glass filter (`src/src/path_tracer.cpp`) -/

/-- A three-component float vector (`glm::vec3`). -/
structure Vec3 where
  x : ℚ
  y : ℚ
  z : ℚ
  deriving DecidableEq, Repr

/-- The scalar product `glm::dot`. -/
def dot (a b : Vec3) : ℚ := a.x * b.x + a.y * b.y + a.z * b.z

/-- A rounding square root on the rationals, standing for the library square
root when a definition is evaluated: the integer square root of
`num * den` over `den`, exact on squares of rationals and `0` on negative
arguments. -/
def sqrtQ (x : ℚ) : ℚ := (Nat.sqrt (x.num.toNat * x.den) : ℚ) / (x.den : ℚ)

/-- The local `etai` of `Fresnel` after the conditional swap. -/
def fresnelEtai (cosi ior : ℚ) : ℚ := if cosi > 0 then ior else 1

/-- The local `etat` of `Fresnel` after the conditional swap. -/
def fresnelEtat (cosi ior : ℚ) : ℚ := if cosi > 0 then 1 else ior

/-- The local `sint` of `Fresnel` (Snell's law). -/
def fresnelSint (sqrt : ℚ → ℚ) (cosi ior : ℚ) : ℚ :=
  fresnelEtai cosi ior / fresnelEtat cosi ior * sqrt (max 0 (1 - cosi * cosi))

/-- The local `Rs` of `Fresnel`. -/
def fresnelRs (etai etat cosi cost : ℚ) : ℚ :=
  ((etat * cosi) - (etai * cost)) / ((etat * cosi) + (etai * cost))

/-- The local `Rp` of `Fresnel`. -/
def fresnelRp (etai etat cosi cost : ℚ) : ℚ :=
  ((etai * cosi) - (etat * cost)) / ((etai * cosi) + (etat * cost))

/-- The value `(Rs * Rs + Rp * Rp) / 2.0f` returned by the `else` branch of
`Fresnel`. -/
def fresnelR (etai etat cosi cost : ℚ) : ℚ :=
  (fresnelRs etai etat cosi cost * fresnelRs etai etat cosi cost
    + fresnelRp etai etat cosi cost * fresnelRp etai etat cosi cost) / 2

/-- The function `Fresnel(I, N, ior)`; `sqrt` is the library square root. -/
def Fresnel (sqrt : ℚ → ℚ) (I N : Vec3) (ior : ℚ) : ℚ :=
  let cosi := dot I N
  let sint := fresnelSint sqrt cosi ior
  if sint ≥ 1 then 1
  else
    let cost := sqrt (max 0 (1 - sint * sint))
    fresnelR (fresnelEtai cosi ior) (fresnelEtat cosi ior) |cosi| cost

/-- Modelled from the spec: the colour triple `Radiance` / `Color`, whose
declaration is not among the sources. -/
structure Radiance where
  r : ℚ
  g : ℚ
  b : ℚ
  deriving DecidableEq, Repr

/-- Modelled from the spec: the channel-wise product `Radiance * Color`
(a coloured transmittance filter). -/
def Radiance.mul (a c : Radiance) : Radiance := ⟨a.r * c.r, a.g * c.g, a.b * c.b⟩

/-- Modelled from the spec: what `ApplyThinglass` reads of a `Triangle`, whose
declaration is not among the sources: the result of `generic_normal()` and
the member `diffuse` of `GetMaterial()`. -/
structure Triangle where
  generic_normal : Vec3
  diffuse : Radiance
  deriving DecidableEq, Repr

/-- The type `ThinglassIsections`: pairs of a triangle and the ray parameter at
which it is crossed. -/
abbrev ThinglassIsections : Type := List (Triangle × ℚ)

/-- One iteration of the loop of `ApplyThinglass` on the state `(ct, result)`. -/
def thinglassStep (epsilon : ℚ) (ray_direction : Vec3) (st : ℚ × Radiance)
    (isect : Triangle × ℚ) : ℚ × Radiance :=
  let trig := isect.1
  let newt := isect.2
  if newt ≤ st.1 + epsilon then st
  else if dot trig.generic_normal ray_direction ≥ 0 then (newt, st.2.mul trig.diffuse)
  else (newt, st.2)

/-- The initial value of the loop counter of `ApplyThinglass`,
`int n = isections.size()-1`: the unsigned difference converted to a 32-bit
`int`, which is `-1` for an empty list. -/
def thinglassStart (size : Nat) : Int :=
  let m : Int := ((size : Int) - 1) % (UINT_RANGE : Int)
  if m < 2 ^ 31 then m else m - (UINT_RANGE : Int)

/-- The intersections read by the loop `for(int n = isections.size()-1; n >= 0; n--)`
of `ApplyThinglass`, in the order of the visit: those at the indices
`n, n-1, ..., 0`, none when the initial `n` is negative. -/
def thinglassVisitOrder (isections : List (Triangle × ℚ)) : List (Triangle × ℚ) :=
  (isections.take (thinglassStart isections.length + 1).toNat).reverse

/-- The method `PathTracer::ApplyThinglass(input, isections, ray_direction)`;
`epsilon` is `scene.epsilon`. The loop starts from `result = input` and
`ct = -1`. -/
def ApplyThinglass (epsilon : ℚ) (input : Radiance) (isections : ThinglassIsections)
    (ray_direction : Vec3) : Radiance :=
  ((thinglassVisitOrder isections).foldl (thinglassStep epsilon ray_direction) (-1, input)).2

/-- The intersections that the loop of `ApplyThinglass` does not skip, in the
order of the visit, when the list `l` is visited with current `ct`. -/
def visitedFrom (epsilon : ℚ) : ℚ → List (Triangle × ℚ) → List (Triangle × ℚ)
  | _, [] => []
  | ct, isect :: rest =>
    if isect.2 ≤ ct + epsilon then visitedFrom epsilon ct rest
    else isect :: visitedFrom epsilon isect.2 rest

/-- The orientation test of `ApplyThinglass`: `glm::dot(N, ray_direction) >= 0`. -/
def passesOrientation (ray_direction : Vec3) (isect : Triangle × ℚ) : Bool :=
  decide (dot isect.1.generic_normal ray_direction ≥ 0)

/-! ## Vector and colour arithmetic -/

/-- The sum of two vectors. -/
def Vec3.add (a b : Vec3) : Vec3 := ⟨a.x + b.x, a.y + b.y, a.z + b.z⟩

/-- The difference of two vectors. -/
def Vec3.sub (a b : Vec3) : Vec3 := ⟨a.x - b.x, a.y - b.y, a.z - b.z⟩

/-- The product of a float and a vector. -/
def Vec3.smul (k : ℚ) (a : Vec3) : Vec3 := ⟨k * a.x, k * a.y, k * a.z⟩

/-- The opposite vector. -/
def Vec3.neg (a : Vec3) : Vec3 := ⟨-a.x, -a.y, -a.z⟩

/-- The vector product `glm::cross`. -/
def cross (a b : Vec3) : Vec3 :=
  ⟨a.y * b.z - b.y * a.z, a.z * b.x - b.z * a.x, a.x * b.y - b.x * a.y⟩

/-- The mirror direction `2.0f * glm::dot(V, N) * N - V`. -/
def mirror (V N : Vec3) : Vec3 := (Vec3.smul (2 * dot V N) N).sub V

/-- Modelled from the spec: the channel-wise sum of two colour triples. -/
def Radiance.add (a c : Radiance) : Radiance := ⟨a.r + c.r, a.g + c.g, a.b + c.b⟩

/-- Modelled from the spec: the product of a colour triple and a float. -/
def Radiance.scale (a : Radiance) (k : ℚ) : Radiance := ⟨a.r * k, a.g * k, a.b * k⟩

/-- The value of the C++ type `float` nearest to the rational `x`: IEEE-754
binary32 rounding to nearest, ties to even, with a significand of 24 bits
(the exponent range is not bounded: no overflow to infinity, no subnormal
numbers). -/
def roundFloat (x : ℚ) : ℚ :=
  if x = 0 then 0
  else
    let e := Int.log 2 |x|
    let q := |x| / (2 : ℚ) ^ (e - 23)
    let f := ⌊q⌋
    let n := if q - f < 1 / 2 then f
      else if 1 / 2 < q - f then f + 1
      else if f % 2 = 0 then f else f + 1
    (if x < 0 then -1 else 1) * (n : ℚ) * (2 : ℚ) ^ (e - 23)

/-- The library square root in `float`, for the evaluation of examples: the
rounding square root `sqrtQ` followed by the rounding to `float`; on the
square of a rational it is the correctly rounded square root. -/
def sqrtFloat (x : ℚ) : ℚ := roundFloat (sqrtQ x)

/-- Modelled from the spec: the channel-wise sum of two colour triples in
`float` arithmetic (`pixel_total += ...`): every channel sum is rounded by
`fl`. -/
def Radiance.addF (fl : ℚ → ℚ) (a c : Radiance) : Radiance :=
  ⟨fl (a.r + c.r), fl (a.g + c.g), fl (a.b + c.b)⟩

/-- Modelled from the spec: the product of a colour triple and a float in
`float` arithmetic: every channel product is rounded by `fl`. -/
def Radiance.scaleF (fl : ℚ → ℚ) (a : Radiance) (k : ℚ) : Radiance :=
  ⟨fl (a.r * k), fl (a.g * k), fl (a.b * k)⟩

/-- Modelled from the spec: the quotient of a colour triple by a float. -/
def Radiance.divS (a : Radiance) (k : ℚ) : Radiance := ⟨a.r / k, a.g / k, a.b / k⟩

/-- All three channels are non-negative. -/
def Radiance.nonneg (a : Radiance) : Prop := 0 ≤ a.r ∧ 0 ≤ a.g ∧ 0 ≤ a.b

/-! ## BRDF family (`src/src/brdf.cpp`) -/

/-- The constant `glm::pi<float>()`: the `float` nearest to pi. -/
def PI : ℚ := 13176795 / 4194304

/-- A power function on the rationals, standing for `glm::pow` when a
definition is evaluated: exact for natural exponents, the exponent is rounded
down otherwise. -/
def powQ (c e : ℚ) : ℚ := c ^ (e.num.toNat / e.den)

/-- The value `glm::cos(glm::angle(x, y))`, where `glm::angle(x, y)` is
`acos(clamp(dot(x, y), -1, 1))`. -/
def cosAngle (x y : Vec3) : ℚ := max (-1) (min 1 (dot x y))

/-- The function `BRDF::Diffuse`. -/
def BRDF.Diffuse (_N : Vec3) (Kd _Ks : Radiance) (_Vi _Vr : Vec3) (_exponent : ℚ) : Radiance :=
  Kd.divS PI

/-- The function `BRDF::Phong`; `pow` is `glm::pow`. -/
def BRDF.Phong (pow : ℚ → ℚ → ℚ) (N : Vec3) (Kd Ks : Radiance) (Vi Vr : Vec3)
    (exponent : ℚ) : Radiance :=
  let Vs := mirror Vi N
  let c := max 0 (cosAngle Vr Vs)
  let c := pow c exponent
  let diffuse := Kd.divS PI
  let specular := Ks.scale c
  diffuse.add specular

/-- The function `BRDF::Phong2`; `none` when `c /= glm::dot(Vi, N)` divides by
zero. -/
def BRDF.Phong2 (pow : ℚ → ℚ → ℚ) (N : Vec3) (Kd Ks : Radiance) (Vi Vr : Vec3)
    (exponent : ℚ) : Option Radiance :=
  let Vs := mirror Vi N
  let c := max 0 (dot Vr Vs)
  let c := pow c exponent
  if dot Vi N = 0 then none
  else
    let c := c / dot Vi N
    let diffuse := Kd.divS PI
    let specular := Ks.scale c
    some (diffuse.add specular)

/-- The function `BRDF::PhongEnergyConserving`; `none` when
`c /= glm::dot(Vi, N)` divides by zero. -/
def BRDF.PhongEnergyConserving (pow : ℚ → ℚ → ℚ) (N : Vec3) (Kd Ks : Radiance) (Vi Vr : Vec3)
    (exponent : ℚ) : Option Radiance :=
  let Vs := mirror Vi N
  let c := max 0 (dot Vr Vs)
  let c := pow c exponent
  if dot Vi N = 0 then none
  else
    let c := c / dot Vi N
    let norm := (exponent + 2) / (2 * PI)
    let diffuse := Kd.divS PI
    let specular := (Ks.scale norm).scale c
    some (diffuse.add specular)

/-! ## Refraction (`src/src/path_tracer.cpp`)

`Refract` is embedded over an arbitrary ordered field `K` with a square root
`sqrt : K → K`, so that it can be read over the rationals, with a rounding
square root, and over the reals, with the exact square root. A `float` vector
that is NaN is `none`. The literal `0.999f` is the `float` value it denotes,
`16760439 / 2^24`. An angle is represented by its cosine and sine, which is
all that `glm::rotate` reads of it. -/

/-- A three-component vector (`glm::vec3`) with components in `K`. -/
structure Vec3K (K : Type) where
  x : K
  y : K
  z : K

/-- The sum of two vectors. -/
def Vec3K.add {K : Type} [LinearOrderedField K] (a b : Vec3K K) : Vec3K K :=
  ⟨a.x + b.x, a.y + b.y, a.z + b.z⟩

/-- The product of a scalar and a vector. -/
def Vec3K.smul {K : Type} [LinearOrderedField K] (k : K) (a : Vec3K K) : Vec3K K :=
  ⟨k * a.x, k * a.y, k * a.z⟩

/-- The opposite vector. -/
def Vec3K.neg {K : Type} [LinearOrderedField K] (a : Vec3K K) : Vec3K K := ⟨-a.x, -a.y, -a.z⟩

/-- The scalar product `glm::dot`. -/
def dotK {K : Type} [LinearOrderedField K] (a b : Vec3K K) : K :=
  a.x * b.x + a.y * b.y + a.z * b.z

/-- The vector product `glm::cross`. -/
def crossK {K : Type} [LinearOrderedField K] (a b : Vec3K K) : Vec3K K :=
  ⟨a.y * b.z - b.y * a.z, a.z * b.x - b.z * a.x, a.x * b.y - b.x * a.y⟩

/-- An angle, given by its cosine and sine. -/
structure AngleK (K : Type) where
  cos : K
  sin : K

/-- The function `glm::asin` on `[-1, 1]`: the angle of sine `x` and cosine
`sqrt(1 - x^2)`. -/
def asinK {K : Type} [LinearOrderedField K] (sqrt : K → K) (x : K) : AngleK K :=
  ⟨sqrt (1 - x * x), x⟩

/-- The function `glm::normalize`, `v * inversesqrt(dot(v, v))`; `none` (NaN)
when the length is zero. -/
def normalize (sqrt : ℚ → ℚ) (v : Vec3) : Option Vec3 :=
  if sqrt (dot v v) = 0 then none else some (Vec3.smul (1 / sqrt (dot v v)) v)

/-- The function `glm::normalize` over `K`. -/
def normalizeK {K : Type} [LinearOrderedField K] (sqrt : K → K) (v : Vec3K K) :
    Option (Vec3K K) :=
  if sqrt (dotK v v) = 0 then none else some (Vec3K.smul (1 / sqrt (dotK v v)) v)

/-- The function `glm::rotate(v, angle, normal)`: the rotation of `v` by
`angle` about the normalised axis `normal`,
`cos * v + sin * (axis x v) + (1 - cos) * dot(axis, v) * axis`. -/
def rotateK {K : Type} [LinearOrderedField K] (sqrt : K → K) (v : Vec3K K) (angle : AngleK K)
    (normal : Vec3K K) : Option (Vec3K K) :=
  match normalizeK sqrt normal with
  | none => none
  | some axis =>
    some ((Vec3K.smul angle.cos v).add
      ((Vec3K.smul angle.sin (crossK axis v)).add
        (Vec3K.smul ((1 - angle.cos) * dotK axis v) axis)))

/-- The function `Refract(in, N, IOR)` over `K`; `none` is the NaN vector
(returned at total internal reflection, and produced by `glm::normalize` of a
zero vector, by `glm::sqrt` of a negative number and by `glm::asin` outside
`[-1, 1]`). -/
def RefractK {K : Type} [LinearOrderedField K] (sqrt : K → K) (vin N : Vec3K K) (IOR : K) :
    Option (Vec3K K) :=
  if dotK vin N > 16760439 / 16777216 then some vin.neg
  else
    match normalizeK sqrt (crossK N vin) with
    | none => none
    | some tangent =>
      let cosEta1 := dotK vin N
      if 1 - cosEta1 * cosEta1 < 0 then none
      else
        let sinEta1 := sqrt (1 - cosEta1 * cosEta1)
        let sinEta2 := sinEta1 * IOR
        if sinEta2 ≥ 1 then none
        else if sinEta2 < -1 then none
        else
          let Eta2 := asinK sqrt sinEta2
          rotateK sqrt N.neg Eta2 tangent

/-- A `float` vector of the path tracer as a vector over the field `ℚ`. -/
def Vec3.toK (v : Vec3) : Vec3K ℚ := ⟨v.x, v.y, v.z⟩

/-- A vector over the field `ℚ` as a `float` vector of the path tracer. -/
def Vec3K.toVec3 (v : Vec3K ℚ) : Vec3 := ⟨v.x, v.y, v.z⟩

/-- The function `Refract(in, N, IOR)` of the path tracer: `RefractK` over
`ℚ`. -/
def Refract (sqrt : ℚ → ℚ) (vin N : Vec3) (IOR : ℚ) : Option Vec3 :=
  (RefractK sqrt vin.toK N.toK IOR).map Vec3K.toVec3

/-- The squared sine of the angle between two unit vectors,
`|a x b|^2`, over `K`. -/
def sinSqK {K : Type} [LinearOrderedField K] (a b : Vec3K K) : K :=
  dotK (crossK a b) (crossK a b)

/-- The squared sine of the angle between two unit vectors,
`|a x b|^2`. -/
def sinSq (a b : Vec3) : ℚ := dot (cross a b) (cross a b)

/-! ## Path generation (`PathTracer::GeneratePath`, `src/src/path_tracer.cpp`)

The scene, the sampler, the materials and `RandomUtils` are not among the
sources; they enter as the fields of `PathEnv` and `SurfaceHit`. The `assert`
and `qassert` lines and the debug output are left out. -/

/-- The enumeration `PathPoint::Type`. -/
inductive PointType where
  | SCATTERED
  | REFLECTED
  | ENTERED
  | LEFT
  deriving DecidableEq, Repr

/-- The enumeration `BRDF::BRDFSamplingType`. -/
inductive BRDFSamplingType where
  | SAMPLING_COSINE
  | SAMPLING_BRDF
  | SAMPLING_UNIFORM
  deriving DecidableEq, Repr

/-- Modelled from the spec: a ray, of which the path tracer reads the origin
and the unit direction. -/
structure Ray where
  origin : Vec3
  direction : Vec3
  deriving DecidableEq, Repr

/-- Modelled from the spec: what the path tracer reads of a `Material` and of
its BRDF: `GetRay(N, Vr, Kd, Ks, sample)` returns the sampled direction, the
transfer coefficient and the sampling type, and
`Apply(Kd, Ks, N, Vi, Vr)` the value of the BRDF. -/
structure Material where
  translucency : ℚ
  refraction_index : ℚ
  emissive : Bool
  emission : Radiance
  GetRay : Vec3 → Vec3 → Radiance → Radiance → Vec2 → Vec3 × Radiance × BRDFSamplingType
  Apply : Radiance → Radiance → Vec3 → Vec3 → Vec3 → Radiance

/-- Modelled from the spec: the struct `PathTracer::PathPoint` (declared in a
header that is not among the sources), with the members that
`GeneratePath` and `TracePath` use. -/
structure PathPoint where
  infinity : Bool
  type : PointType
  pos : Vec3
  lightN : Vec3
  faceN : Vec3
  Vr : Vec3
  Vi : Vec3
  backside : Bool
  diffuse : Radiance
  specular : Radiance
  mat : Option Material
  transfer_coefficients : Radiance
  russian_coefficient : ℚ
  thinglass_isect : ThinglassIsections
  light_from_source : Radiance

/-- Modelled from the spec: a default-constructed `PathPoint`: not at
infinity, not hit from the back, all vectors and colours zero. -/
def PathPoint.init : PathPoint :=
  { infinity := false, type := PointType.SCATTERED, pos := ⟨0, 0, 0⟩, lightN := ⟨0, 0, 0⟩,
    faceN := ⟨0, 0, 0⟩, Vr := ⟨0, 0, 0⟩, Vi := ⟨0, 0, 0⟩, backside := false,
    diffuse := ⟨0, 0, 0⟩, specular := ⟨0, 0, 0⟩, mat := none,
    transfer_coefficients := ⟨0, 0, 0⟩, russian_coefficient := 0, thinglass_isect := [],
    light_from_source := ⟨0, 0, 0⟩ }

/-- Modelled from the spec: what lines 157-275 of `GeneratePath` obtain for a
ray that hits a triangle: the triangle, the hit position, the normalised
interpolated normal `faceN` (before it is turned towards the ray), the
bump-mapped normal `lightN` as a function of the oriented `faceN`, the
textured colours and the material. -/
structure SurfaceHit where
  triangle : Nat
  pos : Vec3
  faceN : Vec3
  lightNOf : Vec3 → Vec3
  diffuse : Radiance
  specular : Radiance
  mat : Material

/-- Modelled from the spec: the outcome of the intersection query of
`GeneratePath` with the thin-glass crossings it collected: no triangle (a sky
ray), a triangle whose normals are all NaN or of zero length (lines 196 and
205, `return path`), or a surface hit. -/
inductive Intersected where
  | sky (thinglass : ThinglassIsections)
  | degenerate
  | hit (thinglass : ThinglassIsections) (h : SurfaceHit)

/-- Modelled from the spec: the collaborators of `GeneratePath`: the square
root, `scene.epsilon`, the flag `force_fresnell`, the sampler (state `σ`),
`RandomUtils::DecideAndRescale(sample, probability)`, which returns its
decision and the rescaled sample, and the intersection query
`scene.FindIntersectKdOtherThan[WithThinglass](ray, last_triangle)`. -/
structure PathEnv (σ : Type) where
  sqrt : ℚ → ℚ
  epsilon : ℚ
  force_fresnell : Bool
  Get1D : σ → ℚ × σ
  Get2D : σ → Vec2 × σ
  DecideAndRescale : ℚ → ℚ → Bool × ℚ
  intersect : Ray → Option Nat → Intersected

/-- The local variables of `GeneratePath` that live across iterations of its
loop, with the sampler and the counter `raycount` it updates. -/
structure GenState (σ : Type) where
  current_ray : Ray
  n : Nat
  n2 : Nat
  skip_russian : Bool
  last_triangle : Option Nat
  path : List PathPoint
  sampler : σ
  raycount : Nat

/-- Lines 145-152: the termination test at the head of the loop body. The
result is whether the loop breaks, the new `skip_russian` and the sampler. -/
def terminationTest {σ : Type} (env : PathEnv σ) (depth__ : Nat) (russian__ : ℚ) (n : Nat)
    (skip_russian : Bool) (sampler : σ) : Bool × Bool × σ :=
  if russian__ ≥ 0 then
    if n > 1 ∧ skip_russian = false then
      let g := env.Get1D sampler
      if g.1 > russian__ then (true, skip_russian, g.2) else (false, false, g.2)
    else (false, false, sampler)
  else
    if n > depth__ then (true, skip_russian, sampler) else (false, skip_russian, sampler)

/-- Lines 277-309: the random choice of the point type from `ptype_sample`. -/
def classify {σ : Type} (env : PathEnv σ) (mat : Material) (fromInside : Bool)
    (Vr lightN : Vec3) (diffuse specular : Radiance) (ptype_sample : ℚ) : PointType :=
  if mat.translucency > 1 / 1000 then
    if fromInside then PointType.LEFT
    else
      let q := Fresnel env.sqrt Vr lightN (1 / mat.refraction_index)
      let d1 := env.DecideAndRescale ptype_sample q
      if d1.1 then PointType.REFLECTED
      else
        let d2 := env.DecideAndRescale d1.2 mat.translucency
        if d2.1 then PointType.ENTERED else PointType.SCATTERED
  else
    if env.force_fresnell then
      let strength := (specular.r + specular.g + specular.b)
        / (diffuse.r + diffuse.g + diffuse.b + specular.r + specular.g + specular.b)
      let d1 := env.DecideAndRescale ptype_sample strength
      if d1.1 ∧ (env.DecideAndRescale d1.2
          (Fresnel env.sqrt Vr lightN (1 / mat.refraction_index))).1 then PointType.REFLECTED
      else PointType.SCATTERED
    else PointType.SCATTERED

/-- What the `switch(p.type)` of lines 328-392 leaves behind: the point type,
the light normal, the next direction `dir`, the transfer coefficients, the
sampling type and the sampler. -/
structure Bounce (σ : Type) where
  type : PointType
  lightN : Vec3
  dir : Vec3
  transfer_coefficients : Radiance
  sampling_type : BRDFSamplingType
  sampler : σ

/-- The `case PathPoint::SCATTERED` of the switch (lines 337-370), entered
with point type `ty` (`REFLECTED` when reached by fall-through). -/
def scatterCase {σ : Type} (env : PathEnv σ) (mat : Material) (ty : PointType)
    (Vr lightN faceN : Vec3) (diffuse specular : Radiance) (sampler : σ) : Bounce σ :=
  let lightN1 := if dot lightN Vr ≤ 0 then faceN else lightN
  let g := env.Get2D sampler
  let r := mat.GetRay lightN1 Vr diffuse specular g.1
  { type := ty, lightN := lightN1, dir := r.1, transfer_coefficients := r.2.1,
    sampling_type := r.2.2, sampler := g.2 }

/-- The `switch(p.type)` of lines 328-392. -/
def nextDirection {σ : Type} (env : PathEnv σ) (mat : Material) (ty : PointType)
    (Vr lightN faceN : Vec3) (diffuse specular : Radiance) (sampler : σ) : Bounce σ :=
  match ty with
  | PointType.REFLECTED =>
    let dir := mirror Vr lightN
    if dot dir faceN > 0 then
      { type := PointType.REFLECTED, lightN := lightN, dir := dir,
        transfer_coefficients := ⟨1, 1, 1⟩,
        sampling_type := BRDFSamplingType.SAMPLING_COSINE, sampler := sampler }
    else scatterCase env mat PointType.REFLECTED Vr lightN faceN diffuse specular sampler
  | PointType.SCATTERED =>
    scatterCase env mat PointType.SCATTERED Vr lightN faceN diffuse specular sampler
  | PointType.ENTERED =>
    match Refract env.sqrt Vr lightN (1 / mat.refraction_index) with
    | none =>
      { type := PointType.REFLECTED, lightN := lightN, dir := mirror Vr lightN,
        transfer_coefficients := ⟨1, 1, 1⟩,
        sampling_type := BRDFSamplingType.SAMPLING_COSINE, sampler := sampler }
    | some dir =>
      { type := PointType.ENTERED, lightN := lightN, dir := dir,
        transfer_coefficients := ⟨1, 1, 1⟩,
        sampling_type := BRDFSamplingType.SAMPLING_COSINE, sampler := sampler }
  | PointType.LEFT =>
    match Refract env.sqrt Vr lightN mat.refraction_index with
    | none =>
      { type := PointType.REFLECTED, lightN := lightN, dir := mirror Vr lightN,
        transfer_coefficients := ⟨1, 1, 1⟩,
        sampling_type := BRDFSamplingType.SAMPLING_COSINE, sampler := sampler }
    | some dir =>
      { type := PointType.LEFT, lightN := lightN, dir := dir,
        transfer_coefficients := ⟨1, 1, 1⟩,
        sampling_type := BRDFSamplingType.SAMPLING_COSINE, sampler := sampler }

/-- Lines 400-433: the transfer coefficients of a `SCATTERED` point, from
the coefficient `tc` returned by the BRDF sampler. -/
def scatteredTransfer (mat : Material) (sampling_type : BRDFSamplingType) (tc : Radiance)
    (diffuse specular : Radiance) (lightN Vi Vr : Vec3) : Radiance :=
  let tc1 :=
    if sampling_type ≠ BRDFSamplingType.SAMPLING_COSINE then
      if sampling_type ≠ BRDFSamplingType.SAMPLING_BRDF then tc.scale (dot lightN Vi) else tc
    else tc.scale PI
  let tc2 :=
    if sampling_type ≠ BRDFSamplingType.SAMPLING_BRDF then
      tc1.mul (mat.Apply diffuse specular lightN Vi Vr)
    else tc1
  if sampling_type ≠ BRDFSamplingType.SAMPLING_UNIFORM then tc2 else tc2.scale (PI / (1 / 2))

/-- The incoming direction `p.Vr = -current_ray.direction` (line 210). -/
def hitVr (ray : Ray) : Vec3 := ray.direction.neg

/-- The flag `fromInside` (line 217). -/
def hitFromInside (ray : Ray) (h : SurfaceHit) : Bool := decide (dot h.faceN (hitVr ray) < 0)

/-- The normal `p.faceN` after the correction of lines 217-222. -/
def hitFaceN (ray : Ray) (h : SurfaceHit) : Vec3 :=
  if hitFromInside ray h then h.faceN.neg else h.faceN

/-- The normal `p.lightN` before the switch (lines 238-273). -/
def hitLightN (ray : Ray) (h : SurfaceHit) : Vec3 := h.lightNOf (hitFaceN ray h)

/-- The point type chosen at lines 277-309, from the sample drawn at line 278. -/
def hitFirstType {σ : Type} (env : PathEnv σ) (ray : Ray) (h : SurfaceHit) (sampler : σ) :
    PointType :=
  classify env h.mat (hitFromInside ray h) (hitVr ray) (hitLightN ray h) h.diffuse h.specular
    (env.Get1D sampler).1

/-- Whether a point type is one of `REFLECTED`, `ENTERED`, `LEFT` (line 312). -/
def PointType.isFree (ty : PointType) : Bool :=
  decide (ty = PointType.REFLECTED ∨ ty = PointType.ENTERED ∨ ty = PointType.LEFT)

/-- The result of the switch for a hit. -/
def hitBounce {σ : Type} (env : PathEnv σ) (ray : Ray) (h : SurfaceHit) (sampler : σ) :
    Bounce σ :=
  nextDirection env h.mat (hitFirstType env ray h sampler) (hitVr ray) (hitLightN ray h)
    (hitFaceN ray h) h.diffuse h.specular (env.Get1D sampler).2

/-- The value of `skip_russian` after line 317. -/
def hitSkipRussian {σ : Type} (env : PathEnv σ) (ray : Ray) (h : SurfaceHit)
    (skip_russian : Bool) (sampler : σ) : Bool :=
  if (hitFirstType env ray h sampler).isFree then true else skip_russian

/-- The value of `n` after line 317. -/
def hitN {σ : Type} (env : PathEnv σ) (ray : Ray) (h : SurfaceHit) (n : Nat) (sampler : σ) :
    Nat :=
  if (hitFirstType env ray h sampler).isFree then n - 1 else n

/-- The path point committed for a hit (lines 164-441). -/
def hitPoint {σ : Type} (env : PathEnv σ) (russian__ : ℚ) (ray : Ray)
    (skip_russian : Bool) (thinglass : ThinglassIsections) (h : SurfaceHit) (sampler : σ) :
    PathPoint :=
  let b := hitBounce env ray h sampler
  { PathPoint.init with
    thinglass_isect := thinglass
    pos := h.pos
    faceN := hitFaceN ray h
    Vr := hitVr ray
    mat := some h.mat
    backside := hitFromInside ray h
    diffuse := h.diffuse
    specular := h.specular
    lightN := b.lightN
    type := b.type
    Vi := b.dir
    russian_coefficient :=
      if russian__ > 0 ∧ hitSkipRussian env ray h skip_russian sampler = false
      then 1 / russian__ else 1
    transfer_coefficients :=
      if b.type = PointType.SCATTERED then
        scatteredTransfer h.mat b.sampling_type b.transfer_coefficients h.diffuse h.specular
          b.lightN b.dir (hitVr ray)
      else b.transfer_coefficients }

/-- The sky point committed when no triangle is hit (lines 166-174). -/
def skyPoint (ray : Ray) (thinglass : ThinglassIsections) : PathPoint :=
  { PathPoint.init with thinglass_isect := thinglass, infinity := true, Vr := ray.direction.neg }

/-- The next ray (lines 444-447): it starts at `p.pos` moved by
`10 * epsilon` along `p.faceN`, to the far side for `ENTERED` and `LEFT`, and
has the direction `glm::normalize(dir)` (`dir` itself when that is NaN). -/
def nextRay {σ : Type} (env : PathEnv σ) (p : PathPoint) (dir : Vec3) : Ray :=
  { origin := p.pos.add (Vec3.smul (env.epsilon * 10
      * (if p.type = PointType.ENTERED ∨ p.type = PointType.LEFT then -1 else 1)) p.faceN)
    direction := (normalize env.sqrt dir).getD dir }

/-- One iteration of the `while(true)` loop of `GeneratePath`: whether the loop
goes on, and the state it leaves. -/
def generateStep {σ : Type} (env : PathEnv σ) (depth__ : Nat) (russian__ : ℚ)
    (s : GenState σ) : Bool × GenState σ :=
  let n := s.n + 1
  let n2 := s.n2 + 1
  if n2 ≥ 20 then (false, { s with n := n, n2 := n2 })
  else
    let t := terminationTest env depth__ russian__ n s.skip_russian s.sampler
    if t.1 then (false, { s with n := n, n2 := n2, skip_russian := t.2.1, sampler := t.2.2 })
    else
      match env.intersect s.current_ray s.last_triangle with
      | Intersected.sky thinglass =>
        (false, { s with n := n, n2 := n2, skip_russian := t.2.1, sampler := t.2.2,
                         raycount := wrapU (s.raycount + 1),
                         path := s.path ++ [skyPoint s.current_ray thinglass] })
      | Intersected.degenerate =>
        (false, { s with n := n, n2 := n2, skip_russian := t.2.1, sampler := t.2.2,
                         raycount := wrapU (s.raycount + 1) })
      | Intersected.hit thinglass h =>
        let p := hitPoint env russian__ s.current_ray t.2.1 thinglass h t.2.2
        (true, { current_ray := nextRay env p p.Vi
                 n := hitN env s.current_ray h n t.2.2
                 n2 := n2
                 skip_russian := hitSkipRussian env s.current_ray h t.2.1 t.2.2
                 last_triangle := some h.triangle
                 path := s.path ++ [p]
                 sampler := (hitBounce env s.current_ray h t.2.2).sampler
                 raycount := wrapU (s.raycount + 1) })

/-- The `while(true)` loop of `GeneratePath`; `none` when the fuel runs out. -/
def generateLoop {σ : Type} (env : PathEnv σ) (depth__ : Nat) (russian__ : ℚ) :
    Nat → GenState σ → Option (GenState σ)
  | 0, _ => none
  | fuel + 1, s =>
    let r := generateStep env depth__ russian__ s
    if r.1 then generateLoop env depth__ russian__ fuel r.2 else some r.2

/-- The method `PathTracer::GeneratePath(r, raycount, depth__, russian__)`: the
final state of its loop, whose member `path` is the returned vector. -/
def GeneratePath {σ : Type} (env : PathEnv σ) (fuel : Nat) (r : Ray) (raycount : Nat)
    (depth__ : Nat) (russian__ : ℚ) (sampler : σ) : Option (GenState σ) :=
  generateLoop env depth__ russian__ fuel
    { current_ray := r, n := 0, n2 := 0, skip_russian := false, last_triangle := none,
      path := [], sampler := sampler, raycount := raycount }

/-! ## View-path integration (`PathTracer::TracePath`, third phase) -/

/-- A colour triple before it is sanitised: each channel is a float or NaN
(`none`). -/
structure RadianceN where
  r : Option ℚ
  g : Option ℚ
  b : Option ℚ
  deriving DecidableEq, Repr

/-- Lines 676-683 on one channel: `if(c > clamp) c = clamp;` followed by
`if(glm::isnan(c) || c < 0.0f) c = 0.0f;`. A comparison with NaN is false. -/
def clampChannel (clamp : ℚ) (c : Option ℚ) : ℚ :=
  let c1 : Option ℚ :=
    match c with
    | some v => if v > clamp then some clamp else some v
    | none => none
  match c1 with
  | none => 0
  | some v => if v < 0 then 0 else v

/-- Lines 676-683: the clamp and the safeguard on the three channels. -/
def clampSanitise (clamp : ℚ) (total : RadianceN) : Radiance :=
  ⟨clampChannel clamp total.r, clampChannel clamp total.g, clampChannel clamp total.b⟩

/-- Modelled from the spec: the collaborators of the third phase of
`TracePath`: the member `clamp`, `scene.epsilon`, `scene.GetSkyboxRay`, the
value `total` that lines 581-671 compute for a surface point from the point,
the flag `last` and `from_next` (direct and indirect lighting, emission and
thin-glass filters; it may hold NaN), and the default-constructed `Radiance`
with which `from_next` starts. -/
structure ViewEnv where
  clamp : ℚ
  epsilon : ℚ
  GetSkyboxRay : Vec3 → Radiance
  shade : PathPoint → Bool → Radiance → RadianceN
  fromNextInit : Radiance

/-- The body of the loop of lines 568-689 for the point `p`. -/
def viewStep (v : ViewEnv) (p : PathPoint) (last : Bool) (from_next : Radiance) : Radiance :=
  if p.infinity then
    ApplyThinglass v.epsilon (v.GetSkyboxRay p.Vr) p.thinglass_isect p.Vr.neg
  else clampSanitise v.clamp (v.shade p last from_next)

/-- The loop `for(int n = path.size()-1; n >= 0; n--)` of lines 568-689: the
value of `from_next` after the points of `path` have been processed from the
last to the first (a path has at most 19 points, so the conversion to `int`
is exact). -/
def viewLoop (v : ViewEnv) : List PathPoint → Radiance
  | [] => v.fromNextInit
  | [p] => viewStep v p true v.fromNextInit
  | p :: q :: rest => viewStep v p false (viewLoop v (q :: rest))

/-- The member `main_pixel` of the result of `PathTracer::TracePath(r, raycount)`:
the forward path is generated with the members `depth` and `russian`, and
`from_next` after the third phase is returned. -/
def TracePath_main_pixel {σ : Type} (env : PathEnv σ) (v : ViewEnv) (fuel : Nat) (r : Ray)
    (raycount depth : Nat) (russian : ℚ) (sampler : σ) : Option Radiance :=
  (GeneratePath env fuel r raycount depth russian sampler).map fun final => viewLoop v final.path

/-! ## Example scenes, used to evaluate the definitions -/

/-- A sampler without state that always returns 0, a decide-and-rescale that
accepts when the sample is below the probability, and a scene without
triangles: every ray is a sky ray. -/
def emptySceneEnv : PathEnv Unit :=
  { sqrt := sqrtQ, epsilon := 1 / 1000, force_fresnell := false,
    Get1D := fun _ => (0, ()), Get2D := fun _ => ((0, 0), ()),
    DecideAndRescale := fun s p => (decide (s < p), s),
    intersect := fun _ _ => Intersected.sky [] }

/-- A view environment with the sky `(0.2, 0.4, 0.8)` and the clamp `0.1`. -/
def blueSkyView : ViewEnv :=
  { clamp := 1 / 10, epsilon := 1 / 1000, GetSkyboxRay := fun _ => ⟨1 / 5, 2 / 5, 4 / 5⟩,
    shade := fun _ _ _ => ⟨some 0, some 0, some 0⟩, fromNextInit := ⟨0, 0, 0⟩ }

/-- A translucent material of refraction index 2 with a constant BRDF. -/
def glassMaterial : Material :=
  { translucency := 1 / 2, refraction_index := 2, emissive := false, emission := ⟨0, 0, 0⟩,
    GetRay := fun _ _ _ _ _ => (⟨0, 0, 1⟩, ⟨1, 1, 1⟩, BRDFSamplingType.SAMPLING_COSINE),
    Apply := fun _ _ _ _ _ => ⟨0, 0, 0⟩ }

/-- A hit on a glass face whose stored normal is `(0, 0, -1)`, without bump
map. -/
def glassHit : SurfaceHit :=
  { triangle := 0, pos := ⟨0, 0, 0⟩, faceN := ⟨0, 0, -1⟩, lightNOf := fun n => n,
    diffuse := ⟨1, 1, 1⟩, specular := ⟨0, 0, 0⟩, mat := glassMaterial }

/-- A scene in which every ray hits the glass face `glassHit`. -/
def glassEnv : PathEnv Unit :=
  { sqrt := sqrtQ, epsilon := 1 / 1000, force_fresnell := false,
    Get1D := fun _ => (0, ()), Get2D := fun _ => ((0, 0), ()),
    DecideAndRescale := fun s p => (decide (s < p), s),
    intersect := fun _ _ => Intersected.hit [] glassHit }

/-- The state of `GeneratePath` at its first iteration for a ray of direction
`(-3/5, 0, -4/5)` that travels inside the glass. -/
def glassStart : GenState Unit :=
  { current_ray := ⟨⟨0, 0, 1⟩, ⟨-3 / 5, 0, -4 / 5⟩⟩, n := 0, n2 := 0, skip_russian := false,
    last_triangle := none, path := [], sampler := (), raycount := 0 }

/-! ## Whitted tracer (`trace_ray` and `Render`, `src/src/main.cpp`)

The scene, the camera, the class `Ray` and the LRU buffer are not among the
sources; they enter as the fields of `WhittedScene` or are modelled from the
spec. Triangles are referred to by an index. -/

/-- The constant `SHADOW_CACHE_SIZE`. -/
def SHADOW_CACHE_SIZE : Nat := 5

/-- Modelled from the spec: a light, of which `trace_ray` reads the position,
the colour and the intensity. -/
structure Light where
  pos : Vec3
  color : Radiance
  intensity : ℚ
  deriving DecidableEq, Repr

/-- Modelled from the spec: a ray with its clipping parameters `near` and
`far`. -/
structure ClipRay where
  origin : Vec3
  direction : Vec3
  near : ℚ
  far : ℚ
  deriving DecidableEq, Repr

/-- Modelled from the spec: what lines 41-72 of `trace_ray` obtain for a ray
that hits a triangle: the hit position `ipos`, the interpolated and
bump-mapped normal `N`, the textured colours and the Phong exponent of the
material. -/
structure WhittedHit where
  ipos : Vec3
  N : Vec3
  diffuse : Radiance
  specular : Radiance
  ambient : Radiance
  exponent : ℚ
  deriving DecidableEq, Repr

/-- Modelled from the spec: the collaborators of `trace_ray`: square root and
power, `scene.epsilon`, `cfg.sky_color`, the closest-hit query
`scene.FindIntersectKd`, the triangles of the scene,
`Triangle::TestIntersection(ray, t, a, b)` (the parameter `t` when it
succeeds) and the constructor `Ray(from, to, epsilon)`. -/
structure WhittedScene where
  sqrt : ℚ → ℚ
  pow : ℚ → ℚ → ℚ
  epsilon : ℚ
  sky_color : Radiance
  FindIntersectKd : ClipRay → Option WhittedHit
  triangles : List Nat
  TestIntersection : Nat → ClipRay → Option ℚ
  RayFromTo : Vec3 → Vec3 → ℚ → ClipRay

/-- Modelled from the spec: `scene.FindIntersectKdAny(ray)`, the any-hit query:
the first triangle of the scene that the ray hits at a parameter strictly
between `near` and `far`, if there is one. -/
def FindIntersectKdAny (sc : WhittedScene) (ray : ClipRay) : Option Nat :=
  sc.triangles.find? fun tri =>
    match sc.TestIntersection tri ray with
    | some t => decide (ray.near < t ∧ t < ray.far)
    | none => false

/-- Modelled from the spec: `LRUBuffer::Use(v)`, move-to-front or
insert-and-evict-oldest; the buffer is listed most recent first. -/
def LRUBuffer.Use (capacity : Nat) (buf : List Nat) (v : Nat) : List Nat :=
  (v :: buf.erase v).take capacity

/-- The function `glm::length`. -/
def length (sqrt : ℚ → ℚ) (v : Vec3) : ℚ := sqrt (dot v v)

/-- Lines 85-99: the search of the shadow cache of one light, in the order of
the buffer. The result is the triangle found, if any, and the number of times
`raycount` was incremented. -/
def cacheLookup (sc : WhittedScene) (ray : ClipRay) : List Nat → Option Nat × Nat
  | [] => (none, 0)
  | tri :: rest =>
    match sc.TestIntersection tri ray with
    | some t =>
      if t < ray.near - sc.epsilon ∨ t > ray.far + sc.epsilon then
        ((cacheLookup sc ray rest).1, (cacheLookup sc ray rest).2 + 1)
      else (some tri, 1)
    | none => ((cacheLookup sc ray rest).1, (cacheLookup sc ray rest).2 + 1)

/-- Lines 82-104: the search for a shadow triangle, first in the cache, then
with the any-hit query, with the number of increments of `raycount`. -/
def shadowSearch (sc : WhittedScene) (ray : ClipRay) (buf : List Nat) : Option Nat × Nat :=
  match (cacheLookup sc ray buf).1 with
  | some tri => (some tri, (cacheLookup sc ray buf).2)
  | none => (FindIntersectKdAny sc ray, (cacheLookup sc ray buf).2 + 1)

/-- The shadow ray `ray_to_light` of line 82. -/
def rayToLight (sc : WhittedScene) (h : WhittedHit) (l : Light) : ClipRay :=
  sc.RayFromTo h.ipos l.pos (sc.epsilon * 2 * length sc.sqrt (h.ipos.sub l.pos))

/-- The value of `shadow_triangle` at line 106, with the number of increments
of `raycount`: no search when `depth <= 0`. -/
def shadowTriangle (sc : WhittedScene) (h : WhittedHit) (depth : Int) (l : Light)
    (buf : List Nat) : Option Nat × Nat :=
  if depth > 0 then shadowSearch sc (rayToLight sc h l) buf else (none, 0)

/-- The direction `L = glm::normalize(l.pos - ipos)` of line 78 (the zero
vector when the light sits at the hit point, where the source has NaN). -/
def lightDir (sc : WhittedScene) (h : WhittedHit) (l : Light) : Vec3 :=
  (normalize sc.sqrt (l.pos.sub h.ipos)).getD (l.pos.sub h.ipos)

/-- The factor `intens_factor` of lines 109-121. -/
def intensFactor (sc : WhittedScene) (h : WhittedHit) (l : Light) : ℚ :=
  let distance := length sc.sqrt (h.ipos.sub l.pos)
  let d := distance * distance
  let dist_func := 1 / (3 + d) / (485 / 100)
  l.intensity * 1 * dist_func

/-- Lines 109-146: what an unoccluded light adds to `total`. -/
def lightContribution (sc : WhittedScene) (h : WhittedHit) (V : Vec3) (l : Light) : Radiance :=
  let L := lightDir sc h l
  let intens_factor := intensFactor sc h l
  let kD := max 0 (dot h.N L)
  let diffusePart := ((l.color.scale intens_factor).mul h.diffuse).scale kD
  if h.exponent > 1 then
    let R := mirror L h.N
    let a := max 0 (dot R V)
    let kS := sc.pow a h.exponent
    diffusePart.add ((((l.color.scale intens_factor).mul h.specular).scale kS).scale 1)
  else diffusePart

/-- The body of the loop over the lights (lines 77-153) for the light `l` with
its cache buffer `buf`: the new `total`, the new buffer and the number of
increments of `raycount`. -/
def lightStep (sc : WhittedScene) (h : WhittedHit) (V : Vec3) (depth : Int) (l : Light)
    (buf : List Nat) (total : Radiance) : Radiance × List Nat × Nat :=
  match (shadowTriangle sc h depth l buf).1 with
  | none => (total.add (lightContribution sc h V l), buf, (shadowTriangle sc h depth l buf).2)
  | some tri =>
    (total, LRUBuffer.Use SHADOW_CACHE_SIZE buf tri, (shadowTriangle sc h depth l buf).2)

/-- The loop over the lights (lines 76-153); the buffer of the light number
`qq` is `shadow_cache[qq]`. -/
def lightsLoop (sc : WhittedScene) (h : WhittedHit) (V : Vec3) (depth : Int) :
    List Light → List (List Nat) → Radiance → Nat → Radiance × List (List Nat) × Nat
  | [], shadow_cache, total, raycount => (total, shadow_cache, raycount)
  | l :: ls, shadow_cache, total, raycount =>
    let step := lightStep sc h V depth l (shadow_cache.headD []) total
    let rest := lightsLoop sc h V depth ls shadow_cache.tail step.1 (wrapU (raycount + step.2.2))
    (rest.1, step.2.1 :: rest.2.1, rest.2.2)

/-- The function `trace_ray(scene, r, lights, shadow_cache, cfg, depth, raycount)`:
the returned colour, with the shadow cache and the counter `raycount` it
leaves. -/
def trace_ray (sc : WhittedScene) (lights : List Light) (r : ClipRay)
    (shadow_cache : List (List Nat)) (depth : Int) (raycount : Nat) :
    Radiance × List (List Nat) × Nat :=
  match sc.FindIntersectKd r with
  | some h =>
    let V := r.direction.neg
    let ll := lightsLoop sc h V depth lights shadow_cache ⟨0, 0, 0⟩ (wrapU (raycount + 1))
    let total1 := if lights.length = 0 then ll.1.add h.diffuse else ll.1
    let total2 := total1.add (h.ambient.scale (1 / 10))
    if _hd : depth ≥ 2 ∧ h.exponent < 1 then
      let refl := mirror V h.N
      let refl_ray := { sc.RayFromTo h.ipos (h.ipos.add refl) (1 / 100) with far := 1000 }
      let reflection := trace_ray sc lights refl_ray ll.2.1 (depth - 1) ll.2.2
      ((reflection.1.scale h.exponent).add (total2.scale (1 - h.exponent)),
        reflection.2.1, reflection.2.2)
    else (total2, ll.2.1, ll.2.2)
  | none => (sc.sky_color, shadow_cache, wrapU (raycount + 1))
termination_by depth.toNat
decreasing_by omega

/-- The subpixel positions `(mx2, my)` visited by the loops of lines 208-220,
in order. -/
def samplePositions (m : Nat) : List (Nat × Nat) :=
  (List.range m).flatMap fun my =>
    (List.range m).map fun mx => (if my % 2 = 0 then m - mx - 1 else mx, my)

/-- The loops of lines 208-220 over the remaining subpixel positions: the
rays come from the camera (`camRay x y mx2 my`), `pixel_total` accumulates
the traced colours in `float` arithmetic, whose rounding is `fl`. -/
def pixelSamples (fl : ℚ → ℚ) (sc : WhittedScene) (lights : List Light)
    (camRay : Nat → Nat → Nat → Nat → ClipRay) (recursion_level : Int) (x y : Nat) :
    List (Nat × Nat) → Radiance → List (List Nat) → Nat → Radiance × List (List Nat) × Nat
  | [], pixel_total, shadow_cache, raysdone => (pixel_total, shadow_cache, raysdone)
  | s :: rest, pixel_total, shadow_cache, raysdone =>
    let t := trace_ray sc lights (camRay x y s.1 s.2) shadow_cache recursion_level raysdone
    pixelSamples fl sc lights camRay recursion_level x y rest (pixel_total.addF fl t.1)
      t.2.1 t.2.2

/-- Lines 205-221 for the pixel `(x, y)`: the colour passed to `SetPixel`,
`pixel_total * (1.0f / (m*m))`, and the cache and ray counter left behind.
The product `m*m` is an `unsigned int`, it is converted to `float`, the
quotient and the channel products are rounded to `float` (`fl`); the colour
is `none` when the division is by zero. -/
def renderPixel (fl : ℚ → ℚ) (sc : WhittedScene) (lights : List Light)
    (camRay : Nat → Nat → Nat → Nat → ClipRay) (recursion_level : Int) (m x y : Nat)
    (shadow_cache : List (List Nat)) (raysdone : Nat) :
    Option Radiance × List (List Nat) × Nat :=
  let s := pixelSamples fl sc lights camRay recursion_level x y (samplePositions m) ⟨0, 0, 0⟩
    shadow_cache raysdone
  (if fl (wrapU (m * m) : ℚ) = 0 then none
    else some (s.1.scaleF fl (fl (1 / fl (wrapU (m * m) : ℚ)))),
   s.2.1, s.2.2)

/-- The pixels written by `Render` with their colours, for the remaining
pixels of a tile. -/
def renderValues (fl : ℚ → ℚ) (sc : WhittedScene) (lights : List Light)
    (camRay : Nat → Nat → Nat → Nat → ClipRay) (recursion_level : Int) (m : Nat) :
    List (Nat × Nat) → List (List Nat) → Nat → List ((Nat × Nat) × Option Radiance)
  | [], _, _ => []
  | px :: rest, shadow_cache, raysdone =>
    let r := renderPixel fl sc lights camRay recursion_level m px.1 px.2 shadow_cache raysdone
    (px, r.1) :: renderValues fl sc lights camRay recursion_level m rest r.2.1 r.2.2

/-- The calls `output->SetPixel(x, y, colour)` of `Render(task, ...)`, in
order: the per-thread shadow cache starts with one empty buffer per light and
`raysdone` at 0; `fl` is the rounding of the `float` operations on
`pixel_total`. -/
def RenderOutput (fl : ℚ → ℚ) (sc : WhittedScene) (lights : List Light)
    (camRay : Nat → Nat → Nat → Nat → ClipRay) (recursion_level : Int) (m : Nat)
    (task : RenderTask) : List ((Nat × Nat) × Option Radiance) :=
  renderValues fl sc lights camRay recursion_level m (Render task)
    (List.replicate lights.length []) 0

/-- A camera that sends every subpixel ray along `(0, 0, -1)`. -/
def fixedCamera : Nat → Nat → Nat → Nat → ClipRay :=
  fun _ _ _ _ => ⟨⟨0, 0, 1⟩, ⟨0, 0, -1⟩, 0, 1000⟩

/-- A Whitted scene without triangles and with the sky `(0.2, 0.4, 0.8)`, the
channels being the `float` values `0.2f`, `0.4f` and `0.8f`. -/
def emptyWhittedScene : WhittedScene :=
  { sqrt := sqrtQ, pow := powQ, epsilon := 1 / 1000,
    sky_color := ⟨13421773 / 67108864, 13421773 / 33554432, 13421773 / 16777216⟩,
    FindIntersectKd := fun _ => none, triangles := [],
    TestIntersection := fun _ _ => none,
    RayFromTo := fun a b e => ⟨a, b.sub a, e, 1⟩ }

/-- A Whitted scene in which every ray hits the surface point `h`, whose
triangles `tris` all cross every shadow ray at the parameter `t`, and whose
shadow rays are clipped to `(0, 1)`. -/
def surfaceScene (tris : List Nat) (t : ℚ) (h : WhittedHit) : WhittedScene :=
  { sqrt := sqrtQ, pow := powQ, epsilon := 1 / 1000, sky_color := ⟨0, 0, 0⟩,
    FindIntersectKd := fun _ => some h, triangles := tris,
    TestIntersection := fun _ _ => some t,
    RayFromTo := fun a b _ => ⟨a, b.sub a, 0, 1⟩ }

/-- A white surface point at the origin with normal `(0, 0, 1)` and Phong
exponent 2. -/
def whiteHit : WhittedHit :=
  { ipos := ⟨0, 0, 0⟩, N := ⟨0, 0, 1⟩, diffuse := ⟨1, 1, 1⟩, specular := ⟨1, 1, 1⟩,
    ambient := ⟨1, 1, 1⟩, exponent := 2 }

/-- The surface point `whiteHit` with the specular colour `(-10, -10, -10)`. -/
def darkSpecularHit : WhittedHit :=
  { whiteHit with specular := ⟨-10, -10, -10⟩ }

/-- A white light of intensity 1 at `(0, 0, 1)`. -/
def whiteLight : Light := { pos := ⟨0, 0, 1⟩, color := ⟨1, 1, 1⟩, intensity := 1 }

/-! ## Path measures and the light phase of `PathTracer::TracePath` -/

/-- The number of points of a path that are neither sky points nor free
bounces (`REFLECTED`, `ENTERED`, `LEFT`). -/
def countedPoints (path : List PathPoint) : Nat :=
  path.countP fun p => !p.infinity && !p.type.isFree

/-- The function `glm::distance2`. -/
def distance2 (a b : Vec3) : ℚ := dot (a.sub b) (a.sub b)

/-- Modelled from the spec: the collaborators of the second phase of
`TracePath`: the square root, `scene.epsilon`, `scene.Visibility(a, b)` and
`camera.GetCoordsFromDirection(direction, x2, y2)` (the pixel, when the
direction is in view). -/
structure LightPhaseEnv where
  sqrt : ℚ → ℚ
  epsilon : ℚ
  Visibility : Vec3 → Vec3 → Bool
  GetCoordsFromDirection : Vec3 → Option (Int × Int)

/-- Lines 529-537 of `TracePath`: what `light_carried` becomes at the point
`p`. -/
def carryLight (p : PathPoint) (light_carried : Radiance) : Radiance :=
  match p.type with
  | PointType.SCATTERED =>
    light_carried.mul (p.transfer_coefficients.scale p.russian_coefficient)
  | PointType.REFLECTED => light_carried
  | PointType.LEFT => light_carried
  | PointType.ENTERED => light_carried.mul p.diffuse

/-- Lines 541-558 of `TracePath`: the side effect, if any, that the point `p`
of the light path deposits, given the value of `light_carried` at line 541.
No side effect when `direction` or `G` is NaN. -/
def sideEffect (e : LightPhaseEnv) (camerapos : Vec3) (p : PathPoint)
    (light_carried : Radiance) : Option (Int × Int × Radiance) :=
  if p.type = PointType.SCATTERED then
    if p.infinity = false ∧ e.Visibility p.pos camerapos = true then
      match normalize e.sqrt (p.pos.sub camerapos), p.mat with
      | some direction, some mat =>
        let q := light_carried.mul (mat.Apply p.diffuse p.specular p.lightN p.Vr direction.neg)
        let G := max 0 (dot p.lightN direction.neg) / distance2 camerapos p.pos
        if G ≥ 1 / 100000 then
          match e.GetCoordsFromDirection direction with
          | some xy => some (xy.1, xy.2, q.scale G)
          | none => none
        else none
      | _, _ => none
    else none
  else none

/-- The body of the loop of lines 510-560 for the point `p`: the point with
its member `light_from_source`, the new `light_carried` and the side effect. -/
def lightPhaseStep (e : LightPhaseEnv) (camerapos : Vec3) (p : PathPoint)
    (light_carried : Radiance) : PathPoint × Radiance × Option (Int × Int × Radiance) :=
  let lc1 := ApplyThinglass e.epsilon light_carried p.thinglass_isect p.Vr
  let lc2 := carryLight p lc1
  ({ p with light_from_source := lc1 }, lc2, sideEffect e camerapos p lc2)

/-- The loop of lines 510-560 over the light path: the updated light path and
the side effects pushed, in order. `emitted` is the value given to
`light_carried` at the first point (lines 519-522). -/
def lightPhase (e : LightPhaseEnv) (camerapos : Vec3) :
    List PathPoint → Radiance → List PathPoint × List (Int × Int × Radiance)
  | [], _ => ([], [])
  | p :: rest, light_carried =>
    let st := lightPhaseStep e camerapos p light_carried
    let r := lightPhase e camerapos rest st.2.1
    (st.1 :: r.1, match st.2.2 with
      | some s => s :: r.2
      | none => r.2)

/-- The member `side_effects` of the result of `PathTracer::TracePath`: the
light path is generated from `light_ray` with the depth `reverse` and the
russian value `-1.0f` (line 503), and the second phase runs over it. -/
def TracePath_side_effects {σ : Type} (env : PathEnv σ) (e : LightPhaseEnv) (fuel : Nat)
    (camerapos : Vec3) (light_ray : Ray) (emitted : Radiance) (raycount reverse : Nat)
    (sampler : σ) : Option (List (Int × Int × Radiance)) :=
  (GeneratePath env fuel light_ray raycount reverse (-1) sampler).map fun final =>
    (lightPhase e camerapos final.path emitted).2

/-! ## Example scenes for the path tracer -/

/-- A matte material: the Lambertian BRDF `Kd/pi`, sampled with the cosine
strategy; the sampler returns the normal it is given. -/
def matteMaterial : Material :=
  { translucency := 0, refraction_index := 1, emissive := false, emission := ⟨0, 0, 0⟩,
    GetRay := fun N _ _ _ _ => (N, ⟨1, 1, 1⟩, BRDFSamplingType.SAMPLING_COSINE),
    Apply := fun Kd _ _ _ _ => Kd.divS PI }

/-- A hit on a matte face of albedo `1/2`, without bump map. -/
def matteHit (triangle : Nat) (pos faceN : Vec3) : SurfaceHit :=
  { triangle := triangle, pos := pos, faceN := faceN, lightNOf := fun n => n,
    diffuse := ⟨1 / 2, 1 / 2, 1 / 2⟩, specular := ⟨0, 0, 0⟩, mat := matteMaterial }

/-- A scene of a matte floor (triangle 0) and a matte ceiling (triangle 1):
a ray that starts outside hits the floor, a ray leaving the floor hits the
ceiling, and a ray leaving the ceiling escapes to the sky. The sampler
always returns 0. -/
def matteEnv : PathEnv Unit :=
  { sqrt := sqrtQ, epsilon := 1 / 1000, force_fresnell := false,
    Get1D := fun _ => (0, ()), Get2D := fun _ => ((0, 0), ()),
    DecideAndRescale := fun s p => (decide (s < p), s),
    intersect := fun _ last =>
      match last with
      | none => Intersected.hit [] (matteHit 0 ⟨0, 0, 0⟩ ⟨0, 0, 1⟩)
      | some 0 => Intersected.hit [] (matteHit 1 ⟨0, 0, 2⟩ ⟨0, 0, -1⟩)
      | some _ => Intersected.sky [] }

/-- A ray from `(0, 0, 1)` straight down onto the matte floor. -/
def downRay : Ray := ⟨⟨0, 0, 1⟩, ⟨0, 0, -1⟩⟩

/-- The state of `GeneratePath` at its first iteration for the ray `r`. -/
def startState (r : Ray) : GenState Unit :=
  { current_ray := r, n := 0, n2 := 0, skip_russian := false, last_triangle := none,
    path := [], sampler := (), raycount := 0 }

/-- A translucent material of refraction index 8/5. -/
def bumpMaterial : Material :=
  { translucency := 1 / 2, refraction_index := 8 / 5, emissive := false,
    emission := ⟨0, 0, 0⟩,
    GetRay := fun N _ _ _ _ => (N, ⟨1, 1, 1⟩, BRDFSamplingType.SAMPLING_COSINE),
    Apply := fun Kd _ _ _ _ => Kd.divS PI }

/-- A hit on a face of normal `(0, 0, 1)` whose bump map tilts the shading
normal to `(3/5, 0, 4/5)`. -/
def bumpHit : SurfaceHit :=
  { triangle := 0, pos := ⟨0, 0, 0⟩, faceN := ⟨0, 0, 1⟩, lightNOf := fun _ => ⟨3 / 5, 0, 4 / 5⟩,
    diffuse := ⟨1, 1, 1⟩, specular := ⟨1, 1, 1⟩, mat := bumpMaterial }

/-- A scene in which every ray hits the bump-mapped face `bumpHit`. -/
def bumpEnv : PathEnv Unit :=
  { sqrt := sqrtQ, epsilon := 1 / 1000, force_fresnell := false,
    Get1D := fun _ => (0, ()), Get2D := fun _ => ((0, 0), ()),
    DecideAndRescale := fun s p => (decide (s < p), s),
    intersect := fun _ _ => Intersected.hit [] bumpHit }

/-- A ray that reaches the bump-mapped face from above, with
`Vr = (-3/5, 0, 4/5)`. -/
def bumpRay : Ray := ⟨⟨-3 / 5, 0, 4 / 5⟩, ⟨3 / 5, 0, -4 / 5⟩⟩

/-- A camera that sees every point, at the pixel `(0, 0)`. -/
def openView : LightPhaseEnv :=
  { sqrt := sqrtQ, epsilon := 1 / 1000, Visibility := fun _ _ => true,
    GetCoordsFromDirection := fun _ => some (0, 0) }

/-! ## Reflection chain of the Whitted tracer -/

/-- The function `trace_ray` instrumented with the record of its calls along
one reflection chain: the result of
`trace_ray(scene, r, lights, shadow_cache, cfg, depth, raycount)` as in
`trace_ray`, paired with the value of `depth` in the call itself followed by
the record of the nested call
`trace_ray(scene, refl_ray, ..., depth-1, raycount)` of line 169, which is
made when `depth >= 2 && exponent < 1.0f`. -/
def trace_ray_calls (sc : WhittedScene) (lights : List Light) (r : ClipRay)
    (shadow_cache : List (List Nat)) (depth : Int) (raycount : Nat) :
    (Radiance × List (List Nat) × Nat) × List Int :=
  match sc.FindIntersectKd r with
  | some h =>
    let V := r.direction.neg
    let ll := lightsLoop sc h V depth lights shadow_cache ⟨0, 0, 0⟩ (wrapU (raycount + 1))
    let total1 := if lights.length = 0 then ll.1.add h.diffuse else ll.1
    let total2 := total1.add (h.ambient.scale (1 / 10))
    if _hd : depth ≥ 2 ∧ h.exponent < 1 then
      let refl := mirror V h.N
      let refl_ray := { sc.RayFromTo h.ipos (h.ipos.add refl) (1 / 100) with far := 1000 }
      let nested := trace_ray_calls sc lights refl_ray ll.2.1 (depth - 1) ll.2.2
      (((nested.1.1.scale h.exponent).add (total2.scale (1 - h.exponent)),
          nested.1.2.1, nested.1.2.2),
        depth :: nested.2)
    else ((total2, ll.2.1, ll.2.2), [depth])
  | none => ((sc.sky_color, shadow_cache, wrapU (raycount + 1)), [depth])
termination_by depth.toNat
decreasing_by omega

/-! ## LTC table lookups (`src/src/LTC/ltc_beckmann.cpp`)

The table size `size` is an `extern const int` whose value is not among the
sources; it is a parameter. `floorf` is the floor of a rational. -/

/-- The linear index `alpha + theta*size` with which `get_n` and `getAMP_n`
address `tabM` and `tabAmplitude`. -/
def LTC_BECKMANN.get_n (size theta alpha : Int) : Int := alpha + theta * size

/-- The local `t` of `get_bilinear` after lines 22 and 24. -/
def LTC_BECKMANN.bilinear_t (theta : ℚ) : ℚ :=
  let t := max 0 (min 1 (theta / ((1 / 2) * (314159 / 100000))))
  if t ≥ 1 then 999 / 1000 else t

/-- The local `a` of `get_bilinear` after lines 23 and 25. -/
def LTC_BECKMANN.bilinear_a (sqrt : ℚ → ℚ) (alpha : ℚ) : ℚ :=
  let a := max 0 (min 1 (sqrt alpha))
  if a ≥ 1 then 999 / 1000 else a

/-- The four (theta index, alpha index) pairs that `get_bilinear` passes to
`get_n` and to `getAMP_n`, in the order `(t1,a1)`, `(t1,a2)`, `(t2,a1)`,
`(t2,a2)` of lines 30-37. -/
def LTC_BECKMANN.get_bilinear (size : Int) (sqrt : ℚ → ℚ) (theta alpha : ℚ) :
    List (Int × Int) :=
  let t := LTC_BECKMANN.bilinear_t theta
  let a := LTC_BECKMANN.bilinear_a sqrt alpha
  let t1 := ⌊t * size⌋
  let t2 := t1 + 1
  let a1 := ⌊a * size⌋
  let a2 := a1 + 1
  [(t1, a1), (t1, a2), (t2, a1), (t2, a2)]

/-- The clamped (theta index, alpha index) pair `(t, a)` of `getAMP`, which
reads `tabAmplitude[a + t*size]`. -/
def LTC_BECKMANN.getAMP (size : Int) (sqrt : ℚ → ℚ) (theta alpha : ℚ) : Int × Int :=
  (max 0 (min (size - 1) ⌊theta / ((1 / 2) * (314159 / 100000)) * size⌋),
   max 0 (min (size - 1) ⌊sqrt alpha * size⌋))

end RGK

/-! ## Lemmas on the tile scheduler -/

namespace RGK

theorem Render_eq_product (t : RenderTask) :
    Render t =
      ((List.range' t.yrange_start (t.yrange_end - t.yrange_start)).product
        (List.range' t.xrange_start (t.xrange_end - t.xrange_start))).map Prod.swap := by
  simp [Render, List.product, List.map_flatMap, Function.comp_def]

theorem Render_nodup (t : RenderTask) : (Render t).Nodup := by
  rw [Render_eq_product]
  exact ((List.nodup_range' _ _).product (List.nodup_range' _ _)).map Prod.swap_injective

theorem mem_Render (t : RenderTask) (p : Nat × Nat) :
    p ∈ Render t ↔ t.contains p = true := by
  rcases p with ⟨x, y⟩
  simp only [Render_eq_product, RenderTask.contains, List.mem_map, Prod.exists, Prod.swap_prod_mk,
    Prod.mk.injEq, List.pair_mem_product, List.mem_range'_1, decide_eq_true_eq]
  constructor
  · rintro ⟨a, b, ⟨⟨h1, h2⟩, h3, h4⟩, rfl, rfl⟩
    omega
  · rintro ⟨h1, h2, h3, h4⟩
    exact ⟨y, x, ⟨⟨h3, by omega⟩, h1, by omega⟩, rfl, rfl⟩

theorem count_of_nodup {α : Type} [BEq α] [LawfulBEq α] {l : List α} (h : l.Nodup) (a : α) :
    l.count a = if a ∈ l then 1 else 0 := by
  induction l with
  | nil => simp
  | cons b l ih =>
    rw [List.nodup_cons] at h
    rw [List.count_cons, ih h.2]
    by_cases hba : b = a
    · subst hba
      simp [h.1]
    · have hab : ¬ a = b := fun e => hba e.symm
      simp [hba, hab]

theorem Render_count (t : RenderTask) (p : Nat × Nat) :
    (Render t).count p = if t.contains p = true then 1 else 0 := by
  rw [count_of_nodup (Render_nodup t)]
  simp only [mem_Render]

theorem Render_length (t : RenderTask) : (Render t).length = t.area := by
  simp [Render, RenderTask.area, List.length_flatMap, Function.comp_def, Nat.mul_comm]

theorem count_flatMap_Render (ts : List RenderTask) (p : Nat × Nat) :
    (ts.flatMap Render).count p = ts.countP (fun t => t.contains p) := by
  induction ts with
  | nil => simp
  | cons t ts ih =>
    simp only [List.flatMap_cons, List.count_append, ih, Render_count, List.countP_cons]
    omega

theorem length_flatMap_Render (ts : List RenderTask) :
    (ts.flatMap Render).length = (ts.map RenderTask.area).sum := by
  induction ts with
  | nil => simp
  | cons t ts ih => simp [List.flatMap_cons, ih, Render_length]

theorem wrapU_of_lt {n : Nat} (h : n < 4294967296) : wrapU n = n := by
  unfold wrapU UINT_RANGE
  omega

theorem contains_ctor (vinit : Vec2) (xres yres x1 x2 y1 y2 : Nat) (p : Nat × Nat) :
    (RenderTask.ctor vinit xres yres x1 x2 y1 y2).contains p
      = decide (x1 ≤ p.1 ∧ p.1 < x2 ∧ y1 ≤ p.2 ∧ p.2 < y2) := rfl

theorem area_ctor (vinit : Vec2) (xres yres x1 x2 y1 y2 : Nat) :
    (RenderTask.ctor vinit xres yres x1 x2 y1 y2).area = (x2 - x1) * (y2 - y1) := rfl

theorem splitRow_spec (vinit : Vec2) (xres yres yp : Nat)
    (hx : xres ≤ NO_WRAP_MAX) (hy : yp + tile_size < 4294967296) :
    ∀ (fuel xp : Nat) (tasks : List RenderTask), xp % tile_size = 0 → xres - xp < fuel →
      ∃ row, splitRow vinit xres yres yp fuel xp tasks = some (tasks ++ row)
        ∧ (∀ p : Nat × Nat, row.countP (fun t => t.contains p)
            = if xp ≤ p.1 ∧ p.1 < xres ∧ yp ≤ p.2 ∧ p.2 < min yres (yp + tile_size) then 1 else 0)
        ∧ (row.map RenderTask.area).sum = (xres - xp) * (min yres (yp + tile_size) - yp) := by
  intro fuel
  induction fuel with
  | zero =>
    intro xp tasks _ hf
    refine ⟨[], ?_, ?_, ?_⟩
    · exfalso; omega
    · intro p
      have : ¬ (xp ≤ p.1 ∧ p.1 < xres ∧ yp ≤ p.2 ∧ p.2 < min yres (yp + tile_size)) := by omega
      simp only [List.countP_nil, if_neg this]
    · have : xres - xp = 0 := by omega
      simp [this]
  | succ fuel ih =>
    intro xp tasks hmod hf
    unfold NO_WRAP_MAX at hx
    unfold tile_size at hmod hy
    by_cases hlt : xp < xres
    · have hw : wrapU (xp + tile_size) = xp + 200 := by
        unfold tile_size
        exact wrapU_of_lt (by omega)
      have hwy : wrapU (yp + tile_size) = yp + 200 := by
        unfold tile_size
        exact wrapU_of_lt (by omega)
      obtain ⟨row, hrow, hcnt, harea⟩ := ih (xp + 200)
        (tasks ++ [RenderTask.ctor vinit xres yres xp (min xres (xp + 200)) yp (min yres (yp + 200))])
        (by unfold tile_size; omega) (by omega)
      refine ⟨RenderTask.ctor vinit xres yres xp (min xres (xp + 200)) yp (min yres (yp + 200)) :: row,
        ?_, ?_, ?_⟩
      · rw [splitRow, if_pos hlt, hw, hwy, hrow]
        simp
      · intro p
        rw [List.countP_cons, hcnt p, contains_ctor]
        simp only [decide_eq_true_eq]
        unfold tile_size
        by_cases h1 : xp + 200 ≤ p.1 ∧ p.1 < xres ∧ yp ≤ p.2 ∧ p.2 < min yres (yp + 200)
        · have h2 : ¬ (xp ≤ p.1 ∧ p.1 < min xres (xp + 200) ∧ yp ≤ p.2 ∧ p.2 < min yres (yp + 200)) := by
            omega
          have h3 : xp ≤ p.1 ∧ p.1 < xres ∧ yp ≤ p.2 ∧ p.2 < min yres (yp + 200) := by omega
          simp only [if_pos h1, if_neg h2, if_pos h3]
        · by_cases h2 : xp ≤ p.1 ∧ p.1 < min xres (xp + 200) ∧ yp ≤ p.2 ∧ p.2 < min yres (yp + 200)
          · have h3 : xp ≤ p.1 ∧ p.1 < xres ∧ yp ≤ p.2 ∧ p.2 < min yres (yp + 200) := by omega
            simp only [if_neg h1, if_pos h2, if_pos h3]
          · have h3 : ¬ (xp ≤ p.1 ∧ p.1 < xres ∧ yp ≤ p.2 ∧ p.2 < min yres (yp + 200)) := by omega
            simp only [if_neg h1, if_neg h2, if_neg h3]
      · rw [List.map_cons, List.sum_cons, harea, area_ctor]
        unfold tile_size
        have e : min xres (xp + 200) - xp + (xres - (xp + 200)) = xres - xp := by omega
        rw [← Nat.add_mul, e]
    · refine ⟨[], ?_, ?_, ?_⟩
      · rw [splitRow, if_neg hlt]
        simp
      · intro p
        have : ¬ (xp ≤ p.1 ∧ p.1 < xres ∧ yp ≤ p.2 ∧ p.2 < min yres (yp + tile_size)) := by omega
        simp only [List.countP_nil, if_neg this]
      · have : xres - xp = 0 := by omega
        simp [this]

theorem splitRows_spec (vinit : Vec2) (xres yres : Nat)
    (hx : xres ≤ NO_WRAP_MAX) (hy : yres ≤ NO_WRAP_MAX) :
    ∀ (fuel yp : Nat) (tasks : List RenderTask), yp % tile_size = 0 → xres + (yres - yp) < fuel →
      ∃ rows, splitRows vinit xres yres fuel yp tasks = some (tasks ++ rows)
        ∧ (∀ p : Nat × Nat, rows.countP (fun t => t.contains p)
            = if p.1 < xres ∧ yp ≤ p.2 ∧ p.2 < yres then 1 else 0)
        ∧ (rows.map RenderTask.area).sum = xres * (yres - yp) := by
  intro fuel
  induction fuel with
  | zero =>
    intro yp tasks _ hf
    refine ⟨[], ?_, ?_, ?_⟩
    · exfalso; omega
    · intro p
      have : ¬ (p.1 < xres ∧ yp ≤ p.2 ∧ p.2 < yres) := by omega
      simp [this]
    · have : yres - yp = 0 := by omega
      simp [this]
  | succ fuel ih =>
    intro yp tasks hmod hf
    by_cases hlt : yp < yres
    · have hy2 : yp + tile_size < 4294967296 := by
        unfold NO_WRAP_MAX at hy
        unfold tile_size at hmod ⊢
        omega
      have hwy : wrapU (yp + tile_size) = yp + 200 := by
        unfold tile_size at hy2 ⊢
        exact wrapU_of_lt hy2
      obtain ⟨row, hrow, hcnt, harea⟩ := splitRow_spec vinit xres yres yp hx hy2 fuel 0 tasks
        (by simp) (by omega)
      obtain ⟨rows, hrows, hcnt2, harea2⟩ := ih (yp + 200) (tasks ++ row)
        (by unfold tile_size at hmod ⊢; omega) (by omega)
      refine ⟨row ++ rows, ?_, ?_, ?_⟩
      · rw [splitRows, if_pos hlt, hrow]
        simp only [hwy, hrows, List.append_assoc]
      · intro p
        rw [List.countP_append, hcnt p, hcnt2 p]
        unfold tile_size
        by_cases h1 : p.1 < xres ∧ yp + 200 ≤ p.2 ∧ p.2 < yres
        · have h2 : ¬ (0 ≤ p.1 ∧ p.1 < xres ∧ yp ≤ p.2 ∧ p.2 < min yres (yp + 200)) := by omega
          have h3 : p.1 < xres ∧ yp ≤ p.2 ∧ p.2 < yres := by omega
          simp only [if_pos h1, if_neg h2, if_pos h3]
        · by_cases h2 : 0 ≤ p.1 ∧ p.1 < xres ∧ yp ≤ p.2 ∧ p.2 < min yres (yp + 200)
          · have h3 : p.1 < xres ∧ yp ≤ p.2 ∧ p.2 < yres := by omega
            simp only [if_neg h1, if_pos h2, if_pos h3]
          · have h3 : ¬ (p.1 < xres ∧ yp ≤ p.2 ∧ p.2 < yres) := by omega
            simp only [if_neg h1, if_neg h2, if_neg h3]
      · rw [List.map_append, List.sum_append, harea, harea2]
        unfold tile_size
        have e : min yres (yp + 200) - yp + (yres - (yp + 200)) = yres - yp := by omega
        rw [Nat.sub_zero, ← Nat.mul_add, e]
    · refine ⟨[], ?_, ?_, ?_⟩
      · rw [splitRows, if_neg hlt]
        simp
      · intro p
        have : ¬ (p.1 < xres ∧ yp ≤ p.2 ∧ p.2 < yres) := by omega
        simp [this]
      · have : yres - yp = 0 := by omega
        simp [this]

theorem splitRow_mono (vinit : Vec2) (xres yres yp : Nat) :
    ∀ (fuel xp : Nat) (tasks r : List RenderTask),
      splitRow vinit xres yres yp fuel xp tasks = some r →
      ∀ extra, splitRow vinit xres yres yp (fuel + extra) xp tasks = some r := by
  intro fuel
  induction fuel with
  | zero =>
    intro xp tasks r h
    simp [splitRow] at h
  | succ fuel ih =>
    intro xp tasks r h extra
    rw [show fuel + 1 + extra = (fuel + extra) + 1 by omega]
    rw [splitRow] at h ⊢
    by_cases hlt : xp < xres
    · rw [if_pos hlt] at h ⊢
      exact ih _ _ _ h extra
    · rw [if_neg hlt] at h ⊢
      exact h

theorem splitRows_mono (vinit : Vec2) (xres yres : Nat) :
    ∀ (fuel yp : Nat) (tasks r : List RenderTask),
      splitRows vinit xres yres fuel yp tasks = some r →
      ∀ extra, splitRows vinit xres yres (fuel + extra) yp tasks = some r := by
  intro fuel
  induction fuel with
  | zero =>
    intro yp tasks r h
    simp [splitRows] at h
  | succ fuel ih =>
    intro yp tasks r h extra
    rw [show fuel + 1 + extra = (fuel + extra) + 1 by omega]
    rw [splitRows] at h ⊢
    by_cases hlt : yp < yres
    · rw [if_pos hlt] at h ⊢
      cases hrow : splitRow vinit xres yres yp fuel 0 tasks with
      | none => simp [hrow] at h
      | some tasks1 =>
        rw [hrow] at h
        rw [splitRow_mono vinit xres yres yp fuel 0 tasks tasks1 hrow extra]
        exact ih _ _ _ h extra
    · rw [if_neg hlt] at h ⊢
      exact h

theorem splitTiles_401x199 (vinit : Vec2) :
    splitTiles vinit 5 401 199 =
      some [RenderTask.ctor vinit 401 199 0 200 0 199,
            RenderTask.ctor vinit 401 199 200 400 0 199,
            RenderTask.ctor vinit 401 199 400 401 0 199] := by
  rfl

/-! ## Tile scheduler: the claims -/

/-- C1: for every image size within the no-wrap bound, the splitting loops of
`main` finish (given enough fuel) with a task list that partitions the pixel
grid. For every order in which the tasks are submitted (the sort only
permutes them): `Render` calls `SetPixel` once for each pixel of its tile and
for no other pixel, every pixel of the image lies in exactly one tile and is
written exactly once, and the number of pixels written is `xres * yres`. -/
theorem C1_tiles_partition_pixels (vinit : Vec2) (xres yres fuel : Nat)
    (hx : xres ≤ NO_WRAP_MAX) (hy : yres ≤ NO_WRAP_MAX) (hfuel : xres + yres < fuel) :
    ∃ tiles, splitTiles vinit fuel xres yres = some tiles ∧
      ∀ submitted : List RenderTask, submitted.Perm tiles →
        (∀ t ∈ submitted, ∀ p, (Render t).count p = if t.contains p = true then 1 else 0) ∧
        (∀ x y, x < xres → y < yres →
          submitted.countP (fun t => t.contains (x, y)) = 1 ∧
          (submitted.flatMap Render).count (x, y) = 1) ∧
        (submitted.flatMap Render).length = xres * yres := by
  obtain ⟨rows, hrows, hcnt, harea⟩ :=
    splitRows_spec vinit xres yres hx hy fuel 0 [] (by simp) (by omega)
  refine ⟨rows, by simpa [splitTiles] using hrows, ?_⟩
  intro submitted hperm
  refine ⟨fun t _ p => Render_count t p, ?_, ?_⟩
  · intro x y hxlt hylt
    have h1 : submitted.countP (fun t => t.contains (x, y)) = 1 := by
      rw [hperm.countP_eq, hcnt (x, y)]
      exact if_pos ⟨hxlt, Nat.zero_le _, hylt⟩
    exact ⟨h1, by rw [count_flatMap_Render, h1]⟩
  · rw [(hperm.flatMap_right Render).length_eq, length_flatMap_Render, harea, Nat.sub_zero]

/-- Witness for C1 at the 401 x 199 image. -/
theorem C1_tiles_partition_pixels_witness :
    ∃ tiles, splitTiles (0, 0) 601 401 199 = some tiles ∧
      ∀ submitted : List RenderTask, submitted.Perm tiles →
        (∀ t ∈ submitted, ∀ p, (Render t).count p = if t.contains p = true then 1 else 0) ∧
        (∀ x y, x < 401 → y < 199 →
          submitted.countP (fun t => t.contains (x, y)) = 1 ∧
          (submitted.flatMap Render).count (x, y) = 1) ∧
        (submitted.flatMap Render).length = 401 * 199 :=
  C1_tiles_partition_pixels (0, 0) 401 199 601 (by decide) (by decide) (by decide)

/-- C2 as stated fails: the 401 x 199 image is split into 3 tiles, not 6. -/
theorem C2_six_tiles_counterexample :
    (splitTiles (0, 0) 5 401 199).map List.length = some 3 ∧
      (splitTiles (0, 0) 5 401 199).map List.length ≠ some 6 := by
  decide

/-- C2 (amended): splitting a 401 x 199 image with tile size 200 yields exactly
3 tiles (one row of three), whatever the fuel beyond 5, and the tiles cover
`401 * 199` pixels, which is also the number of `SetPixel` calls. -/
theorem C2_tiles_401x199 (vinit : Vec2) (extra : Nat) :
    ∃ tiles, splitTiles vinit (5 + extra) 401 199 = some tiles ∧ tiles.length = 3 ∧
      (tiles.map RenderTask.area).sum = 401 * 199 ∧
      (tiles.flatMap Render).length = 401 * 199 := by
  refine ⟨_, splitRows_mono vinit 401 199 5 0 [] _ (splitTiles_401x199 vinit) extra, rfl, ?_, ?_⟩
  · norm_num [RenderTask.area, RenderTask.ctor]
  · rw [length_flatMap_Render]
    norm_num [RenderTask.area, RenderTask.ctor]

/-- C3 (code behaviour at the 401 x 199 image): every task built by `main`
carries the value left by the default constructor as `midpoint`, the same for
all tiles, and for at least one tile this is not the centroid of the tile. -/
theorem C3_midpoint_not_centroid (vinit : Vec2) :
    ∃ tiles, splitTiles vinit 5 401 199 = some tiles ∧
      (∀ t ∈ tiles, t.midpoint = vinit) ∧ ∃ t ∈ tiles, t.midpoint ≠ t.centroid := by
  refine ⟨_, splitTiles_401x199 vinit, ?_, ?_⟩
  · intro t ht
    simp only [List.mem_cons, List.mem_singleton, List.not_mem_nil, or_false] at ht
    rcases ht with rfl | rfl | rfl <;> rfl
  · by_cases h : vinit.1 = 100
    · refine ⟨RenderTask.ctor vinit 401 199 200 400 0 199, by simp, ?_⟩
      intro hc
      have h1 := congrArg Prod.fst hc
      simp only [RenderTask.ctor, RenderTask.centroid] at h1
      rw [h] at h1
      norm_num at h1
    · refine ⟨RenderTask.ctor vinit 401 199 0 200 0 199, by simp, ?_⟩
      intro hc
      have h1 := congrArg Prod.fst hc
      simp only [RenderTask.ctor, RenderTask.centroid] at h1
      apply h
      rw [h1]
      norm_num

/-- C4 (code behaviour at `hardware_concurrency() = 0`): the subtraction wraps
and the pool is created with `2^32 - 1` threads, not with 1. -/
theorem C4_poolSize_zero : poolSize 0 = 4294967295 ∧ poolSize 0 ≠ max 1 (0 - 1) := by
  norm_num [poolSize, wrapU, UINT_RANGE]

/-- Pool size for the other values: `max(1, hw - 1)` when `hw` is at least 1. -/
theorem poolSize_of_pos (hw : Nat) (h1 : 1 ≤ hw) (h2 : hw < UINT_RANGE) :
    poolSize hw = max 1 (hw - 1) := by
  unfold poolSize wrapU
  unfold UINT_RANGE at *
  have e : (hw + 2 ^ 32 - 1) % 2 ^ 32 = hw - 1 := by omega
  rw [e]

end RGK

/-! ## Fresnel term -/

namespace RGK

theorem sqrtQ_nonneg (x : ℚ) : 0 ≤ sqrtQ x := by
  unfold sqrtQ
  positivity

theorem sqrtQ_pos {x : ℚ} (hx : 0 < x) : 0 < sqrtQ x := by
  unfold sqrtQ
  have hnum : 0 < x.num := Rat.num_pos.mpr hx
  have hden : 0 < x.den := x.den_pos
  have h1 : 0 < x.num.toNat := by omega
  have h2 : 0 < Nat.sqrt (x.num.toNat * x.den) := Nat.sqrt_pos.mpr (Nat.mul_pos h1 hden)
  have h3 : (0 : ℚ) < (Nat.sqrt (x.num.toNat * x.den) : ℚ) := by exact_mod_cast h2
  have h4 : (0 : ℚ) < (x.den : ℚ) := by exact_mod_cast hden
  exact div_pos h3 h4

theorem sq_ratio_le_one {a b : ℚ} (ha : 0 ≤ a) (hb : 0 ≤ b) :
    (a - b) / (a + b) * ((a - b) / (a + b)) ≤ 1 := by
  rcases eq_or_lt_of_le (add_nonneg ha hb) with h | h
  · rw [← h]
    simp
  · have h1 : -1 ≤ (a - b) / (a + b) := by
      rw [le_div_iff₀ h]
      linarith
    have h2 : (a - b) / (a + b) ≤ 1 := by
      rw [div_le_iff₀ h]
      linarith
    nlinarith

theorem fresnelR_bounds {etai etat cosi cost : ℚ} (hi : 0 ≤ etai) (ht : 0 ≤ etat)
    (hc : 0 ≤ cosi) (hs : 0 ≤ cost) :
    0 ≤ fresnelR etai etat cosi cost ∧ fresnelR etai etat cosi cost ≤ 1 := by
  have hs1 := sq_ratio_le_one (mul_nonneg ht hc) (mul_nonneg hi hs)
  have hp1 := sq_ratio_le_one (mul_nonneg hi hc) (mul_nonneg ht hs)
  have hs0 := mul_self_nonneg (fresnelRs etai etat cosi cost)
  have hp0 := mul_self_nonneg (fresnelRp etai etat cosi cost)
  unfold fresnelR
  unfold fresnelRs fresnelRp at *
  constructor
  · linarith
  · linarith

theorem fresnelEtai_pos (cosi : ℚ) {ior : ℚ} (h : 0 < ior) : 0 < fresnelEtai cosi ior := by
  unfold fresnelEtai
  split_ifs
  · exact h
  · exact one_pos

theorem fresnelEtat_pos (cosi : ℚ) {ior : ℚ} (h : 0 < ior) : 0 < fresnelEtat cosi ior := by
  unfold fresnelEtat
  split_ifs
  · exact one_pos
  · exact h

/-- For a positive index and a square root that is non-negative, and positive
on positive arguments, neither quotient of the `else` branch of `Fresnel`
divides by zero. -/
theorem Fresnel_denominators_pos (sqrt : ℚ → ℚ) (hsqrt : ∀ x, 0 ≤ sqrt x)
    (hpos : ∀ x, 0 < x → 0 < sqrt x) (I N : Vec3) (ior : ℚ) (hior : 0 < ior)
    (hnt : fresnelSint sqrt (dot I N) ior < 1) :
    0 < fresnelEtat (dot I N) ior * |dot I N|
        + fresnelEtai (dot I N) ior
          * sqrt (max 0 (1 - fresnelSint sqrt (dot I N) ior * fresnelSint sqrt (dot I N) ior))
    ∧ 0 < fresnelEtai (dot I N) ior * |dot I N|
        + fresnelEtat (dot I N) ior
          * sqrt (max 0 (1 - fresnelSint sqrt (dot I N) ior * fresnelSint sqrt (dot I N) ior)) := by
  have hi := fresnelEtai_pos (dot I N) hior
  have ht := fresnelEtat_pos (dot I N) hior
  have hs0 : 0 ≤ fresnelSint sqrt (dot I N) ior := by
    unfold fresnelSint
    exact mul_nonneg (div_nonneg hi.le ht.le) (hsqrt _)
  have hlt : fresnelSint sqrt (dot I N) ior * fresnelSint sqrt (dot I N) ior < 1 := by nlinarith
  have hc : 0 < sqrt (max 0 (1 - fresnelSint sqrt (dot I N) ior * fresnelSint sqrt (dot I N) ior)) := by
    apply hpos
    exact lt_max_of_lt_right (by linarith)
  have ha : 0 ≤ |dot I N| := abs_nonneg _
  constructor
  · have := mul_nonneg ht.le ha
    have := mul_pos hi hc
    linarith
  · have := mul_nonneg hi.le ha
    have := mul_pos ht hc
    linarith

/-- C5 as stated fails: with `ior = -2` and `I = -N` the function returns 9. -/
theorem C5_negative_ior_counterexample :
    Fresnel sqrtQ ⟨0, 0, -1⟩ ⟨0, 0, 1⟩ (-2) = 9 ∧ ¬ (Fresnel sqrtQ ⟨0, 0, -1⟩ ⟨0, 0, 1⟩ (-2) ≤ 1) := by
  norm_num [Fresnel, fresnelSint, fresnelEtai, fresnelEtat, dot, sqrtQ, fresnelR, fresnelRs,
    fresnelRp]

/-- C5 (amended): for all `I`, `N` and every positive `ior`, `Fresnel(I, N, ior)`
lies in the closed interval `[0, 1]` (for any non-negative square root). -/
theorem C5_Fresnel_range (sqrt : ℚ → ℚ) (hsqrt : ∀ x, 0 ≤ sqrt x) (I N : Vec3) (ior : ℚ)
    (hior : 0 < ior) :
    0 ≤ Fresnel sqrt I N ior ∧ Fresnel sqrt I N ior ≤ 1 := by
  unfold Fresnel
  simp only
  split_ifs with h
  · exact ⟨zero_le_one, le_refl 1⟩
  · exact fresnelR_bounds (fresnelEtai_pos _ hior).le (fresnelEtat_pos _ hior).le (abs_nonneg _)
      (hsqrt _)

/-- Witness for C5 (amended): glass of index 3/2 hit at an angle. -/
theorem C5_Fresnel_range_witness :
    (0 : ℚ) < 3 / 2 ∧ 0 ≤ Fresnel sqrtQ ⟨3 / 5, 0, -4 / 5⟩ ⟨0, 0, 1⟩ (3 / 2)
      ∧ Fresnel sqrtQ ⟨3 / 5, 0, -4 / 5⟩ ⟨0, 0, 1⟩ (3 / 2) ≤ 1 :=
  ⟨by norm_num, C5_Fresnel_range sqrtQ sqrtQ_nonneg ⟨3 / 5, 0, -4 / 5⟩ ⟨0, 0, 1⟩ (3 / 2) (by norm_num)⟩

/-- C6: `Fresnel(I, N, ior)` returns exactly 1 whenever the transmitted sine
`(etai/etat) * sqrt(max(0, 1 - cosi^2))` is at least 1, where `cosi = dot(I, N)`
and `(etai, etat) = (1, ior)`, swapped when `cosi > 0`. -/
theorem C6_Fresnel_total_internal_reflection (sqrt : ℚ → ℚ) (I N : Vec3) (ior : ℚ)
    (htir : 1 ≤ (if dot I N > 0 then ior else 1) / (if dot I N > 0 then 1 else ior)
              * sqrt (max 0 (1 - dot I N * dot I N))) :
    Fresnel sqrt I N ior = 1 := by
  unfold Fresnel
  simp only
  rw [if_pos]
  exact htir

/-- Witness for C6: grazing incidence from the dense side, `ior = 1/2`. -/
theorem C6_Fresnel_total_internal_reflection_witness :
    (1 ≤ (if dot ⟨1, 0, 0⟩ ⟨0, 0, 1⟩ > 0 then (1 / 2 : ℚ) else 1)
            / (if dot ⟨1, 0, 0⟩ ⟨0, 0, 1⟩ > 0 then 1 else (1 / 2 : ℚ))
          * sqrtQ (max 0 (1 - dot ⟨1, 0, 0⟩ ⟨0, 0, 1⟩ * dot ⟨1, 0, 0⟩ ⟨0, 0, 1⟩)))
      ∧ Fresnel sqrtQ ⟨1, 0, 0⟩ ⟨0, 0, 1⟩ (1 / 2) = 1 :=
  ⟨by norm_num [dot, sqrtQ],
   C6_Fresnel_total_internal_reflection sqrtQ ⟨1, 0, 0⟩ ⟨0, 0, 1⟩ (1 / 2)
     (by norm_num [dot, sqrtQ])⟩

/-- C7: the value `(Rs^2 + Rp^2)/2` computed by the `else` branch of `Fresnel`
is unchanged when `cosi` and `cost` are exchanged, for every `etai`, `etat`,
`cosi`, `cost`. -/
theorem C7_Fresnel_symmetric (etai etat cosi cost : ℚ) :
    fresnelR etai etat cosi cost = fresnelR etai etat cost cosi := by
  have h1 : fresnelRs etai etat cost cosi = - fresnelRp etai etat cosi cost := by
    unfold fresnelRs fresnelRp
    rw [← neg_div, neg_sub, add_comm]
  have h2 : fresnelRp etai etat cost cosi = - fresnelRs etai etat cosi cost := by
    unfold fresnelRs fresnelRp
    rw [← neg_div, neg_sub, add_comm]
  unfold fresnelR
  rw [h1, h2]
  ring

end RGK

/-! ## Thin-glass filter -/

namespace RGK

theorem thinglassStart_of_le {size : Nat} (h1 : 1 ≤ size) (h2 : size ≤ 2147483648) :
    thinglassStart size = (size : Int) - 1 := by
  unfold thinglassStart UINT_RANGE
  have e : ((size : Int) - 1) % ((2 ^ 32 : Nat) : Int) = (size : Int) - 1 := by omega
  simp only [e]
  rw [if_pos (by omega)]

/-- Up to `2^31` intersections the loop visits the whole list, last to first. -/
theorem thinglassVisitOrder_of_le (isections : List (Triangle × ℚ))
    (h : isections.length ≤ 2147483648) :
    thinglassVisitOrder isections = isections.reverse := by
  unfold thinglassVisitOrder
  rcases Nat.eq_zero_or_pos isections.length with h0 | h0
  · rw [List.length_eq_zero] at h0
    subst h0
    rfl
  · rw [thinglassStart_of_le h0 h]
    have e : ((isections.length : Int) - 1 + 1).toNat = isections.length := by omega
    rw [e, List.take_length]

theorem foldl_thinglassStep (epsilon : ℚ) (ray_direction : Vec3) :
    ∀ (l : List (Triangle × ℚ)) (ct : ℚ) (result : Radiance),
      (l.foldl (thinglassStep epsilon ray_direction) (ct, result)).2
        = ((visitedFrom epsilon ct l).filter (passesOrientation ray_direction)).foldl
            (fun acc isect => acc.mul isect.1.diffuse) result := by
  intro l
  induction l with
  | nil =>
    intro ct result
    rfl
  | cons isect rest ih =>
    intro ct result
    rw [List.foldl_cons, visitedFrom]
    by_cases hskip : isect.2 ≤ ct + epsilon
    · rw [if_pos hskip]
      have hstep : thinglassStep epsilon ray_direction (ct, result) isect = (ct, result) := by
        simp only [thinglassStep, if_pos hskip]
      rw [hstep, ih]
    · rw [if_neg hskip]
      by_cases hdot : dot isect.1.generic_normal ray_direction ≥ 0
      · have hstep : thinglassStep epsilon ray_direction (ct, result) isect
            = (isect.2, result.mul isect.1.diffuse) := by
          simp only [thinglassStep, if_neg hskip, if_pos hdot]
        have hf : passesOrientation ray_direction isect = true := by
          simp only [passesOrientation, decide_eq_true_eq]
          exact hdot
        rw [hstep, ih, List.filter_cons_of_pos hf, List.foldl_cons]
      · have hstep : thinglassStep epsilon ray_direction (ct, result) isect
            = (isect.2, result) := by
          simp only [thinglassStep, if_neg hskip, if_neg hdot]
        have hf : ¬ passesOrientation ray_direction isect = true := by
          simp only [passesOrientation, decide_eq_true_eq]
          exact hdot
        rw [hstep, ih, List.filter_cons_of_neg hf]

/-- C8: with an empty intersection list `ApplyThinglass` returns its input
radiance unchanged, for every radiance and direction, so applying it any
number of times gives the same result as applying it once. -/
theorem C8_ApplyThinglass_empty (epsilon : ℚ) (input : Radiance) (ray_direction : Vec3) :
    ApplyThinglass epsilon input [] ray_direction = input ∧
      ∀ n : Nat, (fun r => ApplyThinglass epsilon r [] ray_direction)^[n + 1] input
        = ApplyThinglass epsilon input [] ray_direction := by
  have h : ∀ r, ApplyThinglass epsilon r [] ray_direction = r := by
    intro r
    simp [ApplyThinglass, thinglassVisitOrder]
  refine ⟨h input, fun n => ?_⟩
  have hid : (fun r => ApplyThinglass epsilon r [] ray_direction) = id := funext h
  rw [hid, Function.iterate_id, h]
  rfl

/-- C9 as stated fails: a triangle whose normal faces against the direction
argument (`dot < 0`) leaves the radiance untouched, and one whose normal points
along it (`dot > 0`) filters it. -/
theorem C9_orientation_counterexample :
    dot (⟨0, 0, 1⟩ : Vec3) ⟨0, 0, -1⟩ < 0 ∧
    ApplyThinglass (1 / 1000) ⟨1, 1, 1⟩ [(⟨⟨0, 0, 1⟩, ⟨1 / 2, 1 / 2, 1 / 2⟩⟩, 1)] ⟨0, 0, -1⟩
      = ⟨1, 1, 1⟩ ∧
    dot (⟨0, 0, 1⟩ : Vec3) ⟨0, 0, 1⟩ > 0 ∧
    ApplyThinglass (1 / 1000) ⟨1, 1, 1⟩ [(⟨⟨0, 0, 1⟩, ⟨1 / 2, 1 / 2, 1 / 2⟩⟩, 1)] ⟨0, 0, 1⟩
      = ⟨1 / 2, 1 / 2, 1 / 2⟩ := by
  unfold ApplyThinglass
  rw [thinglassVisitOrder_of_le _ (by simp)]
  norm_num [thinglassStep, dot, Radiance.mul]

/-- C9 (amended): `ApplyThinglass` multiplies the radiance by the material
diffuse exactly for those non-skipped intersections whose triangle normal `N`
satisfies `dot(N, ray_direction) >= 0`, in the order of the visit, and leaves
it untouched for those with `dot(N, ray_direction) < 0`. -/
theorem C9_ApplyThinglass_orientation (epsilon : ℚ) (input : Radiance)
    (isections : ThinglassIsections) (ray_direction : Vec3) :
    ApplyThinglass epsilon input isections ray_direction
      = ((visitedFrom epsilon (-1) (thinglassVisitOrder isections)).filter
            (fun isect => decide (dot isect.1.generic_normal ray_direction ≥ 0))).foldl
          (fun acc isect => acc.mul isect.1.diffuse) input := by
  unfold ApplyThinglass
  exact foldl_thinglassStep epsilon ray_direction (thinglassVisitOrder isections) (-1) input

/-- C10 (code behaviour): two crossings at `t = 1` and `t = 5`, far more than
`epsilon` apart and both passing the orientation test. Stored as `[1, 5]` the
loop visits `t = 5` first and then skips `t = 1`, so only one filter is
applied; stored as `[5, 1]` both are applied. -/
theorem C10_order_dependent :
    ApplyThinglass (1 / 1000) ⟨1, 1, 1⟩
        [(⟨⟨0, 0, 1⟩, ⟨1 / 2, 1 / 2, 1 / 2⟩⟩, 1), (⟨⟨0, 0, 1⟩, ⟨1 / 4, 1 / 4, 1 / 4⟩⟩, 5)]
        ⟨0, 0, 1⟩ = ⟨1 / 4, 1 / 4, 1 / 4⟩ ∧
    ApplyThinglass (1 / 1000) ⟨1, 1, 1⟩
        [(⟨⟨0, 0, 1⟩, ⟨1 / 4, 1 / 4, 1 / 4⟩⟩, 5), (⟨⟨0, 0, 1⟩, ⟨1 / 2, 1 / 2, 1 / 2⟩⟩, 1)]
        ⟨0, 0, 1⟩ = ⟨1 / 8, 1 / 8, 1 / 8⟩ := by
  unfold ApplyThinglass
  rw [thinglassVisitOrder_of_le _ (by simp), thinglassVisitOrder_of_le _ (by simp)]
  norm_num [thinglassStep, dot, Radiance.mul]

end RGK

/-! ## BRDF family -/

namespace RGK

theorem PI_pos : 0 < PI := by
  norm_num [PI]

theorem powQ_nonneg (c e : ℚ) (hc : 0 ≤ c) : 0 ≤ powQ c e := by
  unfold powQ
  exact pow_nonneg hc _

theorem Radiance.nonneg_divS {a : Radiance} {k : ℚ} (ha : a.nonneg) (hk : 0 ≤ k) :
    (a.divS k).nonneg :=
  ⟨div_nonneg ha.1 hk, div_nonneg ha.2.1 hk, div_nonneg ha.2.2 hk⟩

theorem Radiance.nonneg_scale {a : Radiance} {k : ℚ} (ha : a.nonneg) (hk : 0 ≤ k) :
    (a.scale k).nonneg :=
  ⟨mul_nonneg ha.1 hk, mul_nonneg ha.2.1 hk, mul_nonneg ha.2.2 hk⟩

theorem Radiance.nonneg_add {a c : Radiance} (ha : a.nonneg) (hc : c.nonneg) :
    (a.add c).nonneg :=
  ⟨add_nonneg ha.1 hc.1, add_nonneg ha.2.1 hc.2.1, add_nonneg ha.2.2 hc.2.2⟩

theorem mirror_unit {V N : Vec3} (hV : dot V V = 1) (hN : dot N N = 1) :
    dot (mirror V N) (mirror V N) = 1 := by
  simp only [mirror, dot, Vec3.smul, Vec3.sub] at *
  linear_combination (4 * (V.x * N.x + V.y * N.y + V.z * N.z) ^ 2) * hN + hV

theorem Phong2_of_ne (pow : ℚ → ℚ → ℚ) (N : Vec3) (Kd Ks : Radiance) (Vi Vr : Vec3)
    (exponent : ℚ) (hcos : dot Vi N ≠ 0) :
    BRDF.Phong2 pow N Kd Ks Vi Vr exponent
      = some ((Kd.divS PI).add
          (Ks.scale (pow (max 0 (dot Vr (mirror Vi N))) exponent / dot Vi N))) := by
  unfold BRDF.Phong2
  simp only [if_neg hcos]

theorem PhongEnergyConserving_of_ne (pow : ℚ → ℚ → ℚ) (N : Vec3) (Kd Ks : Radiance)
    (Vi Vr : Vec3) (exponent : ℚ) (hcos : dot Vi N ≠ 0) :
    BRDF.PhongEnergyConserving pow N Kd Ks Vi Vr exponent
      = some ((Kd.divS PI).add
          ((Ks.scale ((exponent + 2) / (2 * PI))).scale
            (pow (max 0 (dot Vr (mirror Vi N))) exponent / dot Vi N))) := by
  unfold BRDF.PhongEnergyConserving
  simp only [if_neg hcos]

/-- C15 as stated fails: at the mirror direction with `dot(Vi, N) = 4/5` the
code returns `Ks * ((n+2)/(2*pi)) * 1 / (4/5)`, which is not the value
`Ks * ((n+2)/(2*pi)) * 1` of the stated formula. -/
theorem C15_missing_division_counterexample :
    BRDF.PhongEnergyConserving powQ ⟨0, 0, 1⟩ ⟨0, 0, 0⟩ ⟨1, 1, 1⟩ ⟨3 / 5, 0, 4 / 5⟩
        ⟨-3 / 5, 0, 4 / 5⟩ 2
      = some ⟨5 / (2 * PI), 5 / (2 * PI), 5 / (2 * PI)⟩ ∧
    ((⟨0, 0, 0⟩ : Radiance).divS PI).add
        ((⟨1, 1, 1⟩ : Radiance).scale (((2 : ℚ) + 2) / (2 * PI)
          * powQ (max 0 (dot ⟨-3 / 5, 0, 4 / 5⟩ (mirror ⟨3 / 5, 0, 4 / 5⟩ ⟨0, 0, 1⟩))) 2))
      = ⟨2 / PI, 2 / PI, 2 / PI⟩ ∧
    (5 / (2 * PI) : ℚ) ≠ 2 / PI := by
  refine ⟨?_, ?_, ?_⟩
  · norm_num [BRDF.PhongEnergyConserving, mirror, dot, Vec3.smul, Vec3.sub, powQ, Radiance.divS,
      Radiance.scale, Radiance.add, PI]
  · norm_num [mirror, dot, Vec3.smul, Vec3.sub, powQ, Radiance.divS,
      Radiance.scale, Radiance.add, PI]
  · norm_num [PI]

/-- C15 (amended): for all unit `N`, `Vi`, `Vr` with `dot(Vi, N)` not zero,
colours `Kd`, `Ks` and exponent `n`, `BRDF::PhongEnergyConserving` returns
`Kd/pi + Ks * ((n+2)/(2*pi)) * (max(0, cos(theta_reflect))^n / dot(Vi, N))`,
where `cos(theta_reflect) = dot(Vr, Vs)` for the unit mirror direction
`Vs = 2*dot(Vi, N)*N - Vi`. -/
theorem C15_PhongEnergyConserving_value (pow : ℚ → ℚ → ℚ) (N : Vec3) (Kd Ks : Radiance)
    (Vi Vr : Vec3) (n : ℚ) (hN : dot N N = 1) (hVi : dot Vi Vi = 1) (hVr : dot Vr Vr = 1)
    (hcos : dot Vi N ≠ 0) :
    BRDF.PhongEnergyConserving pow N Kd Ks Vi Vr n
      = some ((Kd.divS PI).add
          ((Ks.scale ((n + 2) / (2 * PI))).scale
            (pow (max 0 (dot Vr (mirror Vi N))) n / dot Vi N)))
    ∧ dot (mirror Vi N) (mirror Vi N) = 1
    ∧ dot Vr (mirror Vi N) * dot Vr (mirror Vi N) ≤ 1 := by
  refine ⟨?_, mirror_unit hVi hN, ?_⟩
  · exact PhongEnergyConserving_of_ne pow N Kd Ks Vi Vr n hcos
  · have hS := mirror_unit hVi hN
    generalize mirror Vi N = S at hS
    simp only [dot] at *
    nlinarith [sq_nonneg (Vr.x * S.y - Vr.y * S.x), sq_nonneg (Vr.y * S.z - Vr.z * S.y),
      sq_nonneg (Vr.z * S.x - Vr.x * S.z)]

/-- Witness for C15 (amended): the mirror configuration with `dot(Vi, N) = 4/5`. -/
theorem C15_PhongEnergyConserving_value_witness :
    BRDF.PhongEnergyConserving powQ ⟨0, 0, 1⟩ ⟨1, 1, 1⟩ ⟨1, 1, 1⟩ ⟨3 / 5, 0, 4 / 5⟩
        ⟨-3 / 5, 0, 4 / 5⟩ 2
      = some (((⟨1, 1, 1⟩ : Radiance).divS PI).add
          (((⟨1, 1, 1⟩ : Radiance).scale ((2 + 2) / (2 * PI))).scale
            (powQ (max 0 (dot ⟨-3 / 5, 0, 4 / 5⟩ (mirror ⟨3 / 5, 0, 4 / 5⟩ ⟨0, 0, 1⟩))) 2
              / dot ⟨3 / 5, 0, 4 / 5⟩ ⟨0, 0, 1⟩)))
    ∧ dot (mirror ⟨3 / 5, 0, 4 / 5⟩ ⟨0, 0, 1⟩) (mirror ⟨3 / 5, 0, 4 / 5⟩ ⟨0, 0, 1⟩) = 1
    ∧ dot ⟨-3 / 5, 0, 4 / 5⟩ (mirror ⟨3 / 5, 0, 4 / 5⟩ ⟨0, 0, 1⟩)
        * dot ⟨-3 / 5, 0, 4 / 5⟩ (mirror ⟨3 / 5, 0, 4 / 5⟩ ⟨0, 0, 1⟩) ≤ 1 :=
  C15_PhongEnergyConserving_value powQ ⟨0, 0, 1⟩ ⟨1, 1, 1⟩ ⟨1, 1, 1⟩ ⟨3 / 5, 0, 4 / 5⟩
    ⟨-3 / 5, 0, 4 / 5⟩ 2 (by norm_num [dot]) (by norm_num [dot]) (by norm_num [dot])
    (by norm_num [dot])

/-- C16 as stated fails: at grazing incidence, `dot(N, Vi) = 0`, a valid input
of the closed upper hemisphere, `Phong2` and `PhongEnergyConserving` divide by
zero. -/
theorem C16_grazing_counterexample :
    dot (⟨0, 0, 1⟩ : Vec3) ⟨1, 0, 0⟩ ≥ 0 ∧ dot (⟨0, 0, 1⟩ : Vec3) ⟨0, 0, 1⟩ ≥ 0 ∧
    BRDF.Phong2 powQ ⟨0, 0, 1⟩ ⟨1, 1, 1⟩ ⟨1, 1, 1⟩ ⟨1, 0, 0⟩ ⟨0, 0, 1⟩ 2 = none ∧
    BRDF.PhongEnergyConserving powQ ⟨0, 0, 1⟩ ⟨1, 1, 1⟩ ⟨1, 1, 1⟩ ⟨1, 0, 0⟩ ⟨0, 0, 1⟩ 2 = none := by
  norm_num [BRDF.Phong2, BRDF.PhongEnergyConserving, dot]

/-- C16 (amended): for non-negative colours `Kd`, `Ks` and exponent `>= 0`,
`Diffuse` and `Phong` return per-channel non-negative values for all
directions, and `Phong2` and `PhongEnergyConserving` do so, without dividing by
zero, for every `Vi` strictly inside the upper hemisphere, `dot(N, Vi) > 0`
(for any power function that is non-negative on non-negative bases). -/
theorem C16_BRDF_nonneg (pow : ℚ → ℚ → ℚ) (hpow : ∀ c e, 0 ≤ c → 0 ≤ e → 0 ≤ pow c e)
    (N : Vec3) (Kd Ks : Radiance) (Vi Vr : Vec3) (exponent : ℚ)
    (hKd : Kd.nonneg) (hKs : Ks.nonneg) (hexp : 0 ≤ exponent) :
    (BRDF.Diffuse N Kd Ks Vi Vr exponent).nonneg ∧
    (BRDF.Phong pow N Kd Ks Vi Vr exponent).nonneg ∧
    (0 < dot Vi N →
      (∃ v, BRDF.Phong2 pow N Kd Ks Vi Vr exponent = some v ∧ v.nonneg) ∧
      (∃ v, BRDF.PhongEnergyConserving pow N Kd Ks Vi Vr exponent = some v ∧ v.nonneg)) := by
  have hd : (Kd.divS PI).nonneg := Radiance.nonneg_divS hKd PI_pos.le
  refine ⟨hd, ?_, ?_⟩
  · unfold BRDF.Phong
    exact Radiance.nonneg_add hd
      (Radiance.nonneg_scale hKs (hpow _ _ (le_max_left _ _) hexp))
  · intro hcos
    have hne : dot Vi N ≠ 0 := ne_of_gt hcos
    have hc : 0 ≤ pow (max 0 (dot Vr (mirror Vi N))) exponent / dot Vi N :=
      div_nonneg (hpow _ _ (le_max_left _ _) hexp) hcos.le
    constructor
    · refine ⟨_, Phong2_of_ne pow N Kd Ks Vi Vr exponent hne, ?_⟩
      exact Radiance.nonneg_add hd (Radiance.nonneg_scale hKs hc)
    · refine ⟨_, PhongEnergyConserving_of_ne pow N Kd Ks Vi Vr exponent hne, ?_⟩
      have hnorm : 0 ≤ (exponent + 2) / (2 * PI) :=
        div_nonneg (by linarith) (by linarith [PI_pos])
      exact Radiance.nonneg_add hd
        (Radiance.nonneg_scale (Radiance.nonneg_scale hKs hnorm) hc)

/-- Witness for C16 (amended): the mirror configuration, exponent 2. -/
theorem C16_BRDF_nonneg_witness :
    (BRDF.Diffuse ⟨0, 0, 1⟩ ⟨1, 1, 1⟩ ⟨1, 1, 1⟩ ⟨3 / 5, 0, 4 / 5⟩ ⟨-3 / 5, 0, 4 / 5⟩ 2).nonneg ∧
    (BRDF.Phong powQ ⟨0, 0, 1⟩ ⟨1, 1, 1⟩ ⟨1, 1, 1⟩ ⟨3 / 5, 0, 4 / 5⟩ ⟨-3 / 5, 0, 4 / 5⟩ 2).nonneg ∧
    (0 < dot (⟨3 / 5, 0, 4 / 5⟩ : Vec3) ⟨0, 0, 1⟩ →
      (∃ v, BRDF.Phong2 powQ ⟨0, 0, 1⟩ ⟨1, 1, 1⟩ ⟨1, 1, 1⟩ ⟨3 / 5, 0, 4 / 5⟩
          ⟨-3 / 5, 0, 4 / 5⟩ 2 = some v ∧ v.nonneg) ∧
      (∃ v, BRDF.PhongEnergyConserving powQ ⟨0, 0, 1⟩ ⟨1, 1, 1⟩ ⟨1, 1, 1⟩ ⟨3 / 5, 0, 4 / 5⟩
          ⟨-3 / 5, 0, 4 / 5⟩ 2 = some v ∧ v.nonneg)) :=
  C16_BRDF_nonneg powQ (fun c e hc _ => powQ_nonneg c e hc) ⟨0, 0, 1⟩ ⟨1, 1, 1⟩ ⟨1, 1, 1⟩
    ⟨3 / 5, 0, 4 / 5⟩ ⟨-3 / 5, 0, 4 / 5⟩ 2 (by norm_num [Radiance.nonneg])
    (by norm_num [Radiance.nonneg]) (by norm_num)

end RGK

/-! ## Rounding to `float` -/

namespace RGK

/-- The value of `roundFloat` at a positive `x` with `2^e <= x < 2^(e+1)`: the
multiple `n * 2^(e-23)` of the unit in the last place that is less than half
a unit away from `x`. -/
theorem roundFloat_eq (x : ℚ) (e n : ℤ) (hx : 0 < x) (hlo : (2 : ℚ) ^ e ≤ x)
    (hhi : x < (2 : ℚ) ^ (e + 1)) (hn : |x / (2 : ℚ) ^ (e - 23) - n| < 1 / 2) :
    roundFloat x = n * (2 : ℚ) ^ (e - 23) := by
  have hlog : Int.log 2 x = e := by
    apply le_antisymm
    · have h1 : Int.log 2 x < e + 1 := by
        rw [← Int.lt_zpow_iff_log_lt (by norm_num) hx]
        exact_mod_cast hhi
      omega
    · rw [← Int.zpow_le_iff_le_log (by norm_num) hx]
      exact_mod_cast hlo
  unfold roundFloat
  rw [if_neg (ne_of_gt hx), abs_of_pos hx, hlog, if_neg (not_lt.mpr (le_of_lt hx))]
  simp only [one_mul]
  congr 1
  rw [abs_lt] at hn
  by_cases hq : (n : ℚ) ≤ x / (2 : ℚ) ^ (e - 23)
  · have hf : ⌊x / (2 : ℚ) ^ (e - 23)⌋ = n := by
      rw [Int.floor_eq_iff]
      constructor
      · exact hq
      · linarith [hn.2]
    rw [hf, if_pos (by linarith [hn.2])]
  · have hf : ⌊x / (2 : ℚ) ^ (e - 23)⌋ = n - 1 := by
      rw [Int.floor_eq_iff]
      push_cast
      constructor
      · linarith [hn.1]
      · linarith [not_le.mp hq]
    rw [hf]
    push_cast
    rw [if_neg (by linarith [not_le.mp hq]), if_pos (by linarith [not_le.mp hq])]
    ring

/-- Rounding to the nearest integer, ties to even, is at most half a unit
away. -/
theorem roundNearest_error (q : ℚ) :
    |(((if q - ⌊q⌋ < 1 / 2 then ⌊q⌋
        else if 1 / 2 < q - ⌊q⌋ then ⌊q⌋ + 1
        else if ⌊q⌋ % 2 = 0 then ⌊q⌋ else ⌊q⌋ + 1 : ℤ) : ℚ)) - q| ≤ 1 / 2 := by
  have h1 := Int.floor_le q
  have h2 := Int.lt_floor_add_one q
  rw [abs_le]
  split_ifs with ha hb hc
  · constructor <;> linarith
  · push_cast
    constructor <;> linarith
  · constructor <;> linarith
  · push_cast
    constructor <;> linarith

/-- The relative error of binary32 rounding is at most the unit roundoff
`2^-24`. -/
theorem roundFloat_relative_error (x : ℚ) : |roundFloat x - x| ≤ 1 / 16777216 * |x| := by
  by_cases hx : x = 0
  · rw [hx]
    simp [roundFloat]
  · have ha : 0 < |x| := abs_pos.mpr hx
    have hp : (0 : ℚ) < (2 : ℚ) ^ (Int.log 2 |x| - 23) := by positivity
    have hlog : ((2 : ℕ) : ℚ) ^ (Int.log 2 |x|) ≤ |x| := Int.zpow_log_le_self (by norm_num) ha
    have h3 : ((2 : ℕ) : ℚ) = 2 := by norm_num
    rw [h3] at hlog
    have hpe : (2 : ℚ) ^ (Int.log 2 |x| - 23) = (2 : ℚ) ^ (Int.log 2 |x|) / 8388608 := by
      rw [zpow_sub₀ (by norm_num)]
      norm_num
    have hn := roundNearest_error (|x| / (2 : ℚ) ^ (Int.log 2 |x| - 23))
    generalize hnd : (if |x| / (2 : ℚ) ^ (Int.log 2 |x| - 23)
          - ⌊|x| / (2 : ℚ) ^ (Int.log 2 |x| - 23)⌋ < 1 / 2
        then ⌊|x| / (2 : ℚ) ^ (Int.log 2 |x| - 23)⌋
        else if 1 / 2 < |x| / (2 : ℚ) ^ (Int.log 2 |x| - 23)
            - ⌊|x| / (2 : ℚ) ^ (Int.log 2 |x| - 23)⌋
          then ⌊|x| / (2 : ℚ) ^ (Int.log 2 |x| - 23)⌋ + 1
          else if ⌊|x| / (2 : ℚ) ^ (Int.log 2 |x| - 23)⌋ % 2 = 0
            then ⌊|x| / (2 : ℚ) ^ (Int.log 2 |x| - 23)⌋
            else ⌊|x| / (2 : ℚ) ^ (Int.log 2 |x| - 23)⌋ + 1 : ℤ) = n at hn
    have hval : roundFloat x
        = (if x < 0 then -1 else 1) * (n : ℚ) * (2 : ℚ) ^ (Int.log 2 |x| - 23) := by
      unfold roundFloat
      rw [if_neg hx]
      simp only
      rw [hnd]
    have herr : abs ((n : ℚ) * (2 : ℚ) ^ (Int.log 2 |x| - 23) - |x|)
        ≤ 1 / 2 * (2 : ℚ) ^ (Int.log 2 |x| - 23) := by
      have e : (n : ℚ) * (2 : ℚ) ^ (Int.log 2 |x| - 23) - |x|
          = ((n : ℚ) - |x| / (2 : ℚ) ^ (Int.log 2 |x| - 23))
            * (2 : ℚ) ^ (Int.log 2 |x| - 23) := by
        field_simp
      rw [e, abs_mul, abs_of_pos hp]
      exact mul_le_mul_of_nonneg_right hn hp.le
    have hbound : 1 / 2 * (2 : ℚ) ^ (Int.log 2 |x| - 23) ≤ 1 / 16777216 * |x| := by
      rw [hpe]
      linarith
    rw [hval]
    rcases lt_or_gt_of_ne hx with hneg | hpos
    · rw [if_pos hneg]
      have hax : |x| = -x := abs_of_neg hneg
      have e : -1 * (n : ℚ) * (2 : ℚ) ^ (Int.log 2 |x| - 23) - x
          = -((n : ℚ) * (2 : ℚ) ^ (Int.log 2 |x| - 23) - |x|) := by
        rw [hax]
        ring
      rw [e, abs_neg]
      exact le_trans herr hbound
    · rw [if_neg (not_lt.mpr hpos.le)]
      have hax : |x| = x := abs_of_pos hpos
      have e : 1 * (n : ℚ) * (2 : ℚ) ^ (Int.log 2 |x| - 23) - x
          = (n : ℚ) * (2 : ℚ) ^ (Int.log 2 |x| - 23) - |x| := by
        rw [hax]
        ring
      rw [e]
      exact le_trans herr hbound

end RGK

/-! ## Refraction -/

namespace RGK

theorem sqrtQ_mul_self (y : ℚ) (hy : 0 ≤ y) : sqrtQ (y * y) = y := by
  unfold sqrtQ
  have hnum : 0 ≤ y.num := Rat.num_nonneg.mpr hy
  rw [Rat.mul_self_num, Rat.mul_self_den]
  have e : (y.num * y.num).toNat * (y.den * y.den) = (y.num.toNat * y.den) * (y.num.toNat * y.den) := by
    have : (y.num * y.num).toNat = y.num.toNat * y.num.toNat := by
      zify
      rw [Int.toNat_of_nonneg hnum, Int.toNat_of_nonneg (mul_nonneg hnum hnum)]
    rw [this]
    ring
  rw [e, Nat.sqrt_eq]
  have hden : (y.den : ℚ) ≠ 0 := by exact_mod_cast y.den_nz
  have hcast : ((y.num.toNat : ℕ) : ℚ) = (y.num : ℚ) := by
    have : ((y.num.toNat : ℕ) : ℤ) = y.num := Int.toNat_of_nonneg hnum
    exact_mod_cast congrArg (fun z : ℤ => (z : ℚ)) this
  push_cast
  rw [hcast]
  field_simp
  have h := Rat.num_div_den y
  rw [div_eq_iff hden] at h
  linear_combination (y.den : ℚ) * h

theorem dotK_comm {K : Type} [LinearOrderedField K] (a b : Vec3K K) : dotK a b = dotK b a := by
  simp only [dotK]
  ring

theorem dotK_neg_neg {K : Type} [LinearOrderedField K] (a b : Vec3K K) :
    dotK a.neg b.neg = dotK a b := by
  simp only [dotK, Vec3K.neg]
  ring

theorem dotK_neg_right {K : Type} [LinearOrderedField K] (a b : Vec3K K) :
    dotK a b.neg = - dotK a b := by
  simp only [dotK, Vec3K.neg]
  ring

theorem dotK_lincomb {K : Type} [LinearOrderedField K] (k m : K) (u v : Vec3K K) :
    dotK ((Vec3K.smul k u).add (Vec3K.smul m v)) ((Vec3K.smul k u).add (Vec3K.smul m v))
      = k ^ 2 * dotK u u + 2 * k * m * dotK u v + m ^ 2 * dotK v v := by
  simp only [dotK, Vec3K.add, Vec3K.smul]
  ring

theorem dotK_lincomb_left {K : Type} [LinearOrderedField K] (k m : K) (u v w : Vec3K K) :
    dotK ((Vec3K.smul k u).add (Vec3K.smul m v)) w = k * dotK u w + m * dotK v w := by
  simp only [dotK, Vec3K.add, Vec3K.smul]
  ring

theorem dotK_cross_self {K : Type} [LinearOrderedField K] (a b : Vec3K K) :
    dotK (crossK a b) (crossK a b) = dotK a a * dotK b b - dotK b a * dotK b a := by
  simp only [dotK, crossK]
  ring

theorem dotK_self_nonneg {K : Type} [LinearOrderedField K] (v : Vec3K K) : 0 ≤ dotK v v := by
  simp only [dotK]
  nlinarith [mul_self_nonneg v.x, mul_self_nonneg v.y, mul_self_nonneg v.z]

theorem dotK_toK (a b : Vec3) : dotK a.toK b.toK = dot a b := rfl

theorem Vec3K.neg_neg {K : Type} [LinearOrderedField K] (a : Vec3K K) : a.neg.neg = a := by
  cases a
  simp [Vec3K.neg]

/-- An exact square root returns `y` on `y * y` for `y >= 0`. -/
theorem sqrt_mul_self_of_exact {K : Type} [LinearOrderedField K] (sqrt : K → K)
    (hsq : ∀ x, 0 ≤ x → sqrt x * sqrt x = x) (hnn : ∀ x, 0 ≤ sqrt x) (y : K) (hy : 0 ≤ y) :
    sqrt (y * y) = y :=
  (mul_self_inj (hnn (y * y)) hy).mp (hsq (y * y) (mul_self_nonneg y))

theorem normalizeK_of_sq {K : Type} [LinearOrderedField K] (sqrt : K → K)
    (hsq : ∀ y, 0 ≤ y → sqrt (y * y) = y) (v : Vec3K K) (s : K)
    (hs : 0 < s) (hv : dotK v v = s * s) :
    normalizeK sqrt v = some (Vec3K.smul (1 / s) v) := by
  unfold normalizeK
  rw [hv, hsq s hs.le, if_neg (ne_of_gt hs)]

theorem normalizeK_of_unit {K : Type} [LinearOrderedField K] (sqrt : K → K)
    (hsq : ∀ y, 0 ≤ y → sqrt (y * y) = y) (v : Vec3K K)
    (hv : dotK v v = 1) : normalizeK sqrt v = some v := by
  have h1 : sqrt 1 = 1 := by simpa using hsq 1 zero_le_one
  unfold normalizeK
  rw [hv, h1, if_neg one_ne_zero]
  cases v
  simp [Vec3K.smul]

/-- The value of `Refract` away from the shortcut and from total internal
reflection, for a square root that is exact on squares: with `s1` the sine of
the angle of incidence and `c2` the cosine of the angle of refraction it is
`-IOR*in + (IOR*cos1 - c2)*N`. -/
theorem RefractK_formula {K : Type} [LinearOrderedField K] (sqrt : K → K)
    (hsq : ∀ y, 0 ≤ y → sqrt (y * y) = y) (vin N : Vec3K K)
    (IOR s1 c2 : K) (hin : dotK vin vin = 1) (hN : dotK N N = 1)
    (hnear : dotK vin N ≤ 16760439 / 16777216) (hs1 : 0 < s1)
    (hs : s1 * s1 = 1 - dotK vin N * dotK vin N)
    (hlo : -1 ≤ s1 * IOR) (hhi : s1 * IOR < 1)
    (hc2 : 0 ≤ c2) (hc : c2 * c2 = 1 - (s1 * IOR) * (s1 * IOR)) :
    RefractK sqrt vin N IOR
      = some ((Vec3K.smul (-IOR) vin).add (Vec3K.smul (IOR * dotK vin N - c2) N)) := by
  have hcross : dotK (crossK N vin) (crossK N vin) = s1 * s1 := by
    rw [dotK_cross_self, hin, hN, hs]
    ring
  have htan := normalizeK_of_sq sqrt hsq (crossK N vin) s1 hs1 hcross
  have hk : s1 * (1 / s1) = 1 := by
    field_simp
  generalize 1 / s1 = k at htan hk
  have htt : dotK (Vec3K.smul k (crossK N vin)) (Vec3K.smul k (crossK N vin)) = 1 := by
    have e : dotK (Vec3K.smul k (crossK N vin)) (Vec3K.smul k (crossK N vin))
        = k * k * dotK (crossK N vin) (crossK N vin) := by
      simp only [dotK, Vec3K.smul]
      ring
    rw [e, hcross]
    linear_combination (s1 * k + 1) * hk
  have haxis := normalizeK_of_unit sqrt hsq (Vec3K.smul k (crossK N vin)) htt
  unfold RefractK
  rw [if_neg (not_lt.mpr hnear), htan]
  simp only
  rw [if_neg (by rw [← hs]; exact not_lt.mpr (mul_self_nonneg s1))]
  rw [← hs, hsq s1 hs1.le, if_neg (not_le.mpr hhi), if_neg (not_lt.mpr hlo)]
  unfold rotateK asinK
  rw [haxis]
  simp only
  rw [← hc, hsq c2 hc2]
  simp only [Option.some.injEq, Vec3K.mk.injEq, Vec3K.add, Vec3K.smul, Vec3K.neg, crossK,
    dotK] at hN ⊢
  refine ⟨?_, ?_, ?_⟩
  · linear_combination
      (IOR * ((vin.x * N.x + vin.y * N.y + vin.z * N.z) * N.x
        - (N.x * N.x + N.y * N.y + N.z * N.z) * vin.x)) * hk - (IOR * vin.x) * hN
  · linear_combination
      (IOR * ((vin.x * N.x + vin.y * N.y + vin.z * N.z) * N.y
        - (N.x * N.x + N.y * N.y + N.z * N.z) * vin.y)) * hk - (IOR * vin.y) * hN
  · linear_combination
      (IOR * ((vin.x * N.x + vin.y * N.y + vin.z * N.z) * N.z
        - (N.x * N.x + N.y * N.y + N.z * N.z) * vin.z)) * hk - (IOR * vin.z) * hN

theorem RefractK_near_normal {K : Type} [LinearOrderedField K] (sqrt : K → K) (vin N : Vec3K K)
    (IOR : K) (h : dotK vin N > 16760439 / 16777216) :
    RefractK sqrt vin N IOR = some vin.neg := by
  unfold RefractK
  rw [if_pos h]

theorem RefractK_total_internal {K : Type} [LinearOrderedField K] (sqrt : K → K)
    (vin N : Vec3K K) (IOR : K) (hnear : dotK vin N ≤ 16760439 / 16777216)
    (htir : 1 ≤ sqrt (1 - dotK vin N * dotK vin N) * IOR) :
    RefractK sqrt vin N IOR = none := by
  unfold RefractK
  rw [if_neg (not_lt.mpr hnear)]
  cases normalizeK sqrt (crossK N vin) with
  | none => rfl
  | some tangent =>
    simp only
    split_ifs <;> rfl

theorem Refract_near_normal (sqrt : ℚ → ℚ) (vin N : Vec3) (IOR : ℚ)
    (h : dot vin N > 16760439 / 16777216) : Refract sqrt vin N IOR = some vin.neg := by
  unfold Refract
  rw [RefractK_near_normal sqrt vin.toK N.toK IOR h]
  rfl

/-- Total internal reflection: away from normal incidence, when
`sinEta2 = sinEta1 * IOR` reaches 1 the result of `Refract` is NaN. -/
theorem Refract_total_internal (sqrt : ℚ → ℚ) (vin N : Vec3) (IOR : ℚ)
    (hnear : dot vin N ≤ 999 / 1000)
    (htir : 1 ≤ sqrt (1 - dot vin N * dot vin N) * IOR) :
    Refract sqrt vin N IOR = none := by
  have hthr : dotK vin.toK N.toK ≤ 16760439 / 16777216 := by
    rw [dotK_toK]
    linarith
  unfold Refract
  rw [RefractK_total_internal sqrt vin.toK N.toK IOR hthr htir]
  rfl

theorem RefractK_unit_index {K : Type} [LinearOrderedField K] (sqrt : K → K)
    (hsq : ∀ x, 0 ≤ x → sqrt x * sqrt x = x) (hnn : ∀ x, 0 ≤ sqrt x) (vin N : Vec3K K)
    (hin : dotK vin vin = 1) (hN : dotK N N = 1) (hpos : 0 < dotK vin N) :
    RefractK sqrt vin N 1 = some vin.neg := by
  by_cases hnear : dotK vin N > 16760439 / 16777216
  · exact RefractK_near_normal sqrt vin N 1 hnear
  · have hle : dotK vin N ≤ 16760439 / 16777216 := not_lt.mp hnear
    have hcc : dotK vin N * dotK vin N < 1 := by nlinarith
    have hs := hsq (1 - dotK vin N * dotK vin N) (by linarith)
    have hs0 := hnn (1 - dotK vin N * dotK vin N)
    have hs1pos : 0 < sqrt (1 - dotK vin N * dotK vin N) := by
      rcases eq_or_lt_of_le hs0 with h0 | h0
      · exfalso
        rw [← h0] at hs
        linarith
      · exact h0
    have hlt : sqrt (1 - dotK vin N * dotK vin N) < 1 := by nlinarith
    rw [RefractK_formula sqrt (sqrt_mul_self_of_exact sqrt hsq hnn) vin N 1
      (sqrt (1 - dotK vin N * dotK vin N)) (dotK vin N) hin hN hle hs1pos hs (by linarith)
      (by linarith) hpos.le (by linarith)]
    cases vin
    cases N
    simp only [Option.some.injEq, Vec3K.mk.injEq, Vec3K.add, Vec3K.smul, Vec3K.neg]
    refine ⟨by ring, by ring, by ring⟩

theorem sqrtFloat_grazing :
    sqrtFloat (1 - dot (⟨268435455 / 268435457, 0, 32768 / 268435457⟩ : Vec3) ⟨0, 0, 1⟩
      * dot (⟨268435455 / 268435457, 0, 32768 / 268435457⟩ : Vec3) ⟨0, 0, 1⟩) = 1 := by
  have harg : 1 - dot (⟨268435455 / 268435457, 0, 32768 / 268435457⟩ : Vec3) ⟨0, 0, 1⟩
      * dot (⟨268435455 / 268435457, 0, 32768 / 268435457⟩ : Vec3) ⟨0, 0, 1⟩
      = (268435455 / 268435457 : ℚ) * (268435455 / 268435457) := by
    norm_num [dot]
  unfold sqrtFloat
  rw [harg, sqrtQ_mul_self _ (by norm_num),
    roundFloat_eq _ (-1) 16777216 (by norm_num) (by norm_num) (by norm_num)
      (by norm_num [abs_lt])]
  norm_num

/-- C12 as stated fails at grazing incidence when the square root is the one
of `float`: `in = ((2^28 - 1) / (2^28 + 1), 0, 2^15 / (2^28 + 1))` and
`N = (0, 0, 1)` are unit vectors with `dot(in, N) > 0` and the sine
`(2^28 - 1) / (2^28 + 1) < 1`, the shortcut for `dot(in, N) > 0.999f` does not
apply, the `float` square root rounds the sine to 1, and `Refract(in, N, 1)`
is NaN, not `-in`. -/
theorem C12_grazing_counterexample :
    dot (⟨268435455 / 268435457, 0, 32768 / 268435457⟩ : Vec3)
      ⟨268435455 / 268435457, 0, 32768 / 268435457⟩ = 1 ∧
    dot (⟨0, 0, 1⟩ : Vec3) ⟨0, 0, 1⟩ = 1 ∧
    dot (⟨268435455 / 268435457, 0, 32768 / 268435457⟩ : Vec3) ⟨0, 0, 1⟩ > 0 ∧
    sinSq ⟨268435455 / 268435457, 0, 32768 / 268435457⟩ ⟨0, 0, 1⟩
      = (268435455 / 268435457) ^ 2 ∧
    (268435455 / 268435457 : ℚ) < 1 ∧
    sqrtFloat (1 - dot (⟨268435455 / 268435457, 0, 32768 / 268435457⟩ : Vec3) ⟨0, 0, 1⟩
      * dot (⟨268435455 / 268435457, 0, 32768 / 268435457⟩ : Vec3) ⟨0, 0, 1⟩) = 1 ∧
    Refract sqrtFloat ⟨268435455 / 268435457, 0, 32768 / 268435457⟩ ⟨0, 0, 1⟩ 1 = none ∧
    Refract sqrtFloat ⟨268435455 / 268435457, 0, 32768 / 268435457⟩ ⟨0, 0, 1⟩ 1
      ≠ some (Vec3.neg ⟨268435455 / 268435457, 0, 32768 / 268435457⟩) := by
  have hnone : Refract sqrtFloat ⟨268435455 / 268435457, 0, 32768 / 268435457⟩ ⟨0, 0, 1⟩ 1
      = none := by
    apply Refract_total_internal
    · norm_num [dot]
    · rw [sqrtFloat_grazing]
      norm_num
  refine ⟨by norm_num [dot], by norm_num [dot], by norm_num [dot],
    by norm_num [sinSq, dot, cross], by norm_num, sqrtFloat_grazing, hnone, ?_⟩
  rw [hnone]
  exact fun h => Option.noConfusion h

/-- C12 (amended): for a refraction index of 1 the ray passes through
undeviated when the square roots are exact. Over an ordered field with an
exact square root (the reals), for unit vectors `in`, `N` with
`dot(in, N) > 0` the sine `sqrt(1 - dot(in, N)^2)` of their angle is below 1
and `Refract(in, N, 1) = -in`; hence a ray of direction `-in` entering a slab
of index 1 through a face of normal `N1` (refraction with `1/IOR`) and
leaving it through a face of normal `N2` (refraction with `IOR`) keeps the
direction `-in`. For any square root, exact or rounded: where
`dot(in, N) <= 0.999f` and the computed sine `sqrt(1 - dot(in, N)^2)` is at
least 1, `Refract(in, N, 1)` is NaN. -/
theorem C12_Refract_unit_index_undeviated {K : Type} [LinearOrderedField K] (sqrt : K → K)
    (hsq : ∀ x, 0 ≤ x → sqrt x * sqrt x = x) (hnn : ∀ x, 0 ≤ sqrt x)
    (vin N1 N2 : Vec3K K)
    (hin : dotK vin vin = 1) (hN1 : dotK N1 N1 = 1) (hN2 : dotK N2 N2 = 1)
    (hpos1 : 0 < dotK vin N1) (hpos2 : 0 < dotK vin N2) :
    sqrt (1 - dotK vin N1 * dotK vin N1) < 1 ∧
    RefractK sqrt vin N1 1 = some vin.neg ∧
    RefractK sqrt vin N1 (1 / 1) = some vin.neg ∧
    RefractK sqrt vin.neg.neg N2 1 = some vin.neg ∧
    (∀ (sqrt2 : K → K) (v N : Vec3K K), dotK v N ≤ 16760439 / 16777216 →
      1 ≤ sqrt2 (1 - dotK v N * dotK v N) → RefractK sqrt2 v N 1 = none) := by
  rw [Vec3K.neg_neg, div_one]
  refine ⟨?_, RefractK_unit_index sqrt hsq hnn vin N1 hin hN1 hpos1,
    RefractK_unit_index sqrt hsq hnn vin N1 hin hN1 hpos1,
    RefractK_unit_index sqrt hsq hnn vin N2 hin hN2 hpos2, ?_⟩
  · have hcs : 0 ≤ dotK (crossK N1 vin) (crossK N1 vin) := dotK_self_nonneg _
    rw [dotK_cross_self, hin, hN1] at hcs
    have hs := hsq (1 - dotK vin N1 * dotK vin N1) (by linarith)
    have hs0 := hnn (1 - dotK vin N1 * dotK vin N1)
    nlinarith
  · intro sqrt2 v N hnear htir
    exact RefractK_total_internal sqrt2 v N 1 hnear (by rw [mul_one]; exact htir)

/-- Witness for C12 (amended): over the reals, `in = (6/7, 2/7, 3/7)`, whose
sines to the face normals `(0, 0, 1)` and `(1, 0, 0)` are irrational. -/
theorem C12_Refract_unit_index_undeviated_witness :
    Real.sqrt (1 - dotK (⟨6 / 7, 2 / 7, 3 / 7⟩ : Vec3K ℝ) ⟨0, 0, 1⟩
      * dotK (⟨6 / 7, 2 / 7, 3 / 7⟩ : Vec3K ℝ) ⟨0, 0, 1⟩) < 1 ∧
    RefractK Real.sqrt (⟨6 / 7, 2 / 7, 3 / 7⟩ : Vec3K ℝ) ⟨0, 0, 1⟩ 1
      = some (Vec3K.neg ⟨6 / 7, 2 / 7, 3 / 7⟩) ∧
    RefractK Real.sqrt (⟨6 / 7, 2 / 7, 3 / 7⟩ : Vec3K ℝ) ⟨0, 0, 1⟩ (1 / 1)
      = some (Vec3K.neg ⟨6 / 7, 2 / 7, 3 / 7⟩) ∧
    RefractK Real.sqrt (Vec3K.neg (Vec3K.neg (⟨6 / 7, 2 / 7, 3 / 7⟩ : Vec3K ℝ))) ⟨1, 0, 0⟩ 1
      = some (Vec3K.neg ⟨6 / 7, 2 / 7, 3 / 7⟩) ∧
    (∀ (sqrt2 : ℝ → ℝ) (v N : Vec3K ℝ), dotK v N ≤ 16760439 / 16777216 →
      1 ≤ sqrt2 (1 - dotK v N * dotK v N) → RefractK sqrt2 v N 1 = none) :=
  C12_Refract_unit_index_undeviated Real.sqrt (fun _ hx => Real.mul_self_sqrt hx)
    Real.sqrt_nonneg ⟨6 / 7, 2 / 7, 3 / 7⟩ ⟨0, 0, 1⟩ ⟨1, 0, 0⟩
    (by norm_num [dotK]) (by norm_num [dotK]) (by norm_num [dotK])
    (by norm_num [dotK]) (by norm_num [dotK])

/-- C13 as stated fails near normal incidence: for `dot(in, N) = 1012/1013`,
above the threshold `0.999f`, and `IOR = 2` (no total internal reflection) the
code returns `-in`, whose sine to `-N` is that of `in`, not twice it. It also
fails at grazing incidence when the square root is the one of `float`: for
the unit vectors `in = ((2^28 - 1) / (2^28 + 1), 0, 2^15 / (2^28 + 1))` and
`N = (0, 0, 1)` and `IOR = 1` there is no total internal reflection (the sine
is below 1), but the `float` square root rounds the sine to 1 and `Refract`
returns NaN. -/
theorem C13_near_normal_counterexample :
    dot (⟨45 / 1013, 0, 1012 / 1013⟩ : Vec3) ⟨45 / 1013, 0, 1012 / 1013⟩ = 1 ∧
    dot (⟨45 / 1013, 0, 1012 / 1013⟩ : Vec3) ⟨0, 0, 1⟩ ≥ 0 ∧
    sinSq ⟨45 / 1013, 0, 1012 / 1013⟩ ⟨0, 0, 1⟩ = (45 / 1013) ^ 2 ∧
    (45 / 1013 : ℚ) * 2 < 1 ∧
    Refract sqrtQ ⟨45 / 1013, 0, 1012 / 1013⟩ ⟨0, 0, 1⟩ 2
      = some ⟨-(45 / 1013), -0, -(1012 / 1013)⟩ ∧
    sinSq ⟨-(45 / 1013), -0, -(1012 / 1013)⟩ (Vec3.neg ⟨0, 0, 1⟩)
      ≠ 2 ^ 2 * sinSq ⟨45 / 1013, 0, 1012 / 1013⟩ ⟨0, 0, 1⟩ ∧
    dot (⟨268435455 / 268435457, 0, 32768 / 268435457⟩ : Vec3)
      ⟨268435455 / 268435457, 0, 32768 / 268435457⟩ = 1 ∧
    dot (⟨268435455 / 268435457, 0, 32768 / 268435457⟩ : Vec3) ⟨0, 0, 1⟩ ≥ 0 ∧
    sinSq ⟨268435455 / 268435457, 0, 32768 / 268435457⟩ ⟨0, 0, 1⟩
      = (268435455 / 268435457) ^ 2 ∧
    (268435455 / 268435457 : ℚ) * 1 < 1 ∧
    Refract sqrtFloat ⟨268435455 / 268435457, 0, 32768 / 268435457⟩ ⟨0, 0, 1⟩ 1 = none := by
  refine ⟨by norm_num [dot], by norm_num [dot], by norm_num [sinSq, dot, cross],
    by norm_num, ?_, by norm_num [sinSq, dot, cross, Vec3.neg], by norm_num [dot],
    by norm_num [dot], by norm_num [sinSq, dot, cross], by norm_num, ?_⟩
  · rw [Refract_near_normal sqrtQ _ _ 2 (by norm_num [dot])]
    rfl
  · apply Refract_total_internal
    · norm_num [dot]
    · rw [sqrtFloat_grazing]
      norm_num

/-- C13 (amended): over an ordered field with an exact square root (the
reals), for unit vectors `in`, `N` with `0 <= dot(in, N) <= 0.999f` and every
`IOR > 0` without total internal reflection (`s1 * IOR < 1`, with
`s1 = sqrt(1 - dot(in, N)^2)` the sine of the angle between `in` and `N`),
`Refract` returns the unit vector `-IOR*in + (IOR*cos1 - c2)*N`, with
`c2 = sqrt(1 - (s1*IOR)^2)`, which lies in the plane of `in` and `N`, on the
opposite side of the surface (`dot(r, N) = -c2 < 0`), and whose sine to `-N`
is `IOR * s1`, its cosine being `c2`. For any square root, exact or rounded:
for `dot(in, N) > 0.999f`, `Refract` returns `-in` whatever `IOR` is, and where
`dot(in, N) <= 0.999f` and the computed `sqrt(1 - dot(in, N)^2) * IOR` is at
least 1, `Refract` returns NaN. -/
theorem C13_Refract_snell {K : Type} [LinearOrderedField K] (sqrt : K → K)
    (hsq : ∀ x, 0 ≤ x → sqrt x * sqrt x = x) (hnn : ∀ x, 0 ≤ sqrt x)
    (vin N : Vec3K K) (IOR : K) (hin : dotK vin vin = 1) (hN : dotK N N = 1)
    (hcos : 0 ≤ dotK vin N) (hnear : dotK vin N ≤ 16760439 / 16777216)
    (hIOR : 0 < IOR) (hno : sqrt (1 - dotK vin N * dotK vin N) * IOR < 1) :
    (∃ r, RefractK sqrt vin N IOR = some r ∧
      r = (Vec3K.smul (-IOR) vin).add
            (Vec3K.smul (IOR * dotK vin N
              - sqrt (1 - (sqrt (1 - dotK vin N * dotK vin N) * IOR)
                  * (sqrt (1 - dotK vin N * dotK vin N) * IOR))) N) ∧
      dotK r r = 1 ∧
      dotK r N = -sqrt (1 - (sqrt (1 - dotK vin N * dotK vin N) * IOR)
                  * (sqrt (1 - dotK vin N * dotK vin N) * IOR)) ∧
      -sqrt (1 - (sqrt (1 - dotK vin N * dotK vin N) * IOR)
                  * (sqrt (1 - dotK vin N * dotK vin N) * IOR)) < 0 ∧
      sinSqK r N.neg = (IOR * sqrt (1 - dotK vin N * dotK vin N)) ^ 2 ∧
      sinSqK vin N = sqrt (1 - dotK vin N * dotK vin N) ^ 2) ∧
    (∀ (sqrt2 : K → K) (v n : Vec3K K) (ior : K), dotK v n > 16760439 / 16777216 →
      RefractK sqrt2 v n ior = some v.neg) ∧
    (∀ (sqrt2 : K → K) (v n : Vec3K K) (ior : K), dotK v n ≤ 16760439 / 16777216 →
      1 ≤ sqrt2 (1 - dotK v n * dotK v n) * ior → RefractK sqrt2 v n ior = none) := by
  refine ⟨?_, fun sqrt2 v n ior h => RefractK_near_normal sqrt2 v n ior h,
    fun sqrt2 v n ior h1 h2 => RefractK_total_internal sqrt2 v n ior h1 h2⟩
  have hcc : dotK vin N * dotK vin N < 1 := by nlinarith
  have hs := hsq (1 - dotK vin N * dotK vin N) (by linarith)
  have hs1 := hnn (1 - dotK vin N * dotK vin N)
  generalize sqrt (1 - dotK vin N * dotK vin N) = s1 at hs hs1 hno ⊢
  have hs1pos : 0 < s1 := by
    rcases eq_or_lt_of_le hs1 with h0 | h0
    · exfalso
      rw [← h0] at hs
      linarith
    · exact h0
  have hsi : 0 ≤ s1 * IOR := mul_nonneg hs1 hIOR.le
  have hc := hsq (1 - (s1 * IOR) * (s1 * IOR)) (by nlinarith)
  have hc2 := hnn (1 - (s1 * IOR) * (s1 * IOR))
  generalize sqrt (1 - (s1 * IOR) * (s1 * IOR)) = c2 at hc hc2 ⊢
  have hc2pos : 0 < c2 := by
    rcases eq_or_lt_of_le hc2 with h0 | h0
    · exfalso
      rw [← h0] at hc
      nlinarith
    · exact h0
  have hrr : dotK ((Vec3K.smul (-IOR) vin).add (Vec3K.smul (IOR * dotK vin N - c2) N))
      ((Vec3K.smul (-IOR) vin).add (Vec3K.smul (IOR * dotK vin N - c2) N)) = 1 := by
    rw [dotK_lincomb, hin, hN]
    linear_combination hc - IOR ^ 2 * hs
  have hrN : dotK ((Vec3K.smul (-IOR) vin).add (Vec3K.smul (IOR * dotK vin N - c2) N)) N
      = -c2 := by
    rw [dotK_lincomb_left, hN]
    ring
  refine ⟨_, RefractK_formula sqrt (sqrt_mul_self_of_exact sqrt hsq hnn) vin N IOR s1 c2 hin hN
    hnear hs1pos hs (by linarith) hno hc2 hc, rfl, hrr, hrN, by linarith, ?_, ?_⟩
  · unfold sinSqK
    rw [dotK_cross_self, hrr, dotK_neg_neg, hN, dotK_comm N.neg, dotK_neg_right, hrN]
    linear_combination (-1 : K) * hc
  · unfold sinSqK
    rw [dotK_cross_self, hin, hN, dotK_comm N vin]
    linear_combination (-1 : K) * hs

/-- Witness for C13 (amended): over the reals, `in = (6/7, 2/7, 3/7)` and
`N = (0, 0, 1)`, whose sine `sqrt(40)/7` is irrational, with `IOR = 1/2`: the
refracted direction is a unit vector on the far side of the surface whose
squared sine to `-N` is `(1/2)^2 * 40/49 = 10/49`. -/
theorem C13_Refract_snell_witness :
    ∃ r, RefractK Real.sqrt (⟨6 / 7, 2 / 7, 3 / 7⟩ : Vec3K ℝ) ⟨0, 0, 1⟩ (1 / 2) = some r ∧
      dotK r r = 1 ∧ dotK r ⟨0, 0, 1⟩ < 0 ∧
      sinSqK r (Vec3K.neg ⟨0, 0, 1⟩) = 10 / 49 ∧
      sinSqK (⟨6 / 7, 2 / 7, 3 / 7⟩ : Vec3K ℝ) ⟨0, 0, 1⟩ = 40 / 49 := by
  have h40 : 1 - dotK (⟨6 / 7, 2 / 7, 3 / 7⟩ : Vec3K ℝ) ⟨0, 0, 1⟩
      * dotK (⟨6 / 7, 2 / 7, 3 / 7⟩ : Vec3K ℝ) ⟨0, 0, 1⟩ = 40 / 49 := by
    norm_num [dotK]
  have hle : Real.sqrt (1 - dotK (⟨6 / 7, 2 / 7, 3 / 7⟩ : Vec3K ℝ) ⟨0, 0, 1⟩
      * dotK (⟨6 / 7, 2 / 7, 3 / 7⟩ : Vec3K ℝ) ⟨0, 0, 1⟩) ≤ 1 :=
    Real.sqrt_le_one.mpr (by norm_num [dotK])
  obtain ⟨⟨r, hr, _, hrr, hrN, hneg, hsin, hsin1⟩, _⟩ :=
    C13_Refract_snell Real.sqrt (fun _ hx => Real.mul_self_sqrt hx) Real.sqrt_nonneg
      ⟨6 / 7, 2 / 7, 3 / 7⟩ ⟨0, 0, 1⟩ (1 / 2) (by norm_num [dotK]) (by norm_num [dotK])
      (by norm_num [dotK]) (by norm_num [dotK]) (by norm_num) (by linarith)
  refine ⟨r, hr, hrr, by rw [hrN]; exact hneg, ?_, ?_⟩
  · rw [hsin, h40, mul_pow, Real.sq_sqrt (by norm_num)]
    norm_num
  · rw [hsin1, h40, Real.sq_sqrt (by norm_num)]

/-- The embedding evaluated over the rationals: `cos1 = 4/5`, `IOR = 4/3`, so
the refracted sine is `4/5` and the refracted direction `(-4/5, 0, -3/5)`. -/
theorem Refract_snell_rational :
    Refract sqrtQ ⟨3 / 5, 0, 4 / 5⟩ ⟨0, 0, 1⟩ (4 / 3) = some ⟨-(4 / 5), 0, -(3 / 5)⟩ := by
  unfold Refract
  rw [RefractK_formula sqrtQ sqrtQ_mul_self _ _ (4 / 3) (3 / 5) (3 / 5)
    (by norm_num [dotK, Vec3.toK]) (by norm_num [dotK, Vec3.toK]) (by norm_num [dotK, Vec3.toK])
    (by norm_num) (by norm_num [dotK, Vec3.toK]) (by norm_num) (by norm_num) (by norm_num)
    (by norm_num)]
  norm_num [Vec3K.toVec3, Vec3K.add, Vec3K.smul, Vec3.toK, dotK]

end RGK

/-! ## Path generation -/

namespace RGK

/-- What one iteration does to the hard-limit counter and to the path: `n2`
grows by one; an iteration after which the loop goes on has `n2 < 20` and
commits one point; a last iteration commits at most one point, and none when
it stops at the hard limit. -/
theorem generateStep_spec {σ : Type} (env : PathEnv σ) (depth__ : Nat) (russian__ : ℚ)
    (s : GenState σ) :
    (generateStep env depth__ russian__ s).2.n2 = s.n2 + 1 ∧
    ((generateStep env depth__ russian__ s).1 = true →
      s.n2 + 1 < 20 ∧
      (generateStep env depth__ russian__ s).2.path.length = s.path.length + 1) ∧
    ((generateStep env depth__ russian__ s).1 = false →
      (generateStep env depth__ russian__ s).2.path.length ≤ s.path.length + 1 ∧
      (20 ≤ s.n2 + 1 → (generateStep env depth__ russian__ s).2.path = s.path)) := by
  unfold generateStep
  simp only
  by_cases h20 : s.n2 + 1 ≥ 20
  · rw [if_pos h20]
    simp
  · rw [if_neg h20]
    have hlt : s.n2 + 1 < 20 := not_le.mp h20
    by_cases ht : (terminationTest env depth__ russian__ (s.n + 1) s.skip_russian s.sampler).1 = true
    · rw [if_pos ht]
      simp
    · rw [if_neg ht]
      cases env.intersect s.current_ray s.last_triangle with
      | sky thinglass =>
        simp
        omega
      | degenerate =>
        simp
      | hit thinglass h =>
        simp
        omega

/-- The loop of `GeneratePath` ends within the fuel `20 - n2`, with at most 19
points on the path and `n2` at most 20. -/
theorem generateLoop_terminates {σ : Type} (env : PathEnv σ) (depth__ : Nat) (russian__ : ℚ) :
    ∀ (fuel : Nat) (s : GenState σ), 20 ≤ fuel + s.n2 → s.n2 ≤ 19 → s.path.length ≤ s.n2 →
      ∃ final, generateLoop env depth__ russian__ fuel s = some final ∧
        final.path.length ≤ 19 ∧ final.n2 ≤ 20 := by
  intro fuel
  induction fuel with
  | zero =>
    intro s h1 h2 _
    omega
  | succ fuel ih =>
    intro s h1 h2 h3
    obtain ⟨hn2, hgo, hstop⟩ := generateStep_spec env depth__ russian__ s
    rw [generateLoop]
    by_cases hcont : (generateStep env depth__ russian__ s).1 = true
    · rw [if_pos hcont]
      obtain ⟨hlt, hlen⟩ := hgo hcont
      exact ih _ (by omega) (by omega) (by omega)
    · rw [if_neg hcont]
      have hfalse : (generateStep env depth__ russian__ s).1 = false := by
        simpa using hcont
      obtain ⟨hlen, hsame⟩ := hstop hfalse
      refine ⟨_, rfl, ?_, by omega⟩
      by_cases h20 : 20 ≤ s.n2 + 1
      · rw [hsame h20]
        omega
      · omega

/-- C20: `GeneratePath` terminates on every input: for every scene, sampler,
depth and russian value, a fuel of 20 iterations (or more) is enough for its
loop to end, and the returned path has at most 19, hence at most 20, points;
the hard-limit counter `n2` ends at 20 at most, so the part of the loop body
behind the hard-limit test runs at most 19 times. -/
theorem C20_GeneratePath_terminates {σ : Type} (env : PathEnv σ) (extra : Nat) (r : Ray)
    (raycount depth__ : Nat) (russian__ : ℚ) (sampler : σ) :
    ∃ final, GeneratePath env (20 + extra) r raycount depth__ russian__ sampler = some final ∧
      final.path.length ≤ 19 ∧ final.path.length ≤ 20 ∧ final.n2 ≤ 20 := by
  obtain ⟨final, hfinal, hlen, hn2⟩ :=
    generateLoop_terminates env depth__ russian__ (20 + extra)
      { current_ray := r, n := 0, n2 := 0, skip_russian := false, last_triangle := none,
        path := [], sampler := sampler, raycount := raycount }
      (by simp) (by simp) (by simp)
  exact ⟨final, hfinal, hlen, by omega, hn2⟩

end RGK

/-! ## Reclassification on total internal reflection, and the final clamp -/

namespace RGK

theorem generateStep_hit {σ : Type} (env : PathEnv σ) (depth__ : Nat) (russian__ : ℚ)
    (s : GenState σ) (thinglass : ThinglassIsections) (h : SurfaceHit)
    (hn2 : s.n2 + 1 < 20)
    (hterm : (terminationTest env depth__ russian__ (s.n + 1) s.skip_russian s.sampler).1 = false)
    (hhit : env.intersect s.current_ray s.last_triangle = Intersected.hit thinglass h) :
    (generateStep env depth__ russian__ s).1 = true ∧
    (generateStep env depth__ russian__ s).2.path
      = s.path ++ [hitPoint env russian__ s.current_ray
          (terminationTest env depth__ russian__ (s.n + 1) s.skip_russian s.sampler).2.1
          thinglass h
          (terminationTest env depth__ russian__ (s.n + 1) s.skip_russian s.sampler).2.2] := by
  unfold generateStep
  simp only
  rw [if_neg (not_le.mpr hn2), hterm, hhit]
  simp

theorem nextDirection_entered {σ : Type} (env : PathEnv σ) (mat : Material)
    (Vr lightN faceN : Vec3) (diffuse specular : Radiance) (sampler : σ) :
    (Refract env.sqrt Vr lightN (1 / mat.refraction_index) = none →
      (nextDirection env mat PointType.ENTERED Vr lightN faceN diffuse specular sampler).type
          = PointType.REFLECTED ∧
      (nextDirection env mat PointType.ENTERED Vr lightN faceN diffuse specular sampler).dir
          = mirror Vr lightN ∧
      (nextDirection env mat PointType.ENTERED Vr lightN faceN diffuse specular sampler).lightN
          = lightN) ∧
    (∀ d, Refract env.sqrt Vr lightN (1 / mat.refraction_index) = some d →
      (nextDirection env mat PointType.ENTERED Vr lightN faceN diffuse specular sampler).type
          = PointType.ENTERED ∧
      (nextDirection env mat PointType.ENTERED Vr lightN faceN diffuse specular sampler).dir
          = d) := by
  constructor
  · intro hr
    simp only [nextDirection, hr, and_self]
  · intro d hr
    simp only [nextDirection, hr, and_self]

theorem nextDirection_left {σ : Type} (env : PathEnv σ) (mat : Material)
    (Vr lightN faceN : Vec3) (diffuse specular : Radiance) (sampler : σ) :
    (Refract env.sqrt Vr lightN mat.refraction_index = none →
      (nextDirection env mat PointType.LEFT Vr lightN faceN diffuse specular sampler).type
          = PointType.REFLECTED ∧
      (nextDirection env mat PointType.LEFT Vr lightN faceN diffuse specular sampler).dir
          = mirror Vr lightN ∧
      (nextDirection env mat PointType.LEFT Vr lightN faceN diffuse specular sampler).lightN
          = lightN) ∧
    (∀ d, Refract env.sqrt Vr lightN mat.refraction_index = some d →
      (nextDirection env mat PointType.LEFT Vr lightN faceN diffuse specular sampler).type
          = PointType.LEFT ∧
      (nextDirection env mat PointType.LEFT Vr lightN faceN diffuse specular sampler).dir
          = d) := by
  constructor
  · intro hr
    simp only [nextDirection, hr, and_self]
  · intro d hr
    simp only [nextDirection, hr, and_self]

/-- C11: `Refract` reports total internal reflection by returning NaN, and
`GeneratePath` then reclassifies the bounce. For every iteration that
commits a surface hit: when the hit was first classified `ENTERED` and
`Refract(Vr, lightN, 1/refraction_index)` is NaN, or first classified `LEFT`
and `Refract(Vr, lightN, refraction_index)` is NaN, the committed point has
type `REFLECTED` and `Vi = 2*dot(Vr, lightN)*lightN - Vr`; when `Refract`
returns a direction the type stays `ENTERED` (`LEFT`) and `Vi` is that
direction. -/
theorem C11_total_internal_reflection_reclassified {σ : Type} (env : PathEnv σ)
    (depth__ : Nat) (russian__ : ℚ) (s : GenState σ) (thinglass : ThinglassIsections)
    (h : SurfaceHit) (hn2 : s.n2 + 1 < 20)
    (hterm : (terminationTest env depth__ russian__ (s.n + 1) s.skip_russian s.sampler).1 = false)
    (hhit : env.intersect s.current_ray s.last_triangle = Intersected.hit thinglass h) :
    (∀ vin N IOR, dot vin N ≤ 999 / 1000 →
      1 ≤ env.sqrt (1 - dot vin N * dot vin N) * IOR → Refract env.sqrt vin N IOR = none) ∧
    ∃ p, (generateStep env depth__ russian__ s).2.path = s.path ++ [p] ∧
      p.Vr = s.current_ray.direction.neg ∧
      (hitFirstType env s.current_ray h
          (terminationTest env depth__ russian__ (s.n + 1) s.skip_russian s.sampler).2.2
            = PointType.ENTERED →
        (Refract env.sqrt p.Vr (hitLightN s.current_ray h) (1 / h.mat.refraction_index) = none →
          p.type = PointType.REFLECTED ∧ p.Vi = mirror p.Vr p.lightN) ∧
        (∀ d, Refract env.sqrt p.Vr (hitLightN s.current_ray h) (1 / h.mat.refraction_index)
            = some d → p.type = PointType.ENTERED ∧ p.Vi = d)) ∧
      (hitFirstType env s.current_ray h
          (terminationTest env depth__ russian__ (s.n + 1) s.skip_russian s.sampler).2.2
            = PointType.LEFT →
        (Refract env.sqrt p.Vr (hitLightN s.current_ray h) h.mat.refraction_index = none →
          p.type = PointType.REFLECTED ∧ p.Vi = mirror p.Vr p.lightN) ∧
        (∀ d, Refract env.sqrt p.Vr (hitLightN s.current_ray h) h.mat.refraction_index
            = some d → p.type = PointType.LEFT ∧ p.Vi = d)) := by
  refine ⟨fun vin N IOR h1 h2 => Refract_total_internal env.sqrt vin N IOR h1 h2, ?_⟩
  refine ⟨_, (generateStep_hit env depth__ russian__ s thinglass h hn2 hterm hhit).2, rfl, ?_, ?_⟩
  · intro hty
    have hb : hitBounce env s.current_ray h
        (terminationTest env depth__ russian__ (s.n + 1) s.skip_russian s.sampler).2.2
        = nextDirection env h.mat PointType.ENTERED (hitVr s.current_ray)
            (hitLightN s.current_ray h) (hitFaceN s.current_ray h) h.diffuse h.specular
            (env.Get1D
              (terminationTest env depth__ russian__ (s.n + 1) s.skip_russian s.sampler).2.2).2 := by
      unfold hitBounce
      rw [hty]
    obtain ⟨hnone, hsome⟩ := nextDirection_entered env h.mat (hitVr s.current_ray)
      (hitLightN s.current_ray h) (hitFaceN s.current_ray h) h.diffuse h.specular
      (env.Get1D
        (terminationTest env depth__ russian__ (s.n + 1) s.skip_russian s.sampler).2.2).2
    constructor
    · intro hr
      obtain ⟨h1, h2, h3⟩ := hnone hr
      simp only [hitPoint, hb]
      exact ⟨h1, by rw [h2, h3]⟩
    · intro d hr
      obtain ⟨h1, h2⟩ := hsome d hr
      simp only [hitPoint, hb]
      exact ⟨h1, h2⟩
  · intro hty
    have hb : hitBounce env s.current_ray h
        (terminationTest env depth__ russian__ (s.n + 1) s.skip_russian s.sampler).2.2
        = nextDirection env h.mat PointType.LEFT (hitVr s.current_ray)
            (hitLightN s.current_ray h) (hitFaceN s.current_ray h) h.diffuse h.specular
            (env.Get1D
              (terminationTest env depth__ russian__ (s.n + 1) s.skip_russian s.sampler).2.2).2 := by
      unfold hitBounce
      rw [hty]
    obtain ⟨hnone, hsome⟩ := nextDirection_left env h.mat (hitVr s.current_ray)
      (hitLightN s.current_ray h) (hitFaceN s.current_ray h) h.diffuse h.specular
      (env.Get1D
        (terminationTest env depth__ russian__ (s.n + 1) s.skip_russian s.sampler).2.2).2
    constructor
    · intro hr
      obtain ⟨h1, h2, h3⟩ := hnone hr
      simp only [hitPoint, hb]
      exact ⟨h1, by rw [h2, h3]⟩
    · intro d hr
      obtain ⟨h1, h2⟩ := hsome d hr
      simp only [hitPoint, hb]
      exact ⟨h1, h2⟩

theorem glass_first_type :
    hitFirstType glassEnv glassStart.current_ray glassHit
      (terminationTest glassEnv 5 (-1) (glassStart.n + 1) glassStart.skip_russian
        glassStart.sampler).2.2 = PointType.LEFT := by
  norm_num [hitFirstType, classify, glassEnv, glassStart, glassHit, glassMaterial,
    hitFromInside, hitVr, dot, Vec3.neg]

theorem glass_refract_nan :
    Refract glassEnv.sqrt glassStart.current_ray.direction.neg
      (hitLightN glassStart.current_ray glassHit) glassHit.mat.refraction_index = none := by
  have hsq : sqrtQ (9 / 25) = 3 / 5 := by
    have h := sqrtQ_mul_self (3 / 5) (by norm_num)
    norm_num at h
    exact h
  apply Refract_total_internal
  · norm_num [glassStart, hitLightN, hitFaceN, hitFromInside, hitVr, glassHit, dot, Vec3.neg]
  · norm_num [glassEnv, glassStart, hitLightN, hitFaceN, hitFromInside, hitVr, glassHit,
      glassMaterial, dot, Vec3.neg, hsq]

/-- Witness for C11: a ray inside glass of index 2 meets the face at
`cos = 4/5`; the hit is first classified `LEFT`, `Refract` returns NaN and
the committed point is `REFLECTED` with the mirror direction. -/
theorem C11_total_internal_reflection_reclassified_witness :
    ∃ p, (generateStep glassEnv 5 (-1) glassStart).2.path = glassStart.path ++ [p] ∧
      p.type = PointType.REFLECTED ∧ p.Vi = mirror p.Vr p.lightN := by
  obtain ⟨_, p, hpath, hVr, _, hleft⟩ :=
    C11_total_internal_reflection_reclassified glassEnv 5 (-1) glassStart [] glassHit
      (by decide) (by norm_num [terminationTest, glassStart]) rfl
  refine ⟨p, hpath, (hleft glass_first_type).1 ?_⟩
  rw [hVr]
  exact glass_refract_nan

theorem clampChannel_bounds (clamp : ℚ) (hclamp : 0 ≤ clamp) (c : Option ℚ) :
    0 ≤ clampChannel clamp c ∧ clampChannel clamp c ≤ clamp := by
  unfold clampChannel
  cases c with
  | none => exact ⟨le_refl 0, hclamp⟩
  | some v =>
    simp only
    by_cases h1 : v > clamp
    · rw [if_pos h1]
      simp only
      rw [if_neg (not_lt.mpr hclamp)]
      exact ⟨hclamp, le_refl clamp⟩
    · rw [if_neg h1]
      simp only
      by_cases h2 : v < 0
      · rw [if_pos h2]
        exact ⟨le_refl 0, hclamp⟩
      · rw [if_neg h2]
        exact ⟨not_lt.mp h2, not_lt.mp h1⟩

theorem viewLoop_cons (v : ViewEnv) (p : PathPoint) (rest : List PathPoint) :
    ∃ last from_next, viewLoop v (p :: rest) = viewStep v p last from_next := by
  cases rest with
  | nil => exact ⟨true, v.fromNextInit, rfl⟩
  | cons q rest => exact ⟨false, viewLoop v (q :: rest), rfl⟩

/-- C14 as stated fails: a camera ray that escapes to a sky of radiance
`(0.2, 0.4, 0.8)` returns that radiance although the clamp is `0.1`. -/
theorem C14_sky_counterexample :
    (0 : ℚ) ≤ blueSkyView.clamp ∧
    TracePath_main_pixel emptySceneEnv blueSkyView 20 ⟨⟨0, 0, 0⟩, ⟨0, 0, 1⟩⟩ 0 5 (1 / 2) ()
      = some ⟨1 / 5, 2 / 5, 4 / 5⟩ ∧
    ¬ ((1 / 5 : ℚ) ≤ blueSkyView.clamp) := by
  refine ⟨by norm_num [blueSkyView], ?_, by norm_num [blueSkyView]⟩
  simp [TracePath_main_pixel, GeneratePath, generateLoop, generateStep, terminationTest,
    emptySceneEnv, viewLoop, viewStep, skyPoint, blueSkyView, ApplyThinglass,
    thinglassVisitOrder, PathPoint.init]

/-- C14 (amended): for every camera ray and every clamp `>= 0`, `TracePath`
returns a `main_pixel`; when the first point of the forward path is a surface
hit, each of its three channels is a number (not NaN) in `[0, clamp]`; when the
camera ray escapes to the sky, `main_pixel` is the thin-glass filtered sky
radiance, which is not clamped. -/
theorem C14_main_pixel_clamped {σ : Type} (env : PathEnv σ) (v : ViewEnv) (extra : Nat)
    (r : Ray) (raycount depth : Nat) (russian : ℚ) (sampler : σ) (hclamp : 0 ≤ v.clamp) :
    ∃ final px, GeneratePath env (20 + extra) r raycount depth russian sampler = some final ∧
      TracePath_main_pixel env v (20 + extra) r raycount depth russian sampler = some px ∧
      ∀ p rest, final.path = p :: rest →
        (p.infinity = false →
          (0 ≤ px.r ∧ px.r ≤ v.clamp) ∧ (0 ≤ px.g ∧ px.g ≤ v.clamp) ∧
          (0 ≤ px.b ∧ px.b ≤ v.clamp)) ∧
        (p.infinity = true →
          px = ApplyThinglass v.epsilon (v.GetSkyboxRay p.Vr) p.thinglass_isect p.Vr.neg) := by
  obtain ⟨final, hfinal, _, _⟩ :=
    generateLoop_terminates env depth russian (20 + extra)
      { current_ray := r, n := 0, n2 := 0, skip_russian := false, last_triangle := none,
        path := [], sampler := sampler, raycount := raycount }
      (by simp) (by simp) (by simp)
  have hgen : GeneratePath env (20 + extra) r raycount depth russian sampler = some final :=
    hfinal
  refine ⟨final, viewLoop v final.path, hgen, by simp [TracePath_main_pixel, hgen], ?_⟩
  intro p rest hpath
  obtain ⟨last, from_next, hstep⟩ := viewLoop_cons v p rest
  rw [hpath, hstep]
  constructor
  · intro hp
    simp only [viewStep, hp, Bool.false_eq_true, if_false, clampSanitise]
    exact ⟨clampChannel_bounds _ hclamp _, clampChannel_bounds _ hclamp _,
      clampChannel_bounds _ hclamp _⟩
  · intro hp
    simp only [viewStep, hp, if_true]

/-- Witness for C14 (amended): the glass scene with clamp `0.1`. -/
theorem C14_main_pixel_clamped_witness :
    ∃ final px, GeneratePath glassEnv (20 + 0) glassStart.current_ray 0 5 (-1) ()
        = some final ∧
      TracePath_main_pixel glassEnv blueSkyView (20 + 0) glassStart.current_ray 0 5 (-1) ()
        = some px ∧
      ∀ p rest, final.path = p :: rest →
        (p.infinity = false →
          (0 ≤ px.r ∧ px.r ≤ blueSkyView.clamp) ∧ (0 ≤ px.g ∧ px.g ≤ blueSkyView.clamp) ∧
          (0 ≤ px.b ∧ px.b ≤ blueSkyView.clamp)) ∧
        (p.infinity = true →
          px = ApplyThinglass blueSkyView.epsilon (blueSkyView.GetSkyboxRay p.Vr)
            p.thinglass_isect p.Vr.neg) :=
  C14_main_pixel_clamped glassEnv blueSkyView 0 glassStart.current_ray 0 5 (-1) ()
    (by norm_num [blueSkyView])

end RGK

/-! ## Whitted tracer -/

namespace RGK

theorem trace_ray_miss (sc : WhittedScene) (lights : List Light) (r : ClipRay)
    (shadow_cache : List (List Nat)) (depth : Int) (raycount : Nat)
    (hmiss : sc.FindIntersectKd r = none) :
    trace_ray sc lights r shadow_cache depth raycount
      = (sc.sky_color, shadow_cache, wrapU (raycount + 1)) := by
  rw [trace_ray]
  simp only [hmiss]

theorem pixelSamples_empty_scene (fl : ℚ → ℚ) (sc : WhittedScene) (lights : List Light)
    (camRay : Nat → Nat → Nat → Nat → ClipRay) (recursion_level : Int) (x y : Nat)
    (hempty : ∀ r, sc.FindIntersectKd r = none) :
    ∀ (samples : List (Nat × Nat)) (pixel_total : Radiance) (shadow_cache : List (List Nat))
      (raysdone : Nat),
      (pixelSamples fl sc lights camRay recursion_level x y samples pixel_total shadow_cache
          raysdone).1
        = (List.replicate samples.length sc.sky_color).foldl (Radiance.addF fl) pixel_total := by
  intro samples
  induction samples with
  | nil =>
    intro pixel_total shadow_cache raysdone
    simp [pixelSamples]
  | cons s rest ih =>
    intro pixel_total shadow_cache raysdone
    rw [pixelSamples]
    simp only [trace_ray_miss sc lights _ _ _ _ (hempty _)]
    rw [ih]
    simp only [List.length_cons, List.replicate_succ, List.foldl_cons]

theorem samplePositions_length (m : Nat) : (samplePositions m).length = m * m := by
  simp [samplePositions, List.length_flatMap, Function.comp_def, List.map_const',
    List.sum_replicate]

theorem renderPixel_value (fl : ℚ → ℚ) (sc : WhittedScene) (lights : List Light)
    (camRay : Nat → Nat → Nat → Nat → ClipRay) (recursion_level : Int) (m x y : Nat)
    (shadow_cache : List (List Nat)) (raysdone : Nat) :
    (renderPixel fl sc lights camRay recursion_level m x y shadow_cache raysdone).1
      = if fl (wrapU (m * m) : ℚ) = 0 then none
        else some ((pixelSamples fl sc lights camRay recursion_level x y (samplePositions m)
          ⟨0, 0, 0⟩ shadow_cache raysdone).1.scaleF fl (fl (1 / fl (wrapU (m * m) : ℚ)))) := rfl

theorem renderPixel_empty_scene (fl : ℚ → ℚ) (sc : WhittedScene) (lights : List Light)
    (camRay : Nat → Nat → Nat → Nat → ClipRay) (recursion_level : Int) (m x y : Nat)
    (shadow_cache : List (List Nat)) (raysdone : Nat)
    (hempty : ∀ r, sc.FindIntersectKd r = none) (hmm : m * m < UINT_RANGE)
    (hfl : fl ((m * m : ℕ) : ℚ) ≠ 0) :
    (renderPixel fl sc lights camRay recursion_level m x y shadow_cache raysdone).1
      = some (((List.replicate (m * m) sc.sky_color).foldl (Radiance.addF fl) ⟨0, 0, 0⟩).scaleF
          fl (fl (1 / fl ((m * m : ℕ) : ℚ)))) := by
  have hw : wrapU (m * m) = m * m := Nat.mod_eq_of_lt hmm
  rw [renderPixel_value, hw, if_neg hfl,
    pixelSamples_empty_scene fl sc lights camRay recursion_level x y hempty,
    samplePositions_length]

theorem renderValues_empty_scene (fl : ℚ → ℚ) (sc : WhittedScene) (lights : List Light)
    (camRay : Nat → Nat → Nat → Nat → ClipRay) (recursion_level : Int) (m : Nat)
    (hempty : ∀ r, sc.FindIntersectKd r = none) (hmm : m * m < UINT_RANGE)
    (hfl : fl ((m * m : ℕ) : ℚ) ≠ 0) :
    ∀ (pixels : List (Nat × Nat)) (shadow_cache : List (List Nat)) (raysdone : Nat),
      renderValues fl sc lights camRay recursion_level m pixels shadow_cache raysdone
        = pixels.map fun px =>
            (px, some (((List.replicate (m * m) sc.sky_color).foldl (Radiance.addF fl)
              ⟨0, 0, 0⟩).scaleF fl (fl (1 / fl ((m * m : ℕ) : ℚ))))) := by
  intro pixels
  induction pixels with
  | nil =>
    intro shadow_cache raysdone
    rfl
  | cons px rest ih =>
    intro shadow_cache raysdone
    rw [renderValues]
    simp only [renderPixel_empty_scene fl sc lights camRay recursion_level m _ _ _ _ hempty hmm
      hfl, ih, List.map_cons]

/-- The sum of equal colours accumulated by `+=`, channel by channel. -/
theorem foldl_addF_replicate (fl : ℚ → ℚ) (c : Radiance) :
    ∀ (k : Nat) (t : Radiance),
      (List.replicate k c).foldl (Radiance.addF fl) t
        = ⟨(List.replicate k c.r).foldl (fun a x => fl (a + x)) t.r,
           (List.replicate k c.g).foldl (fun a x => fl (a + x)) t.g,
           (List.replicate k c.b).foldl (fun a x => fl (a + x)) t.b⟩ := by
  intro k
  induction k with
  | zero =>
    intro t
    rfl
  | succ k ih =>
    intro t
    simp only [List.replicate_succ, List.foldl_cons]
    rw [ih]
    rfl

/-! ### Rounding to `float` -/

theorem roundFloat_zero : roundFloat 0 = 0 := by
  simp [roundFloat]

theorem roundFloat_one : roundFloat 1 = 1 := by
  rw [roundFloat_eq _ 0 8388608 (by norm_num) (by norm_num) (by norm_num)
      (by norm_num [abs_lt])]
  norm_num

theorem roundFloat_nine : roundFloat 9 = 9 := by
  rw [roundFloat_eq _ 3 9437184 (by norm_num) (by norm_num) (by norm_num)
      (by norm_num [abs_lt])]
  norm_num

theorem roundFloat_ninth : roundFloat (1 / 9) = 14913081 / 134217728 := by
  rw [roundFloat_eq _ (-4) 14913081 (by norm_num) (by norm_num) (by norm_num)
      (by norm_num [abs_lt])]
  norm_num

theorem roundFloat_sky_r : roundFloat (13421773 / 67108864) = 13421773 / 67108864 := by
  rw [roundFloat_eq _ (-3) 13421773 (by norm_num) (by norm_num) (by norm_num)
      (by norm_num [abs_lt])]
  norm_num

theorem roundFloat_sky_g : roundFloat (13421773 / 33554432) = 13421773 / 33554432 := by
  rw [roundFloat_eq _ (-2) 13421773 (by norm_num) (by norm_num) (by norm_num)
      (by norm_num [abs_lt])]
  norm_num

theorem roundFloat_sky_b : roundFloat (13421773 / 16777216) = 13421773 / 16777216 := by
  rw [roundFloat_eq _ (-1) 13421773 (by norm_num) (by norm_num) (by norm_num)
      (by norm_num [abs_lt])]
  norm_num

theorem sky_sum_r :
    (List.replicate 9 (13421773 / 67108864 : ℚ)).foldl (fun a c => roundFloat (a + c)) 0
      = 1887437 / 1048576 := by
  have h1 : roundFloat (0 + 13421773 / 67108864) = 13421773 / 67108864 := by
    rw [roundFloat_eq _ (-3) 13421773 (by norm_num) (by norm_num) (by norm_num)
      (by norm_num [abs_lt])]
    norm_num
  have h2 : roundFloat (13421773 / 67108864 + 13421773 / 67108864) = 13421773 / 33554432 := by
    rw [roundFloat_eq _ (-2) 13421773 (by norm_num) (by norm_num) (by norm_num)
      (by norm_num [abs_lt])]
    norm_num
  have h3 : roundFloat (13421773 / 33554432 + 13421773 / 67108864) = 5033165 / 8388608 := by
    rw [roundFloat_eq _ (-1) 10066330 (by norm_num) (by norm_num) (by norm_num)
      (by norm_num [abs_lt])]
    norm_num
  have h4 : roundFloat (5033165 / 8388608 + 13421773 / 67108864) = 13421773 / 16777216 := by
    rw [roundFloat_eq _ (-1) 13421773 (by norm_num) (by norm_num) (by norm_num)
      (by norm_num [abs_lt])]
    norm_num
  have h5 : roundFloat (13421773 / 16777216 + 13421773 / 67108864) = 1 := by
    rw [roundFloat_eq _ 0 8388608 (by norm_num) (by norm_num) (by norm_num)
      (by norm_num [abs_lt])]
    norm_num
  have h6 : roundFloat (1 + 13421773 / 67108864) = 5033165 / 4194304 := by
    rw [roundFloat_eq _ 0 10066330 (by norm_num) (by norm_num) (by norm_num)
      (by norm_num [abs_lt])]
    norm_num
  have h7 : roundFloat (5033165 / 4194304 + 13421773 / 67108864) = 2936013 / 2097152 := by
    rw [roundFloat_eq _ 0 11744052 (by norm_num) (by norm_num) (by norm_num)
      (by norm_num [abs_lt])]
    norm_num
  have h8 : roundFloat (2936013 / 2097152 + 13421773 / 67108864) = 6710887 / 4194304 := by
    rw [roundFloat_eq _ 0 13421774 (by norm_num) (by norm_num) (by norm_num)
      (by norm_num [abs_lt])]
    norm_num
  have h9 : roundFloat (6710887 / 4194304 + 13421773 / 67108864) = 1887437 / 1048576 := by
    rw [roundFloat_eq _ 0 15099496 (by norm_num) (by norm_num) (by norm_num)
      (by norm_num [abs_lt])]
    norm_num
  rw [show List.replicate 9 (13421773 / 67108864 : ℚ) = [13421773 / 67108864, 13421773 / 67108864, 13421773 / 67108864, 13421773 / 67108864, 13421773 / 67108864, 13421773 / 67108864, 13421773 / 67108864, 13421773 / 67108864, 13421773 / 67108864] from rfl]
  simp only [List.foldl, h1, h2, h3, h4, h5, h6, h7, h8, h9]

theorem sky_mean_r :
    roundFloat (1887437 / 1048576 * (14913081 / 134217728)) = 6710887 / 33554432 := by
  rw [roundFloat_eq _ (-3) 13421774 (by norm_num) (by norm_num) (by norm_num)
      (by norm_num [abs_lt])]
  norm_num

theorem sky_sum_g :
    (List.replicate 9 (13421773 / 33554432 : ℚ)).foldl (fun a c => roundFloat (a + c)) 0
      = 1887437 / 524288 := by
  have h1 : roundFloat (0 + 13421773 / 33554432) = 13421773 / 33554432 := by
    rw [roundFloat_eq _ (-2) 13421773 (by norm_num) (by norm_num) (by norm_num)
      (by norm_num [abs_lt])]
    norm_num
  have h2 : roundFloat (13421773 / 33554432 + 13421773 / 33554432) = 13421773 / 16777216 := by
    rw [roundFloat_eq _ (-1) 13421773 (by norm_num) (by norm_num) (by norm_num)
      (by norm_num [abs_lt])]
    norm_num
  have h3 : roundFloat (13421773 / 16777216 + 13421773 / 33554432) = 5033165 / 4194304 := by
    rw [roundFloat_eq _ 0 10066330 (by norm_num) (by norm_num) (by norm_num)
      (by norm_num [abs_lt])]
    norm_num
  have h4 : roundFloat (5033165 / 4194304 + 13421773 / 33554432) = 13421773 / 8388608 := by
    rw [roundFloat_eq _ 0 13421773 (by norm_num) (by norm_num) (by norm_num)
      (by norm_num [abs_lt])]
    norm_num
  have h5 : roundFloat (13421773 / 8388608 + 13421773 / 33554432) = 2 := by
    rw [roundFloat_eq _ 1 8388608 (by norm_num) (by norm_num) (by norm_num)
      (by norm_num [abs_lt])]
    norm_num
  have h6 : roundFloat (2 + 13421773 / 33554432) = 5033165 / 2097152 := by
    rw [roundFloat_eq _ 1 10066330 (by norm_num) (by norm_num) (by norm_num)
      (by norm_num [abs_lt])]
    norm_num
  have h7 : roundFloat (5033165 / 2097152 + 13421773 / 33554432) = 2936013 / 1048576 := by
    rw [roundFloat_eq _ 1 11744052 (by norm_num) (by norm_num) (by norm_num)
      (by norm_num [abs_lt])]
    norm_num
  have h8 : roundFloat (2936013 / 1048576 + 13421773 / 33554432) = 6710887 / 2097152 := by
    rw [roundFloat_eq _ 1 13421774 (by norm_num) (by norm_num) (by norm_num)
      (by norm_num [abs_lt])]
    norm_num
  have h9 : roundFloat (6710887 / 2097152 + 13421773 / 33554432) = 1887437 / 524288 := by
    rw [roundFloat_eq _ 1 15099496 (by norm_num) (by norm_num) (by norm_num)
      (by norm_num [abs_lt])]
    norm_num
  rw [show List.replicate 9 (13421773 / 33554432 : ℚ) = [13421773 / 33554432, 13421773 / 33554432, 13421773 / 33554432, 13421773 / 33554432, 13421773 / 33554432, 13421773 / 33554432, 13421773 / 33554432, 13421773 / 33554432, 13421773 / 33554432] from rfl]
  simp only [List.foldl, h1, h2, h3, h4, h5, h6, h7, h8, h9]

theorem sky_mean_g :
    roundFloat (1887437 / 524288 * (14913081 / 134217728)) = 6710887 / 16777216 := by
  rw [roundFloat_eq _ (-2) 13421774 (by norm_num) (by norm_num) (by norm_num)
      (by norm_num [abs_lt])]
  norm_num

theorem sky_sum_b :
    (List.replicate 9 (13421773 / 16777216 : ℚ)).foldl (fun a c => roundFloat (a + c)) 0
      = 1887437 / 262144 := by
  have h1 : roundFloat (0 + 13421773 / 16777216) = 13421773 / 16777216 := by
    rw [roundFloat_eq _ (-1) 13421773 (by norm_num) (by norm_num) (by norm_num)
      (by norm_num [abs_lt])]
    norm_num
  have h2 : roundFloat (13421773 / 16777216 + 13421773 / 16777216) = 13421773 / 8388608 := by
    rw [roundFloat_eq _ 0 13421773 (by norm_num) (by norm_num) (by norm_num)
      (by norm_num [abs_lt])]
    norm_num
  have h3 : roundFloat (13421773 / 8388608 + 13421773 / 16777216) = 5033165 / 2097152 := by
    rw [roundFloat_eq _ 1 10066330 (by norm_num) (by norm_num) (by norm_num)
      (by norm_num [abs_lt])]
    norm_num
  have h4 : roundFloat (5033165 / 2097152 + 13421773 / 16777216) = 13421773 / 4194304 := by
    rw [roundFloat_eq _ 1 13421773 (by norm_num) (by norm_num) (by norm_num)
      (by norm_num [abs_lt])]
    norm_num
  have h5 : roundFloat (13421773 / 4194304 + 13421773 / 16777216) = 4 := by
    rw [roundFloat_eq _ 2 8388608 (by norm_num) (by norm_num) (by norm_num)
      (by norm_num [abs_lt])]
    norm_num
  have h6 : roundFloat (4 + 13421773 / 16777216) = 5033165 / 1048576 := by
    rw [roundFloat_eq _ 2 10066330 (by norm_num) (by norm_num) (by norm_num)
      (by norm_num [abs_lt])]
    norm_num
  have h7 : roundFloat (5033165 / 1048576 + 13421773 / 16777216) = 2936013 / 524288 := by
    rw [roundFloat_eq _ 2 11744052 (by norm_num) (by norm_num) (by norm_num)
      (by norm_num [abs_lt])]
    norm_num
  have h8 : roundFloat (2936013 / 524288 + 13421773 / 16777216) = 6710887 / 1048576 := by
    rw [roundFloat_eq _ 2 13421774 (by norm_num) (by norm_num) (by norm_num)
      (by norm_num [abs_lt])]
    norm_num
  have h9 : roundFloat (6710887 / 1048576 + 13421773 / 16777216) = 1887437 / 262144 := by
    rw [roundFloat_eq _ 2 15099496 (by norm_num) (by norm_num) (by norm_num)
      (by norm_num [abs_lt])]
    norm_num
  rw [show List.replicate 9 (13421773 / 16777216 : ℚ) = [13421773 / 16777216, 13421773 / 16777216, 13421773 / 16777216, 13421773 / 16777216, 13421773 / 16777216, 13421773 / 16777216, 13421773 / 16777216, 13421773 / 16777216, 13421773 / 16777216] from rfl]
  simp only [List.foldl, h1, h2, h3, h4, h5, h6, h7, h8, h9]

theorem sky_mean_b :
    roundFloat (1887437 / 262144 * (14913081 / 134217728)) = 6710887 / 8388608 := by
  rw [roundFloat_eq _ (-1) 13421774 (by norm_num) (by norm_num) (by norm_num)
      (by norm_num [abs_lt])]
  norm_num

/-! ### Empty scenes and multisampling -/

/-- C17 as stated fails already for `m = 3`: with the sky `(0.2f, 0.4f,
0.8f)` the nine samples summed in `float` and multiplied by the `float`
weight `1.0f / 9` give `(6710887 / 2^25, 6710887 / 2^24, 6710887 / 2^23)`,
one unit in the last place above the sky colour in every channel. It also
fails for `m = 65536`: the `unsigned int` product `m*m` wraps to 0 and the
weight `1.0f / (m*m)` divides by zero. -/
theorem C17_float_mean_counterexample :
    (1 ≤ 3) ∧
    (∀ r, emptyWhittedScene.FindIntersectKd r = none) ∧
    (renderPixel roundFloat emptyWhittedScene [] fixedCamera 1 3 0 0 [] 0).1
      = some ⟨6710887 / 33554432, 6710887 / 16777216, 6710887 / 8388608⟩ ∧
    (renderPixel roundFloat emptyWhittedScene [] fixedCamera 1 3 0 0 [] 0).1
      ≠ some emptyWhittedScene.sky_color ∧
    (1 ≤ 65536) ∧
    (renderPixel roundFloat emptyWhittedScene [] fixedCamera 1 65536 0 0 [] 0).1 = none := by
  have h9 : (((3 * 3 : ℕ) : ℕ) : ℚ) = 9 := by norm_num
  have hne : roundFloat ((3 * 3 : ℕ) : ℚ) ≠ 0 := by
    rw [h9, roundFloat_nine]
    norm_num
  have hval : (renderPixel roundFloat emptyWhittedScene [] fixedCamera 1 3 0 0 [] 0).1
      = some ⟨6710887 / 33554432, 6710887 / 16777216, 6710887 / 8388608⟩ := by
    rw [renderPixel_empty_scene roundFloat emptyWhittedScene [] fixedCamera 1 3 0 0 [] 0
      (fun _ => rfl) (by norm_num [UINT_RANGE]) hne, foldl_addF_replicate, h9, roundFloat_nine,
      roundFloat_ninth]
    have hr : emptyWhittedScene.sky_color.r = 13421773 / 67108864 := rfl
    have hg : emptyWhittedScene.sky_color.g = 13421773 / 33554432 := rfl
    have hb : emptyWhittedScene.sky_color.b = 13421773 / 16777216 := rfl
    have hn : (3 * 3 : ℕ) = 9 := rfl
    rw [hr, hg, hb, hn, sky_sum_r, sky_sum_g, sky_sum_b]
    simp only [Radiance.scaleF, sky_mean_r, sky_mean_g, sky_mean_b]
  refine ⟨by decide, fun _ => rfl, hval, ?_, by decide, ?_⟩
  · rw [hval]
    intro h
    have h1 := congrArg (fun o => o.map Radiance.r) h
    norm_num [emptyWhittedScene] at h1
  · rw [renderPixel_value]
    have hw : wrapU (65536 * 65536) = 0 := by norm_num [wrapU, UINT_RANGE]
    rw [hw, Nat.cast_zero, roundFloat_zero, if_pos rfl]

theorem roundFloat_pos (x : ℚ) (hx : 0 < x) : 0 < roundFloat x := by
  have h := roundFloat_relative_error x
  rw [abs_of_pos hx] at h
  have h1 := (abs_le.mp h).1
  linarith

/-- The sum of `k` equal terms accumulated with a rounding of relative error
at most `u`. -/
theorem float_sum_error (fl : ℚ → ℚ) (u : ℚ) (hu : 0 ≤ u)
    (hfl : ∀ x, |fl x - x| ≤ u * |x|) (s : ℚ) :
    ∀ k : ℕ, |(List.replicate k s).foldl (fun a x => fl (a + x)) 0 - k * s|
      ≤ ((1 + u) ^ k - 1) * k * |s| := by
  intro k
  induction k with
  | zero => simp
  | succ k ih =>
    rw [List.replicate_succ', List.foldl_append]
    simp only [List.foldl_cons, List.foldl_nil]
    generalize (List.replicate k s).foldl (fun a x => fl (a + x)) 0 = S at ih ⊢
    have hA : (1 : ℚ) ≤ (1 + u) ^ k := one_le_pow₀ (by linarith)
    have h1 := hfl (S + s)
    have h2 : |S + s| ≤ |S - k * s| + (k + 1) * |s| := by
      have e : S + s = (S - k * s) + (k + 1) * s := by ring
      have hk : |((k : ℚ) + 1) * s| = (k + 1) * |s| := by
        rw [abs_mul, abs_of_nonneg (by positivity)]
      calc |S + s| = |(S - k * s) + (k + 1) * s| := by rw [← e]
        _ ≤ |S - k * s| + |((k : ℚ) + 1) * s| := abs_add _ _
        _ = |S - k * s| + (k + 1) * |s| := by rw [hk]
    have h3 : |fl (S + s) - ((k + 1 : ℕ) : ℚ) * s| ≤ |fl (S + s) - (S + s)| + |S - k * s| := by
      have e : fl (S + s) - ((k + 1 : ℕ) : ℚ) * s = (fl (S + s) - (S + s)) + (S - k * s) := by
        push_cast
        ring
      rw [e]
      exact abs_add _ _
    have ha : 0 ≤ |s| := abs_nonneg s
    have hk0 : (0 : ℚ) ≤ k := Nat.cast_nonneg k
    have hE : 0 ≤ |S - k * s| := abs_nonneg _
    have hmul : u * |S + s| ≤ u * (|S - k * s| + (k + 1) * |s|) :=
      mul_le_mul_of_nonneg_left h2 hu
    have hih : (1 + u) * |S - k * s| ≤ (1 + u) * (((1 + u) ^ k - 1) * k * |s|) :=
      mul_le_mul_of_nonneg_left ih (by linarith)
    have hfin : (1 + u) * (((1 + u) ^ k - 1) * k * |s|) + u * ((k + 1) * |s|)
        ≤ ((1 + u) ^ (k + 1) - 1) * ((k + 1 : ℕ) : ℚ) * |s| := by
      have hpos : 0 ≤ |s| * ((1 + u) * ((1 + u) ^ k - 1)) :=
        mul_nonneg ha (mul_nonneg (by linarith) (by linarith))
      rw [pow_succ]
      push_cast
      nlinarith
    calc |fl (S + s) - ((k + 1 : ℕ) : ℚ) * s|
        ≤ |fl (S + s) - (S + s)| + |S - k * s| := h3
      _ ≤ u * |S + s| + |S - k * s| := by linarith
      _ ≤ u * (|S - k * s| + (k + 1) * |s|) + |S - k * s| := by linarith
      _ = (1 + u) * |S - k * s| + u * ((k + 1) * |s|) := by ring
      _ ≤ (1 + u) * (((1 + u) ^ k - 1) * k * |s|) + u * ((k + 1) * |s|) := by linarith
      _ ≤ ((1 + u) ^ (k + 1) - 1) * ((k + 1 : ℕ) : ℚ) * |s| := hfin

/-- The mean written by `Render`: the sum of `N` equal terms accumulated with
a rounding of relative error at most `u < 1`, multiplied by the rounded
weight `1 / N`, is within the relative error `(1 + u)^(N + 2) / (1 - u) - 1`
of the term. -/
theorem float_mean_error (fl : ℚ → ℚ) (u : ℚ) (hu : 0 ≤ u) (hu1 : u < 1)
    (hfl : ∀ x, |fl x - x| ≤ u * |x|) (s : ℚ) (N : ℕ) (hN : 1 ≤ N) :
    |fl ((List.replicate N s).foldl (fun a x => fl (a + x)) 0 * fl (1 / fl (N : ℚ))) - s|
      ≤ ((1 + u) ^ (N + 2) / (1 - u) - 1) * |s| := by
  have hS := float_sum_error fl u hu hfl s N
  generalize (List.replicate N s).foldl (fun a x => fl (a + x)) 0 = S at hS ⊢
  have hd := hfl (N : ℚ)
  generalize fl (N : ℚ) = d at hd ⊢
  have hw := hfl (1 / d)
  generalize fl (1 / d) = w at hw ⊢
  have hR := hfl (S * w)
  generalize fl (S * w) = R at hR ⊢
  have hNq : (1 : ℚ) ≤ N := by exact_mod_cast hN
  have hA : (1 : ℚ) ≤ (1 + u) ^ N := one_le_pow₀ (by linarith)
  generalize (N : ℚ) = n at hS hd hw hNq
  have hpow : (1 + u) ^ (N + 2) = (1 + u) ^ N * (1 + u) ^ 2 := pow_add _ _ _
  rw [hpow]
  generalize (1 + u) ^ N = A at hS hA ⊢
  have ha : 0 ≤ |s| := abs_nonneg s
  generalize ha0 : |s| = a at hS ha ⊢
  -- the divisor
  rw [abs_of_pos (by linarith : (0 : ℚ) < n)] at hd
  have hd1 := (abs_le.mp hd).1
  have hd2 := (abs_le.mp hd).2
  have hdpos : 0 < d := by nlinarith
  have hepos : 0 < 1 / d := by positivity
  have hde : d * (1 / d) = 1 := by field_simp
  rw [abs_of_pos hepos] at hw
  generalize 1 / d = e at hw hepos hde
  have hgpos : 0 < 1 / (1 - u) := by
    have : 0 < 1 - u := by linarith
    positivity
  have hge : (1 - u) * (1 / (1 - u)) = 1 := by
    have : (1 - u) ≠ 0 := by linarith
    field_simp
  have hdiv : A * (1 + u) ^ 2 / (1 - u) = A * (1 + u) ^ 2 * (1 / (1 - u)) := by ring
  rw [hdiv]
  generalize 1 / (1 - u) = g at hgpos hge ⊢
  -- n * e <= g
  have hne : n * e ≤ g := by
    have h1 : (1 - u) * n * e ≤ d * e := by
      apply mul_le_mul_of_nonneg_right _ hepos.le
      linarith
    have h2 : g * ((1 - u) * n * e) ≤ g * (d * e) := mul_le_mul_of_nonneg_left h1 hgpos.le
    have h3 : g * ((1 - u) * n * e) = ((1 - u) * g) * (n * e) := by ring
    rw [h3, hge, hde] at h2
    linarith
  have hne0 : 0 ≤ n * e := mul_nonneg (by linarith) hepos.le
  -- the sum
  have hSabs : |S| ≤ A * n * a := by
    have e1 : S = (S - n * s) + n * s := by ring
    have h1 : |S| ≤ |S - n * s| + |n * s| := by
      calc |S| = |(S - n * s) + n * s| := by rw [← e1]
        _ ≤ |S - n * s| + |n * s| := abs_add _ _
    have h2 : |n * s| = n * a := by
      rw [abs_mul, abs_of_pos (by linarith : (0 : ℚ) < n), ha0]
    rw [h2] at h1
    linarith
  -- the exact product against the term
  have hx : |S * w - s| ≤ (n * e) * a * (A * (1 + u) - (1 - u)) := by
    have e1 : S * w - s = S * (w - e) + (S - n * s) * e + s * ((n - d) * e) := by
      linear_combination s * hde
    have t1 : |S * (w - e)| ≤ (A * n * a) * (u * e) := by
      rw [abs_mul]
      exact mul_le_mul hSabs hw (abs_nonneg _) (by positivity)
    have t2 : |(S - n * s) * e| ≤ ((A - 1) * n * a) * e := by
      rw [abs_mul, abs_of_pos hepos]
      exact mul_le_mul_of_nonneg_right hS hepos.le
    have t3 : |s * ((n - d) * e)| ≤ a * ((u * n) * e) := by
      rw [abs_mul, ha0, abs_mul, abs_of_pos hepos]
      apply mul_le_mul_of_nonneg_left _ ha
      apply mul_le_mul_of_nonneg_right _ hepos.le
      rw [abs_le]
      constructor <;> linarith
    calc |S * w - s| = |S * (w - e) + (S - n * s) * e + s * ((n - d) * e)| := by rw [← e1]
      _ ≤ |S * (w - e) + (S - n * s) * e| + |s * ((n - d) * e)| := abs_add _ _
      _ ≤ |S * (w - e)| + |(S - n * s) * e| + |s * ((n - d) * e)| := by
          linarith [abs_add (S * (w - e)) ((S - n * s) * e)]
      _ ≤ (A * n * a) * (u * e) + ((A - 1) * n * a) * e + a * ((u * n) * e) := by linarith
      _ = (n * e) * a * (A * (1 + u) - (1 - u)) := by ring
  have hc : 0 ≤ a * (A * (1 + u) - (1 - u)) := mul_nonneg ha (by nlinarith)
  have hx2 : |S * w - s| ≤ a * (A * (1 + u) * g - 1) := by
    have h1 : (n * e) * (a * (A * (1 + u) - (1 - u))) ≤ g * (a * (A * (1 + u) - (1 - u))) :=
      mul_le_mul_of_nonneg_right hne hc
    have h2 : g * (a * (A * (1 + u) - (1 - u))) = a * (A * (1 + u) * g - 1) := by
      linear_combination (-a) * hge
    linarith
  have hSw : |S * w| ≤ |S * w - s| + a := by
    have e1 : S * w = (S * w - s) + s := by ring
    calc |S * w| = |(S * w - s) + s| := by rw [← e1]
      _ ≤ |S * w - s| + |s| := abs_add _ _
      _ = |S * w - s| + a := by rw [ha0]
  have hfin : |R - s| ≤ |R - S * w| + |S * w - s| := by
    have e1 : R - s = (R - S * w) + (S * w - s) := by ring
    rw [e1]
    exact abs_add _ _
  have hmul : u * |S * w| ≤ u * (|S * w - s| + a) := mul_le_mul_of_nonneg_left hSw hu
  have hlast : (1 + u) * |S * w - s| ≤ (1 + u) * (a * (A * (1 + u) * g - 1)) :=
    mul_le_mul_of_nonneg_left hx2 (by linarith)
  calc |R - s| ≤ |R - S * w| + |S * w - s| := hfin
    _ ≤ u * (|S * w - s| + a) + |S * w - s| := by linarith
    _ = (1 + u) * |S * w - s| + u * a := by ring
    _ ≤ (1 + u) * (a * (A * (1 + u) * g - 1)) + u * a := by linarith
    _ = (A * (1 + u) ^ 2 * g - 1) * a := by ring

/-- C17 (amended): in the Whitted renderer, when no ray hits any triangle,
`trace_ray` returns the configured sky colour, and for every multisample count
`m >= 1` whose square fits an `unsigned int` (`m <= 65535`) `Render` writes
to every pixel of its tile one colour `c`: the `m*m` sky colours summed in
`float` and multiplied by the `float` weight `1.0f / (m*m)`, whatever the
rounding `fl` of `float` arithmetic is, provided it rounds no positive
integer to 0. For `m = 1`, with a rounding that leaves 1 and the channels of
the sky colour as they are, `c` is exactly the sky colour. For every `m`, with
a rounding of relative error at most `u < 1`, every channel of `c` is within
the relative error `(1 + u)^(m*m + 2) / (1 - u) - 1` of the sky colour. -/
theorem C17_empty_scene_sky (fl : ℚ → ℚ) (sc : WhittedScene) (lights : List Light)
    (camRay : Nat → Nat → Nat → Nat → ClipRay) (recursion_level : Int) (m : Nat)
    (task : RenderTask) (hempty : ∀ r, sc.FindIntersectKd r = none) (hm : 1 ≤ m)
    (hmm : m * m < UINT_RANGE) (hfl : ∀ n : ℕ, 1 ≤ n → fl (n : ℚ) ≠ 0) :
    (∀ r shadow_cache depth raycount,
      (trace_ray sc lights r shadow_cache depth raycount).1 = sc.sky_color) ∧
    ∃ c : Radiance,
      RenderOutput fl sc lights camRay recursion_level m task
        = (Render task).map (fun px => (px, some c)) ∧
      c = ((List.replicate (m * m) sc.sky_color).foldl (Radiance.addF fl)
            ⟨0, 0, 0⟩).scaleF fl (fl (1 / fl ((m * m : ℕ) : ℚ))) ∧
      (m = 1 → fl 1 = 1 → fl sc.sky_color.r = sc.sky_color.r →
        fl sc.sky_color.g = sc.sky_color.g → fl sc.sky_color.b = sc.sky_color.b →
        c = sc.sky_color) ∧
      (∀ u : ℚ, 0 ≤ u → u < 1 → (∀ x, |fl x - x| ≤ u * |x|) →
        |c.r - sc.sky_color.r| ≤ ((1 + u) ^ (m * m + 2) / (1 - u) - 1) * |sc.sky_color.r| ∧
        |c.g - sc.sky_color.g| ≤ ((1 + u) ^ (m * m + 2) / (1 - u) - 1) * |sc.sky_color.g| ∧
        |c.b - sc.sky_color.b| ≤ ((1 + u) ^ (m * m + 2) / (1 - u) - 1) * |sc.sky_color.b|) := by
  have hne : fl ((m * m : ℕ) : ℚ) ≠ 0 := hfl (m * m) (Nat.mul_pos hm hm)
  refine ⟨?_, _, ?_, rfl, ?_, ?_⟩
  · intro r shadow_cache depth raycount
    rw [trace_ray_miss sc lights r shadow_cache depth raycount (hempty r)]
  · unfold RenderOutput
    exact renderValues_empty_scene fl sc lights camRay recursion_level m hempty hmm hne _ _ _
  · intro h1 hone hr hg hb
    subst h1
    have h11 : (((1 * 1 : ℕ) : ℕ) : ℚ) = 1 := by norm_num
    rw [h11, hone, div_one, hone]
    have hn : (1 * 1 : ℕ) = 1 := rfl
    rw [hn]
    cases hsky : sc.sky_color with
    | mk r g b =>
      rw [hsky] at hr hg hb
      simp only at hr hg hb
      simp only [List.replicate_one, List.foldl_cons, List.foldl_nil, Radiance.addF,
        Radiance.scaleF, zero_add, mul_one, hr, hg, hb]
  · intro u hu hu1 herr
    rw [foldl_addF_replicate]
    have hN : 1 ≤ m * m := Nat.mul_pos hm hm
    exact ⟨float_mean_error fl u hu hu1 herr sc.sky_color.r (m * m) hN,
      float_mean_error fl u hu hu1 herr sc.sky_color.g (m * m) hN,
      float_mean_error fl u hu hu1 herr sc.sky_color.b (m * m) hN⟩

/-- Witness for C17 (amended): the empty scene of sky `(0.2f, 0.4f, 0.8f)`, a
16 x 16 image in one tile, binary32 rounding. With one sample per pixel every
pixel is exactly the sky colour; with 3 x 3 samples per pixel every pixel is
one colour within the relative error `(1 + 2^-24)^11 / (1 - 2^-24) - 1` of the
sky colour. -/
theorem C17_empty_scene_sky_witness :
    RenderOutput roundFloat emptyWhittedScene [] fixedCamera 1 1
        (RenderTask.ctor (0, 0) 16 16 0 16 0 16)
      = (Render (RenderTask.ctor (0, 0) 16 16 0 16 0 16)).map
          (fun px => (px, some emptyWhittedScene.sky_color)) ∧
    ∃ c : Radiance,
      RenderOutput roundFloat emptyWhittedScene [] fixedCamera 1 3
          (RenderTask.ctor (0, 0) 16 16 0 16 0 16)
        = (Render (RenderTask.ctor (0, 0) 16 16 0 16 0 16)).map (fun px => (px, some c)) ∧
      |c.r - emptyWhittedScene.sky_color.r|
        ≤ ((1 + 1 / 16777216) ^ (3 * 3 + 2) / (1 - 1 / 16777216) - 1)
          * |emptyWhittedScene.sky_color.r| ∧
      |c.g - emptyWhittedScene.sky_color.g|
        ≤ ((1 + 1 / 16777216) ^ (3 * 3 + 2) / (1 - 1 / 16777216) - 1)
          * |emptyWhittedScene.sky_color.g| ∧
      |c.b - emptyWhittedScene.sky_color.b|
        ≤ ((1 + 1 / 16777216) ^ (3 * 3 + 2) / (1 - 1 / 16777216) - 1)
          * |emptyWhittedScene.sky_color.b| := by
  constructor
  · obtain ⟨_, c, hout, _, hone, _⟩ :=
      C17_empty_scene_sky roundFloat emptyWhittedScene [] fixedCamera 1 1
        (RenderTask.ctor (0, 0) 16 16 0 16 0 16)
        (fun _ => rfl) (by decide) (by norm_num [UINT_RANGE])
        (fun n hn => ne_of_gt (roundFloat_pos n (by exact_mod_cast hn)))
    rw [hout, hone rfl roundFloat_one roundFloat_sky_r roundFloat_sky_g roundFloat_sky_b]
  · obtain ⟨_, c, hout, _, _, hbound⟩ :=
      C17_empty_scene_sky roundFloat emptyWhittedScene [] fixedCamera 1 3
        (RenderTask.ctor (0, 0) 16 16 0 16 0 16)
        (fun _ => rfl) (by decide) (by norm_num [UINT_RANGE])
        (fun n hn => ne_of_gt (roundFloat_pos n (by exact_mod_cast hn)))
    exact ⟨c, hout, hbound (1 / 16777216) (by norm_num) (by norm_num)
      roundFloat_relative_error⟩

/-! ### Shadowed hits -/

theorem Radiance.zero_add_left (a : Radiance) : (⟨0, 0, 0⟩ : Radiance).add a = a := by
  cases a
  simp [Radiance.add]

theorem lightStep_occluded (sc : WhittedScene) (h : WhittedHit) (V : Vec3) (depth : Int)
    (l : Light) (buf : List Nat) (total : Radiance)
    (hocc : (shadowTriangle sc h depth l buf).1.isSome = true) :
    (lightStep sc h V depth l buf total).1 = total := by
  unfold lightStep
  cases hs : (shadowTriangle sc h depth l buf).1 with
  | none => simp [hs] at hocc
  | some tri => rfl

theorem lightStep_lit (sc : WhittedScene) (h : WhittedHit) (V : Vec3) (depth : Int)
    (l : Light) (buf : List Nat) (total : Radiance)
    (hlit : (shadowTriangle sc h depth l buf).1 = none) :
    (lightStep sc h V depth l buf total).1 = total.add (lightContribution sc h V l) := by
  unfold lightStep
  rw [hlit]

theorem lightsLoop_all_occluded (sc : WhittedScene) (h : WhittedHit) (V : Vec3) (depth : Int) :
    ∀ (ls : List Light) (cache : List (List Nat)) (total : Radiance) (raycount : Nat),
      List.Forall₂ (fun l buf => (shadowTriangle sc h depth l buf).1.isSome = true) ls cache →
      (lightsLoop sc h V depth ls cache total raycount).1 = total := by
  intro ls
  induction ls with
  | nil =>
    intro cache total raycount _
    rfl
  | cons l ls ih =>
    intro cache total raycount hall
    cases hall with
    | cons hl hrest =>
      rw [lightsLoop]
      simp only [List.headD_cons, List.tail_cons]
      rw [ih _ _ _ hrest, lightStep_occluded sc h V depth l _ total hl]

theorem lightsLoop_one_lit (sc : WhittedScene) (h : WhittedHit) (V : Vec3) (depth : Int)
    (l : Light) (buf : List Nat) (ls2 : List Light) (c2 : List (List Nat))
    (hlit : (shadowTriangle sc h depth l buf).1 = none)
    (h2 : List.Forall₂ (fun l buf => (shadowTriangle sc h depth l buf).1.isSome = true) ls2 c2) :
    ∀ (ls1 : List Light) (c1 : List (List Nat)) (total : Radiance) (raycount : Nat),
      List.Forall₂ (fun l buf => (shadowTriangle sc h depth l buf).1.isSome = true) ls1 c1 →
      (lightsLoop sc h V depth (ls1 ++ l :: ls2) (c1 ++ buf :: c2) total raycount).1
        = total.add (lightContribution sc h V l) := by
  intro ls1
  induction ls1 with
  | nil =>
    intro c1 total raycount h1
    cases h1
    simp only [List.nil_append]
    rw [lightsLoop]
    simp only [List.headD_cons, List.tail_cons]
    rw [lightsLoop_all_occluded sc h V depth ls2 c2 _ _ h2, lightStep_lit sc h V depth l buf total hlit]
  | cons l1 ls1 ih =>
    intro c1 total raycount h1
    cases h1 with
    | cons hl hrest =>
      simp only [List.cons_append]
      rw [lightsLoop]
      simp only [List.headD_cons, List.tail_cons]
      rw [ih _ _ _ hrest, lightStep_occluded sc h V depth l1 _ total hl]

theorem trace_ray_no_reflection (sc : WhittedScene) (lights : List Light) (r : ClipRay)
    (shadow_cache : List (List Nat)) (depth : Int) (raycount : Nat) (h : WhittedHit)
    (hhit : sc.FindIntersectKd r = some h) (hne : lights ≠ [])
    (hnr : ¬ (depth ≥ 2 ∧ h.exponent < 1)) :
    (trace_ray sc lights r shadow_cache depth raycount).1
      = (lightsLoop sc h r.direction.neg depth lights shadow_cache ⟨0, 0, 0⟩
          (wrapU (raycount + 1))).1.add (h.ambient.scale (1 / 10)) := by
  have hlen : ¬ lights.length = 0 := by
    intro h0
    exact hne (List.length_eq_zero.mp h0)
  rw [trace_ray]
  simp only [hhit, dif_neg hnr, if_neg hlen]

theorem intensFactor_pos (sc : WhittedScene) (h : WhittedHit) (l : Light)
    (hint : 0 < l.intensity) : 0 < intensFactor sc h l := by
  unfold intensFactor
  have hd : 0 ≤ length sc.sqrt (h.ipos.sub l.pos) * length sc.sqrt (h.ipos.sub l.pos) :=
    mul_self_nonneg _
  positivity

theorem lightContribution_channel (i kD c d s kS : ℚ) (hi : 0 < i) (hkD : 0 < kD)
    (hc : 0 < c) (hd : 0 < d) (hs : 0 ≤ s) (hkS : 0 ≤ kS) :
    0 < c * i * d * kD ∧ 0 < c * i * d * kD + c * i * s * kS * 1 := by
  have h1 : 0 < c * i * d * kD := by positivity
  have h2 : 0 ≤ c * i * s * kS * 1 := by positivity
  exact ⟨h1, by linarith⟩

theorem lightContribution_pos (sc : WhittedScene) (h : WhittedHit) (V : Vec3) (l : Light)
    (hint : 0 < l.intensity) (hdot : 0 < dot h.N (lightDir sc h l))
    (hspec : h.specular.nonneg) (hpow : ∀ a e, 0 ≤ a → 0 ≤ sc.pow a e) :
    (0 < l.color.r → 0 < h.diffuse.r → 0 < (lightContribution sc h V l).r) ∧
    (0 < l.color.g → 0 < h.diffuse.g → 0 < (lightContribution sc h V l).g) ∧
    (0 < l.color.b → 0 < h.diffuse.b → 0 < (lightContribution sc h V l).b) := by
  have hi := intensFactor_pos sc h l hint
  have hkD : 0 < max 0 (dot h.N (lightDir sc h l)) := lt_max_of_lt_right hdot
  have hkS : 0 ≤ sc.pow (max 0 (dot (mirror (lightDir sc h l) h.N) V)) h.exponent :=
    hpow _ _ (le_max_left _ _)
  unfold lightContribution
  simp only
  by_cases hexp : h.exponent > 1
  · simp only [if_pos hexp, Radiance.add, Radiance.scale, Radiance.mul]
    exact ⟨fun hc hd => (lightContribution_channel _ _ _ _ _ _ hi hkD hc hd hspec.1 hkS).2,
      fun hc hd => (lightContribution_channel _ _ _ _ _ _ hi hkD hc hd hspec.2.1 hkS).2,
      fun hc hd => (lightContribution_channel _ _ _ _ _ _ hi hkD hc hd hspec.2.2 hkS).2⟩
  · simp only [if_neg hexp, Radiance.scale, Radiance.mul]
    exact ⟨fun hc hd => (lightContribution_channel _ _ _ _ _ _ hi hkD hc hd hspec.1 hkS).1,
      fun hc hd => (lightContribution_channel _ _ _ _ _ _ hi hkD hc hd hspec.2.1 hkS).1,
      fun hc hd => (lightContribution_channel _ _ _ _ _ _ hi hkD hc hd hspec.2.2 hkS).1⟩

/-- C18 as stated fails when the specular colour is negative: a surface of
Phong exponent 2 and specular colour `(-10, -10, -10)`, lit by an unoccluded
white light of intensity 1 with `dot(N, L) = 1`, returns less than the
ambient-only value `0.1 * ambient` on every channel. -/
theorem C18_negative_specular_counterexample :
    (shadowTriangle (surfaceScene [] (1 / 2) darkSpecularHit) darkSpecularHit 1 whiteLight []).1
      = none ∧
    0 < dot darkSpecularHit.N (lightDir (surfaceScene [] (1 / 2) darkSpecularHit)
      darkSpecularHit whiteLight) ∧
    (trace_ray (surfaceScene [] (1 / 2) darkSpecularHit) [whiteLight]
        (fixedCamera 0 0 0 0) [[]] 1 0).1 = ⟨-353 / 970, -353 / 970, -353 / 970⟩ ∧
    (-353 / 970 : ℚ) < (darkSpecularHit.ambient.scale (1 / 10)).r := by
  have hL : lightDir (surfaceScene [] (1 / 2) darkSpecularHit) darkSpecularHit whiteLight
      = ⟨0, 0, 1⟩ := by
    norm_num [lightDir, normalize, surfaceScene, darkSpecularHit, whiteHit, whiteLight, dot,
      Vec3.sub, Vec3.smul, sqrtQ]
  have hlit : (shadowTriangle (surfaceScene [] (1 / 2) darkSpecularHit) darkSpecularHit 1
      whiteLight []).1 = none := by
    simp [shadowTriangle, shadowSearch, cacheLookup, FindIntersectKdAny, surfaceScene]
  refine ⟨hlit, by rw [hL]; norm_num [darkSpecularHit, whiteHit, dot], ?_, ?_⟩
  · rw [trace_ray_no_reflection _ _ _ _ _ _ darkSpecularHit rfl (by simp) (by norm_num)]
    have h1 := lightsLoop_one_lit (surfaceScene [] (1 / 2) darkSpecularHit) darkSpecularHit
      (fixedCamera 0 0 0 0).direction.neg 1 whiteLight [] [] [] hlit List.Forall₂.nil [] []
      ⟨0, 0, 0⟩ (wrapU (0 + 1)) List.Forall₂.nil
    simp only [List.nil_append] at h1
    rw [h1]
    unfold lightContribution
    simp only [hL]
    norm_num [intensFactor, length, surfaceScene, darkSpecularHit, whiteHit, whiteLight, dot,
      Vec3.sub, Vec3.neg, Vec3.smul, mirror, sqrtQ, powQ, fixedCamera, Radiance.add,
      Radiance.scale, Radiance.mul]
  · norm_num [darkSpecularHit, whiteHit, Radiance.scale]

/-- C18 (amended): in the Whitted tracer a shadowed hit is ambient-only: for
every hit with a non-empty light list in which every light is occluded, and
no reflection ray spawned (`depth < 2` or `exponent >= 1`), `trace_ray`
returns exactly `0.1 * ambient`; and if one of those lights is instead
unoccluded with `dot(N, L) > 0` and positive intensity, and the specular colour
is non-negative, the result is strictly larger on the channels where the light
colour and the diffuse colour are positive. -/
theorem C18_shadowed_is_ambient (sc : WhittedScene) (lights : List Light) (r : ClipRay)
    (shadow_cache : List (List Nat)) (depth : Int) (raycount : Nat) (h : WhittedHit)
    (hhit : sc.FindIntersectKd r = some h) (hne : lights ≠ [])
    (hnr : ¬ (depth ≥ 2 ∧ h.exponent < 1)) :
    (List.Forall₂ (fun l buf => (shadowTriangle sc h depth l buf).1.isSome = true)
        lights shadow_cache →
      (trace_ray sc lights r shadow_cache depth raycount).1 = h.ambient.scale (1 / 10)) ∧
    (∀ ls1 l ls2 c1 buf c2, lights = ls1 ++ l :: ls2 → shadow_cache = c1 ++ buf :: c2 →
      List.Forall₂ (fun l buf => (shadowTriangle sc h depth l buf).1.isSome = true) ls1 c1 →
      List.Forall₂ (fun l buf => (shadowTriangle sc h depth l buf).1.isSome = true) ls2 c2 →
      (shadowTriangle sc h depth l buf).1 = none →
      0 < dot h.N (lightDir sc h l) → 0 < l.intensity → h.specular.nonneg →
      (∀ a e, 0 ≤ a → 0 ≤ sc.pow a e) →
      (0 < l.color.r → 0 < h.diffuse.r →
        (h.ambient.scale (1 / 10)).r < (trace_ray sc lights r shadow_cache depth raycount).1.r) ∧
      (0 < l.color.g → 0 < h.diffuse.g →
        (h.ambient.scale (1 / 10)).g < (trace_ray sc lights r shadow_cache depth raycount).1.g) ∧
      (0 < l.color.b → 0 < h.diffuse.b →
        (h.ambient.scale (1 / 10)).b
          < (trace_ray sc lights r shadow_cache depth raycount).1.b)) := by
  rw [trace_ray_no_reflection sc lights r shadow_cache depth raycount h hhit hne hnr]
  constructor
  · intro hall
    rw [lightsLoop_all_occluded sc h _ depth lights shadow_cache _ _ hall, Radiance.zero_add_left]
  · intro ls1 l ls2 c1 buf c2 hl hc h1 h2 hlit hdot hint hspec hpow
    subst hl
    subst hc
    rw [lightsLoop_one_lit sc h _ depth l buf ls2 c2 hlit h2 ls1 c1 _ _ h1, Radiance.zero_add_left]
    obtain ⟨hr, hg, hb⟩ := lightContribution_pos sc h r.direction.neg l hint hdot hspec hpow
    simp only [Radiance.add]
    exact ⟨fun a b => by linarith [hr a b], fun a b => by linarith [hg a b],
      fun a b => by linarith [hb a b]⟩

/-- Witness for C18 (amended): a white surface under one light whose shadow
ray is blocked by the triangle 7 at `t = 1/2`: the traced colour is
`0.1 * ambient`. -/
theorem C18_shadowed_is_ambient_witness :
    (trace_ray (surfaceScene [7] (1 / 2) whiteHit) [whiteLight] (fixedCamera 0 0 0 0) [[]] 1 0).1
      = whiteHit.ambient.scale (1 / 10) :=
  (C18_shadowed_is_ambient (surfaceScene [7] (1 / 2) whiteHit) [whiteLight]
    (fixedCamera 0 0 0 0) [[]] 1 0 whiteHit rfl (by simp) (by norm_num)).1
    (List.Forall₂.cons
      (by norm_num [shadowTriangle, shadowSearch, cacheLookup, FindIntersectKdAny, surfaceScene,
        rayToLight])
      List.Forall₂.nil)

/-! ### Shadow cache -/

theorem cacheLookup_some (sc : WhittedScene) (ray : ClipRay) :
    ∀ (buf : List Nat) (tri : Nat), (cacheLookup sc ray buf).1 = some tri →
      tri ∈ buf ∧ ∃ t, sc.TestIntersection tri ray = some t ∧
        ray.near - sc.epsilon ≤ t ∧ t ≤ ray.far + sc.epsilon := by
  intro buf
  induction buf with
  | nil =>
    intro tri h
    simp [cacheLookup] at h
  | cons x rest ih =>
    intro tri h
    unfold cacheLookup at h
    cases ht : sc.TestIntersection x ray with
    | none =>
      simp only [ht] at h
      obtain ⟨hm, hr⟩ := ih tri h
      exact ⟨List.mem_cons_of_mem _ hm, hr⟩
    | some t =>
      simp only [ht] at h
      by_cases hc : t < ray.near - sc.epsilon ∨ t > ray.far + sc.epsilon
      · rw [if_pos hc] at h
        obtain ⟨hm, hr⟩ := ih tri h
        exact ⟨List.mem_cons_of_mem _ hm, hr⟩
      · rw [if_neg hc] at h
        simp only [Option.some.injEq] at h
        subst h
        push_neg at hc
        exact ⟨List.mem_cons_self _ _, t, ht, hc.1, hc.2⟩

theorem FindIntersectKdAny_mem (sc : WhittedScene) (ray : ClipRay) (tri : Nat)
    (h : FindIntersectKdAny sc ray = some tri) : tri ∈ sc.triangles :=
  List.mem_of_find?_eq_some h

theorem FindIntersectKdAny_isSome (sc : WhittedScene) (ray : ClipRay) (tri : Nat) (t : ℚ)
    (hm : tri ∈ sc.triangles) (ht : sc.TestIntersection tri ray = some t)
    (hin : ray.near < t ∧ t < ray.far) : (FindIntersectKdAny sc ray).isSome = true := by
  unfold FindIntersectKdAny
  rw [List.find?_isSome]
  exact ⟨tri, hm, by simp [ht, hin]⟩

theorem shadowSearch_nil (sc : WhittedScene) (ray : ClipRay) :
    (shadowSearch sc ray []).1 = FindIntersectKdAny sc ray := rfl

theorem shadowSearch_mem (sc : WhittedScene) (ray : ClipRay) (buf : List Nat) (tri : Nat)
    (hbuf : ∀ x ∈ buf, x ∈ sc.triangles) (h : (shadowSearch sc ray buf).1 = some tri) :
    tri ∈ sc.triangles := by
  unfold shadowSearch at h
  cases hc : (cacheLookup sc ray buf).1 with
  | none =>
    simp only [hc] at h
    exact FindIntersectKdAny_mem sc ray tri h
  | some x =>
    simp only [hc, Option.some.injEq] at h
    subst h
    exact hbuf _ (cacheLookup_some sc ray buf x hc).1

theorem shadowSearch_decision (sc : WhittedScene) (ray : ClipRay) (buf : List Nat)
    (hsound : ∀ tri ∈ sc.triangles, ∀ t, sc.TestIntersection tri ray = some t →
      ray.near - sc.epsilon ≤ t → t ≤ ray.far + sc.epsilon → ray.near < t ∧ t < ray.far)
    (hbuf : ∀ x ∈ buf, x ∈ sc.triangles) :
    (shadowSearch sc ray buf).1.isSome = (FindIntersectKdAny sc ray).isSome := by
  unfold shadowSearch
  cases hc : (cacheLookup sc ray buf).1 with
  | none => rfl
  | some x =>
    obtain ⟨hm, t, ht, h1, h2⟩ := cacheLookup_some sc ray buf x hc
    simp only [Option.isSome_some]
    exact (FindIntersectKdAny_isSome sc ray x t (hbuf x hm) ht
      (hsound x (hbuf x hm) t ht h1 h2)).symm

theorem shadowTriangle_decision (sc : WhittedScene) (h : WhittedHit) (depth : Int) (l : Light)
    (buf : List Nat)
    (hsound : ∀ tri ∈ sc.triangles, ∀ t, sc.TestIntersection tri (rayToLight sc h l) = some t →
      (rayToLight sc h l).near - sc.epsilon ≤ t → t ≤ (rayToLight sc h l).far + sc.epsilon →
      (rayToLight sc h l).near < t ∧ t < (rayToLight sc h l).far)
    (hbuf : ∀ x ∈ buf, x ∈ sc.triangles) :
    (shadowTriangle sc h depth l buf).1.isSome = (shadowTriangle sc h depth l []).1.isSome := by
  unfold shadowTriangle
  by_cases hd : depth > 0
  · rw [if_pos hd, if_pos hd, shadowSearch_decision sc _ buf hsound hbuf, shadowSearch_nil]
  · rw [if_neg hd, if_neg hd]

theorem shadowTriangle_mem (sc : WhittedScene) (h : WhittedHit) (depth : Int) (l : Light)
    (buf : List Nat) (tri : Nat) (hbuf : ∀ x ∈ buf, x ∈ sc.triangles)
    (hs : (shadowTriangle sc h depth l buf).1 = some tri) : tri ∈ sc.triangles := by
  unfold shadowTriangle at hs
  by_cases hd : depth > 0
  · rw [if_pos hd] at hs
    exact shadowSearch_mem sc _ buf tri hbuf hs
  · rw [if_neg hd] at hs
    simp at hs

theorem LRUBuffer.Use_mem (capacity : Nat) (buf : List Nat) (v x : Nat)
    (hx : x ∈ LRUBuffer.Use capacity buf v) : x = v ∨ x ∈ buf := by
  unfold LRUBuffer.Use at hx
  have h1 := List.mem_of_mem_take hx
  rcases List.mem_cons.mp h1 with h2 | h2
  · exact Or.inl h2
  · exact Or.inr (List.mem_of_mem_erase h2)

theorem lightStep_color (sc : WhittedScene) (h : WhittedHit) (V : Vec3) (depth : Int)
    (l : Light) (buf : List Nat) (total : Radiance) :
    (lightStep sc h V depth l buf total).1
      = if (shadowTriangle sc h depth l buf).1.isSome then total
        else total.add (lightContribution sc h V l) := by
  unfold lightStep
  cases hs : (shadowTriangle sc h depth l buf).1 with
  | none => simp
  | some tri => simp

theorem lightStep_buffer (sc : WhittedScene) (h : WhittedHit) (V : Vec3) (depth : Int)
    (l : Light) (buf : List Nat) (total : Radiance) (hbuf : ∀ x ∈ buf, x ∈ sc.triangles) :
    ∀ x ∈ (lightStep sc h V depth l buf total).2.1, x ∈ sc.triangles := by
  unfold lightStep
  cases hs : (shadowTriangle sc h depth l buf).1 with
  | none => exact hbuf
  | some tri =>
    intro x hx
    rcases LRUBuffer.Use_mem _ _ _ _ hx with h1 | h1
    · rw [h1]
      exact shadowTriangle_mem sc h depth l buf tri hbuf hs
    · exact hbuf x h1

theorem headD_buffer (ts : List Nat) (c : List (List Nat))
    (hc : ∀ buf ∈ c, ∀ x ∈ buf, x ∈ ts) : ∀ x ∈ c.headD [], x ∈ ts := by
  cases c with
  | nil => intro x hx; simp at hx
  | cons b rest => exact hc b (List.mem_cons_self _ _)

theorem tail_buffer (ts : List Nat) (c : List (List Nat))
    (hc : ∀ buf ∈ c, ∀ x ∈ buf, x ∈ ts) : ∀ buf ∈ c.tail, ∀ x ∈ buf, x ∈ ts :=
  fun buf hb => hc buf (List.mem_of_mem_tail hb)

theorem lightsLoop_buffers (sc : WhittedScene) (h : WhittedHit) (V : Vec3) (depth : Int) :
    ∀ (ls : List Light) (c : List (List Nat)) (total : Radiance) (raycount : Nat),
      (∀ buf ∈ c, ∀ x ∈ buf, x ∈ sc.triangles) →
      ∀ buf ∈ (lightsLoop sc h V depth ls c total raycount).2.1, ∀ x ∈ buf, x ∈ sc.triangles := by
  intro ls
  induction ls with
  | nil =>
    intro c total raycount hc
    exact hc
  | cons l ls ih =>
    intro c total raycount hc buf hb
    rw [lightsLoop] at hb
    simp only [List.mem_cons] at hb
    rcases hb with hb | hb
    · rw [hb]
      exact lightStep_buffer sc h V depth l _ total (headD_buffer _ c hc)
    · exact ih _ _ _ (tail_buffer _ c hc) buf hb

theorem lightsLoop_cache_indep (sc : WhittedScene) (h : WhittedHit) (V : Vec3) (depth : Int) :
    ∀ (ls : List Light),
      (∀ l ∈ ls, ∀ tri ∈ sc.triangles, ∀ t,
        sc.TestIntersection tri (rayToLight sc h l) = some t →
        (rayToLight sc h l).near - sc.epsilon ≤ t → t ≤ (rayToLight sc h l).far + sc.epsilon →
        (rayToLight sc h l).near < t ∧ t < (rayToLight sc h l).far) →
      ∀ (c1 c2 : List (List Nat)) (total : Radiance) (rc1 rc2 : Nat),
      (∀ buf ∈ c1, ∀ x ∈ buf, x ∈ sc.triangles) → (∀ buf ∈ c2, ∀ x ∈ buf, x ∈ sc.triangles) →
      (lightsLoop sc h V depth ls c1 total rc1).1 = (lightsLoop sc h V depth ls c2 total rc2).1 := by
  intro ls
  induction ls with
  | nil =>
    intro _ c1 c2 total rc1 rc2 _ _
    rfl
  | cons l ls ih =>
    intro hs c1 c2 total rc1 rc2 h1 h2
    have hl := hs l (List.mem_cons_self _ _)
    have hrest := fun l1 hl1 => hs l1 (List.mem_cons_of_mem _ hl1)
    rw [lightsLoop, lightsLoop]
    simp only
    have e : (lightStep sc h V depth l (c1.headD []) total).1
        = (lightStep sc h V depth l (c2.headD []) total).1 := by
      rw [lightStep_color, lightStep_color,
        shadowTriangle_decision sc h depth l (c1.headD []) hl (headD_buffer _ c1 h1),
        shadowTriangle_decision sc h depth l (c2.headD []) hl (headD_buffer _ c2 h2)]
    rw [e]
    exact ih hrest _ _ _ _ _ (tail_buffer _ c1 h1) (tail_buffer _ c2 h2)

theorem trace_ray_cache_indep (sc : WhittedScene) (lights : List Light)
    (hsound : ∀ r h, sc.FindIntersectKd r = some h → ∀ l ∈ lights, ∀ tri ∈ sc.triangles, ∀ t,
      sc.TestIntersection tri (rayToLight sc h l) = some t →
      (rayToLight sc h l).near - sc.epsilon ≤ t → t ≤ (rayToLight sc h l).far + sc.epsilon →
      (rayToLight sc h l).near < t ∧ t < (rayToLight sc h l).far) :
    ∀ (n : Nat) (depth : Int), depth.toNat ≤ n →
      ∀ (r : ClipRay) (c1 c2 : List (List Nat)) (rc1 rc2 : Nat),
      (∀ buf ∈ c1, ∀ x ∈ buf, x ∈ sc.triangles) → (∀ buf ∈ c2, ∀ x ∈ buf, x ∈ sc.triangles) →
      (trace_ray sc lights r c1 depth rc1).1 = (trace_ray sc lights r c2 depth rc2).1 := by
  intro n
  induction n with
  | zero =>
    intro depth hd r c1 c2 rc1 rc2 h1 h2
    rw [trace_ray, trace_ray]
    cases hhit : sc.FindIntersectKd r with
    | none => rfl
    | some h =>
      have hnr : ¬ (depth ≥ 2 ∧ h.exponent < 1) := by
        intro hh
        omega
      simp only [dif_neg hnr]
      rw [lightsLoop_cache_indep sc h r.direction.neg depth lights (hsound r h hhit) c1 c2
        ⟨0, 0, 0⟩ (wrapU (rc1 + 1)) (wrapU (rc2 + 1)) h1 h2]
  | succ n ih =>
    intro depth hd r c1 c2 rc1 rc2 h1 h2
    rw [trace_ray, trace_ray]
    cases hhit : sc.FindIntersectKd r with
    | none => rfl
    | some h =>
      have hll := lightsLoop_cache_indep sc h r.direction.neg depth lights (hsound r h hhit)
        c1 c2 ⟨0, 0, 0⟩ (wrapU (rc1 + 1)) (wrapU (rc2 + 1)) h1 h2
      by_cases hnr : depth ≥ 2 ∧ h.exponent < 1
      · simp only [dif_pos hnr]
        rw [hll]
        rw [ih (depth - 1) (by omega) _ _
          (lightsLoop sc h r.direction.neg depth lights c2 ⟨0, 0, 0⟩ (wrapU (rc2 + 1))).2.1 _
          (lightsLoop sc h r.direction.neg depth lights c2 ⟨0, 0, 0⟩ (wrapU (rc2 + 1))).2.2
          (lightsLoop_buffers sc h _ depth lights c1 _ _ h1)
          (lightsLoop_buffers sc h _ depth lights c2 _ _ h2)]
      · simp only [dif_neg hnr]
        rw [hll]

theorem replicate_buffers (ts : List Nat) (n : Nat) :
    ∀ buf ∈ List.replicate n ([] : List Nat), ∀ x ∈ buf, x ∈ ts := by
  intro buf hb x hx
  rw [(List.mem_replicate.mp hb).2] at hx
  simp at hx

/-- C19 as stated fails: the cache test accepts a hit for `t` in
`[near - epsilon, far + epsilon]`, the any-hit query only for `t` strictly
between `near` and `far`. In a scene whose triangle 7 meets the shadow ray at
`t = far = 1`, the light is occluded with the cache `[7]` and unoccluded with
the empty cache, and the returned colours differ. -/
theorem C19_cache_tolerance_counterexample :
    (∀ tri ∈ [7], tri ∈ (surfaceScene [7] 1 whiteHit).triangles) ∧
    (shadowTriangle (surfaceScene [7] 1 whiteHit) whiteHit 1 whiteLight [7]).1 = some 7 ∧
    (shadowTriangle (surfaceScene [7] 1 whiteHit) whiteHit 1 whiteLight []).1 = none ∧
    (trace_ray (surfaceScene [7] 1 whiteHit) [whiteLight] (fixedCamera 0 0 0 0) [[7]] 1 0).1
      = ⟨1 / 10, 1 / 10, 1 / 10⟩ ∧
    (trace_ray (surfaceScene [7] 1 whiteHit) [whiteLight] (fixedCamera 0 0 0 0) [[]] 1 0).1
      = ⟨197 / 970, 197 / 970, 197 / 970⟩ := by
  have hocc : (shadowTriangle (surfaceScene [7] 1 whiteHit) whiteHit 1 whiteLight [7]).1
      = some 7 := by
    norm_num [shadowTriangle, shadowSearch, cacheLookup, surfaceScene, rayToLight]
  have hlit : (shadowTriangle (surfaceScene [7] 1 whiteHit) whiteHit 1 whiteLight []).1
      = none := by
    simp [shadowTriangle, shadowSearch, cacheLookup, FindIntersectKdAny, surfaceScene,
      rayToLight]
  have hL : lightDir (surfaceScene [7] 1 whiteHit) whiteHit whiteLight = ⟨0, 0, 1⟩ := by
    norm_num [lightDir, normalize, surfaceScene, whiteHit, whiteLight, dot, Vec3.sub,
      Vec3.smul, sqrtQ]
  refine ⟨by simp [surfaceScene], hocc, hlit, ?_, ?_⟩
  · rw [trace_ray_no_reflection _ _ _ _ _ _ whiteHit rfl (by simp) (by norm_num)]
    rw [lightsLoop_all_occluded _ _ _ _ [whiteLight] [[7]] _ _
      (List.Forall₂.cons (by rw [hocc]; rfl) List.Forall₂.nil)]
    norm_num [whiteHit, Radiance.add, Radiance.scale]
  · rw [trace_ray_no_reflection _ _ _ _ _ _ whiteHit rfl (by simp) (by norm_num)]
    have h1 := lightsLoop_one_lit (surfaceScene [7] 1 whiteHit) whiteHit
      (fixedCamera 0 0 0 0).direction.neg 1 whiteLight [] [] [] hlit List.Forall₂.nil [] []
      ⟨0, 0, 0⟩ (wrapU (0 + 1)) List.Forall₂.nil
    simp only [List.nil_append] at h1
    rw [h1]
    unfold lightContribution
    simp only [hL]
    norm_num [intensFactor, length, surfaceScene, whiteHit, whiteLight, dot,
      Vec3.sub, Vec3.neg, Vec3.smul, mirror, sqrtQ, powQ, fixedCamera, Radiance.add,
      Radiance.scale, Radiance.mul]

/-- C19 (amended): the shadow cache is purely an optimization provided no
scene triangle meets a shadow ray at a parameter of
`[near - epsilon, far + epsilon]` that is not strictly between `near` and
`far`: then for every hit point, light and cache content (any set of scene
triangles) the occluded/unoccluded decision with the cache consulted first
equals the decision with an empty cache (any-hit query only), and the colour
`trace_ray` returns is the one it returns with the empty cache. -/
theorem C19_shadow_cache_optimization (sc : WhittedScene) (lights : List Light)
    (hsound : ∀ r h, sc.FindIntersectKd r = some h → ∀ l ∈ lights, ∀ tri ∈ sc.triangles, ∀ t,
      sc.TestIntersection tri (rayToLight sc h l) = some t →
      (rayToLight sc h l).near - sc.epsilon ≤ t → t ≤ (rayToLight sc h l).far + sc.epsilon →
      (rayToLight sc h l).near < t ∧ t < (rayToLight sc h l).far) :
    (∀ r h, sc.FindIntersectKd r = some h → ∀ l ∈ lights, ∀ (depth : Int) (buf : List Nat),
      (∀ tri ∈ buf, tri ∈ sc.triangles) →
      (shadowTriangle sc h depth l buf).1.isSome
        = (if depth > 0 then (FindIntersectKdAny sc (rayToLight sc h l)).isSome else false)) ∧
    (∀ (r : ClipRay) (shadow_cache : List (List Nat)) (depth : Int) (raycount : Nat),
      (∀ buf ∈ shadow_cache, ∀ tri ∈ buf, tri ∈ sc.triangles) →
      (trace_ray sc lights r shadow_cache depth raycount).1
        = (trace_ray sc lights r (List.replicate lights.length []) depth raycount).1) := by
  constructor
  · intro r h hhit l hl depth buf hbuf
    rw [shadowTriangle_decision sc h depth l buf (hsound r h hhit l hl) hbuf]
    unfold shadowTriangle
    by_cases hd : depth > 0
    · rw [if_pos hd, if_pos hd, shadowSearch_nil]
    · rw [if_neg hd, if_neg hd]
      rfl
  · intro r shadow_cache depth raycount hc
    exact trace_ray_cache_indep sc lights hsound depth.toNat depth le_rfl r shadow_cache _
      raycount raycount hc (replicate_buffers _ _)

/-- Witness for C19 (amended): in a scene whose triangle 7 meets every shadow
ray at `t = 1/2`, strictly between `near = 0` and `far = 1`, the colour traced
with the cache `[7]` is the colour traced with the empty cache. -/
theorem C19_shadow_cache_optimization_witness :
    (trace_ray (surfaceScene [7] (1 / 2) whiteHit) [whiteLight] (fixedCamera 0 0 0 0)
        [[7]] 1 0).1
      = (trace_ray (surfaceScene [7] (1 / 2) whiteHit) [whiteLight] (fixedCamera 0 0 0 0)
        (List.replicate [whiteLight].length []) 1 0).1 :=
  (C19_shadow_cache_optimization (surfaceScene [7] (1 / 2) whiteHit) [whiteLight]
    (by
      intro r h _ l _ tri _ t ht _ _
      simp only [surfaceScene, Option.some.injEq] at ht
      subst ht
      norm_num [rayToLight, surfaceScene])).2
    (fixedCamera 0 0 0 0) [[7]] 1 0 (by simp [surfaceScene])

end RGK

/-! ## Reciprocity of the Phong BRDF -/

namespace RGK

theorem cosAngle_mirror_symm (N Vi Vr : Vec3) :
    cosAngle Vr (mirror Vi N) = cosAngle Vi (mirror Vr N) := by
  have h : dot Vr (mirror Vi N) = dot Vi (mirror Vr N) := by
    simp only [dot, mirror, Vec3.sub, Vec3.smul]
    ring
  unfold cosAngle
  rw [h]

/-- C30: `BRDF::Phong` is reciprocal: for every normal `N`, directions `Vi`,
`Vr`, colours `Kd`, `Ks` and exponent,
`Phong(N, Kd, Ks, Vi, Vr, exponent) = Phong(N, Kd, Ks, Vr, Vi, exponent)`. -/
theorem C30_Phong_reciprocal (pow : ℚ → ℚ → ℚ) (N : Vec3) (Kd Ks : Radiance) (Vi Vr : Vec3)
    (exponent : ℚ) :
    BRDF.Phong pow N Kd Ks Vi Vr exponent = BRDF.Phong pow N Kd Ks Vr Vi exponent := by
  unfold BRDF.Phong
  simp only
  rw [cosAngle_mirror_symm N Vi Vr]

end RGK

/-! ## Path generation: free bounces -/

namespace RGK

theorem generateStep_continue {σ : Type} (env : PathEnv σ) (depth__ : Nat) (russian__ : ℚ)
    (s : GenState σ) (hcont : (generateStep env depth__ russian__ s).1 = true) :
    s.n2 + 1 < 20 ∧
    (terminationTest env depth__ russian__ (s.n + 1) s.skip_russian s.sampler).1 = false ∧
    ∃ thinglass h,
      env.intersect s.current_ray s.last_triangle = Intersected.hit thinglass h := by
  unfold generateStep at hcont
  simp only at hcont
  by_cases h20 : s.n2 + 1 ≥ 20
  · rw [if_pos h20] at hcont
    simp at hcont
  · rw [if_neg h20] at hcont
    by_cases ht : (terminationTest env depth__ russian__ (s.n + 1) s.skip_russian s.sampler).1
        = true
    · rw [if_pos ht] at hcont
      simp at hcont
    · rw [if_neg ht] at hcont
      refine ⟨not_le.mp h20, by simpa using ht, ?_⟩
      cases hi : env.intersect s.current_ray s.last_triangle with
      | sky thinglass => simp [hi] at hcont
      | degenerate => simp [hi] at hcont
      | hit thinglass h => exact ⟨thinglass, h, rfl⟩

theorem generateStep_hit_state {σ : Type} (env : PathEnv σ) (depth__ : Nat) (russian__ : ℚ)
    (s : GenState σ) (thinglass : ThinglassIsections) (h : SurfaceHit)
    (hn2 : s.n2 + 1 < 20)
    (hterm : (terminationTest env depth__ russian__ (s.n + 1) s.skip_russian s.sampler).1 = false)
    (hhit : env.intersect s.current_ray s.last_triangle = Intersected.hit thinglass h) :
    (generateStep env depth__ russian__ s).2.n
      = hitN env s.current_ray h (s.n + 1)
          (terminationTest env depth__ russian__ (s.n + 1) s.skip_russian s.sampler).2.2 ∧
    (generateStep env depth__ russian__ s).2.n2 = s.n2 + 1 ∧
    (generateStep env depth__ russian__ s).2.skip_russian
      = hitSkipRussian env s.current_ray h
          (terminationTest env depth__ russian__ (s.n + 1) s.skip_russian s.sampler).2.1
          (terminationTest env depth__ russian__ (s.n + 1) s.skip_russian s.sampler).2.2 := by
  unfold generateStep
  simp only
  rw [if_neg (not_le.mpr hn2), hterm, hhit]
  simp

theorem nextDirection_isFree {σ : Type} (env : PathEnv σ) (mat : Material) (ty : PointType)
    (Vr lightN faceN : Vec3) (diffuse specular : Radiance) (sampler : σ) :
    (nextDirection env mat ty Vr lightN faceN diffuse specular sampler).type.isFree
      = ty.isFree := by
  cases ty
  · rfl
  · unfold nextDirection
    simp only
    split_ifs <;> rfl
  · unfold nextDirection
    simp only
    split <;> rfl
  · unfold nextDirection
    simp only
    split <;> rfl

theorem hitPoint_isFree {σ : Type} (env : PathEnv σ) (russian__ : ℚ) (ray : Ray)
    (skip_russian : Bool) (thinglass : ThinglassIsections) (h : SurfaceHit) (sampler : σ) :
    (hitPoint env russian__ ray skip_russian thinglass h sampler).type.isFree
      = (hitFirstType env ray h sampler).isFree ∧
    (hitPoint env russian__ ray skip_russian thinglass h sampler).infinity = false := by
  refine ⟨?_, rfl⟩
  simp only [hitPoint, hitBounce]
  exact nextDirection_isFree _ _ _ _ _ _ _ _ _

theorem isFree_iff_ne_scattered (ty : PointType) :
    ty.isFree = true ↔ ty ≠ PointType.SCATTERED := by
  cases ty <;> simp [PointType.isFree]

theorem terminationTest_fixed {σ : Type} (env : PathEnv σ) (depth__ : Nat) (russian__ : ℚ)
    (hr : russian__ < 0) (n : Nat) (skip_russian : Bool) (sampler : σ) :
    terminationTest env depth__ russian__ n skip_russian sampler
      = (decide (n > depth__), skip_russian, sampler) := by
  unfold terminationTest
  rw [if_neg (not_le.mpr hr)]
  by_cases hn : n > depth__
  · rw [if_pos hn]
    simp [hn]
  · rw [if_neg hn]
    simp [hn]

theorem terminationTest_roulette {σ : Type} (env : PathEnv σ) (depth__ : Nat) (russian__ : ℚ)
    (hr : 0 ≤ russian__) (n : Nat) (skip_russian : Bool) (sampler : σ) :
    terminationTest env depth__ russian__ n skip_russian sampler
      = if n > 1 ∧ skip_russian = false then
          (decide ((env.Get1D sampler).1 > russian__),
            (if (env.Get1D sampler).1 > russian__ then skip_russian else false),
            (env.Get1D sampler).2)
        else (false, false, sampler) := by
  unfold terminationTest
  rw [if_pos hr]
  by_cases hn : n > 1 ∧ skip_russian = false
  · rw [if_pos hn, if_pos hn]
    simp only
    by_cases hg : (env.Get1D sampler).1 > russian__
    · rw [if_pos hg, if_pos hg]
      simp [hg]
    · rw [if_neg hg, if_neg hg]
      simp [hg]
  · rw [if_neg hn, if_neg hn]

/-- C22: `REFLECTED`, `ENTERED` and `LEFT` points are free bounces. Whenever an
iteration of the loop of `GeneratePath` has committed a point `p` of one of
these types, the termination test at the head of the next iteration does not
end the path, in fixed-depth mode and in roulette mode alike, and leaves the
sampler untouched (no roulette sample is drawn); so the next iteration ends
the path only at the hard limit, on a sky ray or on a degenerate normal. -/
theorem C22_free_bounce_not_ended {σ : Type} (env : PathEnv σ) (depth__ : Nat)
    (russian__ : ℚ) (s : GenState σ)
    (hcont : (generateStep env depth__ russian__ s).1 = true) :
    ∃ p, (generateStep env depth__ russian__ s).2.path = s.path ++ [p] ∧
      (p.type = PointType.REFLECTED ∨ p.type = PointType.ENTERED ∨ p.type = PointType.LEFT →
        (terminationTest env depth__ russian__ ((generateStep env depth__ russian__ s).2.n + 1)
            (generateStep env depth__ russian__ s).2.skip_russian
            (generateStep env depth__ russian__ s).2.sampler).1 = false ∧
        (terminationTest env depth__ russian__ ((generateStep env depth__ russian__ s).2.n + 1)
            (generateStep env depth__ russian__ s).2.skip_russian
            (generateStep env depth__ russian__ s).2.sampler).2.2
          = (generateStep env depth__ russian__ s).2.sampler ∧
        ((generateStep env depth__ russian__ (generateStep env depth__ russian__ s).2).1 = false →
          20 ≤ (generateStep env depth__ russian__ s).2.n2 + 1 ∨
          (∃ thinglass, env.intersect (generateStep env depth__ russian__ s).2.current_ray
              (generateStep env depth__ russian__ s).2.last_triangle
            = Intersected.sky thinglass) ∨
          env.intersect (generateStep env depth__ russian__ s).2.current_ray
              (generateStep env depth__ russian__ s).2.last_triangle
            = Intersected.degenerate)) := by
  obtain ⟨hn2, hterm, thinglass, h, hhit⟩ := generateStep_continue env depth__ russian__ s hcont
  obtain ⟨hn, _, hskip⟩ := generateStep_hit_state env depth__ russian__ s thinglass h hn2 hterm hhit
  refine ⟨_, (generateStep_hit env depth__ russian__ s thinglass h hn2 hterm hhit).2, ?_⟩
  intro hty
  have hfree : (hitFirstType env s.current_ray h
      (terminationTest env depth__ russian__ (s.n + 1) s.skip_russian s.sampler).2.2).isFree
      = true := by
    rw [← (hitPoint_isFree env russian__ s.current_ray _ thinglass h _).1]
    rcases hty with h1 | h1 | h1 <;> rw [h1] <;> rfl
  have hn' : (generateStep env depth__ russian__ s).2.n = s.n := by
    rw [hn, hitN, if_pos hfree]
    omega
  have hskip' : (generateStep env depth__ russian__ s).2.skip_russian = true := by
    rw [hskip, hitSkipRussian, if_pos hfree]
  have htest : terminationTest env depth__ russian__
      ((generateStep env depth__ russian__ s).2.n + 1)
      (generateStep env depth__ russian__ s).2.skip_russian
      (generateStep env depth__ russian__ s).2.sampler
      = (false, (terminationTest env depth__ russian__
          ((generateStep env depth__ russian__ s).2.n + 1)
          (generateStep env depth__ russian__ s).2.skip_russian
          (generateStep env depth__ russian__ s).2.sampler).2.1,
          (generateStep env depth__ russian__ s).2.sampler) := by
    rw [hn', hskip']
    by_cases hr : 0 ≤ russian__
    · rw [terminationTest_roulette env depth__ russian__ hr]
      simp
    · have hr' : russian__ < 0 := not_le.mp hr
      rw [terminationTest_fixed env depth__ russian__ hr'] at hterm ⊢
      simp only [decide_eq_false_iff_not] at hterm
      simp [hterm]
  have h1 : (terminationTest env depth__ russian__
      ((generateStep env depth__ russian__ s).2.n + 1)
      (generateStep env depth__ russian__ s).2.skip_russian
      (generateStep env depth__ russian__ s).2.sampler).1 = false := by
    rw [htest]
  refine ⟨h1, by rw [htest], ?_⟩
  intro hstop
  by_contra hne
  push_neg at hne
  obtain ⟨h20, hsky, hdeg⟩ := hne
  cases hi : env.intersect (generateStep env depth__ russian__ s).2.current_ray
      (generateStep env depth__ russian__ s).2.last_triangle with
  | sky tg => exact hsky tg hi
  | degenerate => exact hdeg hi
  | hit tg h2 =>
    have := (generateStep_hit env depth__ russian__ _ tg h2 (by omega) h1 hi).1
    rw [hstop] at this
    exact Bool.false_ne_true this

theorem glass_step_continues (russian__ : ℚ) :
    (generateStep glassEnv 5 russian__ glassStart).1 = true := by
  refine (generateStep_hit glassEnv 5 russian__ glassStart [] glassHit (by decide) ?_ rfl).1
  by_cases hr : 0 ≤ russian__
  · rw [terminationTest_roulette glassEnv 5 russian__ hr]
    simp [glassStart]
  · rw [terminationTest_fixed glassEnv 5 russian__ (not_le.mp hr)]
    simp [glassStart]

theorem glass_first_type_any (sampler : Unit) :
    hitFirstType glassEnv glassStart.current_ray glassHit sampler = PointType.LEFT := by
  norm_num [hitFirstType, classify, glassEnv, glassStart, glassHit, glassMaterial,
    hitFromInside, hitVr, dot, Vec3.neg]

theorem free_cases (ty : PointType) (h : ty.isFree = true) :
    ty = PointType.REFLECTED ∨ ty = PointType.ENTERED ∨ ty = PointType.LEFT := by
  cases ty
  · simp [PointType.isFree] at h
  · exact Or.inl rfl
  · exact Or.inr (Or.inl rfl)
  · exact Or.inr (Or.inr rfl)

/-- Witness for C22: a ray inside glass is reflected at the face (a free
bounce) in fixed-depth mode with depth 5; the next termination test passes. -/
theorem C22_free_bounce_not_ended_witness :
    (generateStep glassEnv 5 (-1) glassStart).1 = true ∧
    (terminationTest glassEnv 5 (-1) ((generateStep glassEnv 5 (-1) glassStart).2.n + 1)
      (generateStep glassEnv 5 (-1) glassStart).2.skip_russian
      (generateStep glassEnv 5 (-1) glassStart).2.sampler).1 = false := by
  refine ⟨glass_step_continues (-1), ?_⟩
  obtain ⟨p, hp, hfree⟩ :=
    C22_free_bounce_not_ended glassEnv 5 (-1) glassStart (glass_step_continues (-1))
  have hp2 := (generateStep_hit glassEnv 5 (-1) glassStart [] glassHit (by decide)
    (by norm_num [terminationTest, glassStart]) rfl).2
  rw [hp] at hp2
  have hpe := List.append_cancel_left hp2
  simp only [List.cons.injEq, and_true] at hpe
  refine (hfree (free_cases _ ?_)).1
  rw [hpe, (hitPoint_isFree _ _ _ _ _ _ _).1, glass_first_type_any]
  rfl

end RGK

/-! ## Path generation: transfer coefficients of scattered points -/

namespace RGK

theorem nextDirection_scattered {σ : Type} (env : PathEnv σ) (mat : Material) (ty : PointType)
    (Vr lightN faceN : Vec3) (diffuse specular : Radiance) (sampler : σ)
    (h : (nextDirection env mat ty Vr lightN faceN diffuse specular sampler).type
      = PointType.SCATTERED) :
    ty = PointType.SCATTERED := by
  have h1 := nextDirection_isFree env mat ty Vr lightN faceN diffuse specular sampler
  rw [h] at h1
  cases ty
  · rfl
  · simp [PointType.isFree] at h1
  · simp [PointType.isFree] at h1
  · simp [PointType.isFree] at h1

theorem scatteredTransfer_cases (mat : Material) (tc diffuse specular : Radiance)
    (lightN Vi Vr : Vec3) :
    scatteredTransfer mat BRDFSamplingType.SAMPLING_COSINE tc diffuse specular lightN Vi Vr
      = (tc.scale PI).mul (mat.Apply diffuse specular lightN Vi Vr) ∧
    scatteredTransfer mat BRDFSamplingType.SAMPLING_BRDF tc diffuse specular lightN Vi Vr
      = tc ∧
    scatteredTransfer mat BRDFSamplingType.SAMPLING_UNIFORM tc diffuse specular lightN Vi Vr
      = ((tc.scale (dot lightN Vi)).mul (mat.Apply diffuse specular lightN Vi Vr)).scale
          (PI / (1 / 2)) := by
  refine ⟨?_, ?_, ?_⟩ <;> simp [scatteredTransfer]

/-- C24: for every `SCATTERED` point `p` committed by an iteration of the loop
of `GeneratePath`, with `(Vi, c, sampling_type)` the result of the BRDF
sampler `GetRay(lightN, Vr, diffuse, specular, sample)`,
`f = brdf.Apply(diffuse, specular, lightN, Vi, Vr)` and `cos = dot(lightN, Vi)`,
the stored `transfer_coefficients` are `c*pi*f` when the sampling type is
`COSINE`, `c` when it is `BRDF`, and `c*cos*f*(pi/0.5)` when it is
`UNIFORM`. -/
theorem C24_scattered_transfer_coefficients {σ : Type} (env : PathEnv σ) (depth__ : Nat)
    (russian__ : ℚ) (s : GenState σ)
    (hcont : (generateStep env depth__ russian__ s).1 = true) :
    ∃ p mat sample,
      (generateStep env depth__ russian__ s).2.path = s.path ++ [p] ∧ p.mat = some mat ∧
      sample = (env.Get2D (env.Get1D
        (terminationTest env depth__ russian__ (s.n + 1) s.skip_russian s.sampler).2.2).2).1 ∧
      (p.type = PointType.SCATTERED →
        p.Vi = (mat.GetRay p.lightN p.Vr p.diffuse p.specular sample).1 ∧
        ((mat.GetRay p.lightN p.Vr p.diffuse p.specular sample).2.2
            = BRDFSamplingType.SAMPLING_COSINE →
          p.transfer_coefficients
            = ((mat.GetRay p.lightN p.Vr p.diffuse p.specular sample).2.1.scale PI).mul
                (mat.Apply p.diffuse p.specular p.lightN p.Vi p.Vr)) ∧
        ((mat.GetRay p.lightN p.Vr p.diffuse p.specular sample).2.2
            = BRDFSamplingType.SAMPLING_BRDF →
          p.transfer_coefficients
            = (mat.GetRay p.lightN p.Vr p.diffuse p.specular sample).2.1) ∧
        ((mat.GetRay p.lightN p.Vr p.diffuse p.specular sample).2.2
            = BRDFSamplingType.SAMPLING_UNIFORM →
          p.transfer_coefficients
            = (((mat.GetRay p.lightN p.Vr p.diffuse p.specular sample).2.1.scale
                  (dot p.lightN p.Vi)).mul
                (mat.Apply p.diffuse p.specular p.lightN p.Vi p.Vr)).scale (PI / (1 / 2)))) := by
  obtain ⟨hn2, hterm, thinglass, h, hhit⟩ := generateStep_continue env depth__ russian__ s hcont
  refine ⟨_, h.mat, _, (generateStep_hit env depth__ russian__ s thinglass h hn2 hterm hhit).2,
    rfl, rfl, ?_⟩
  intro hty
  have hty2 : (hitBounce env s.current_ray h
      (terminationTest env depth__ russian__ (s.n + 1) s.skip_russian s.sampler).2.2).type
      = PointType.SCATTERED := hty
  have hfirst := nextDirection_scattered _ _ _ _ _ _ _ _ _ hty2
  have hb : hitBounce env s.current_ray h
      (terminationTest env depth__ russian__ (s.n + 1) s.skip_russian s.sampler).2.2
      = scatterCase env h.mat PointType.SCATTERED (hitVr s.current_ray)
          (hitLightN s.current_ray h) (hitFaceN s.current_ray h) h.diffuse h.specular
          (env.Get1D
            (terminationTest env depth__ russian__ (s.n + 1) s.skip_russian s.sampler).2.2).2 := by
    unfold hitBounce
    rw [hfirst]
    rfl
  obtain ⟨hc, hbr, hu⟩ := scatteredTransfer_cases h.mat
    (scatterCase env h.mat PointType.SCATTERED (hitVr s.current_ray)
      (hitLightN s.current_ray h) (hitFaceN s.current_ray h) h.diffuse h.specular
      (env.Get1D (terminationTest env depth__ russian__ (s.n + 1) s.skip_russian
        s.sampler).2.2).2).transfer_coefficients
    h.diffuse h.specular
    (scatterCase env h.mat PointType.SCATTERED (hitVr s.current_ray)
      (hitLightN s.current_ray h) (hitFaceN s.current_ray h) h.diffuse h.specular
      (env.Get1D (terminationTest env depth__ russian__ (s.n + 1) s.skip_russian
        s.sampler).2.2).2).lightN
    (scatterCase env h.mat PointType.SCATTERED (hitVr s.current_ray)
      (hitLightN s.current_ray h) (hitFaceN s.current_ray h) h.diffuse h.specular
      (env.Get1D (terminationTest env depth__ russian__ (s.n + 1) s.skip_russian
        s.sampler).2.2).2).dir
    (hitVr s.current_ray)
  simp only [hitPoint, hb]
  simp only [scatterCase, if_true] at hc hbr hu ⊢
  refine ⟨trivial, ?_, ?_, ?_⟩
  · intro hst
    rw [hst]
    exact hc
  · intro hst
    rw [hst]
    exact hbr
  · intro hst
    rw [hst]
    exact hu

end RGK

/-! ## Path generation: direction of reflected points -/

namespace RGK

theorem sqrtQ_576_625 : sqrtQ (576 / 625) = 24 / 25 := by
  have h := sqrtQ_mul_self (24 / 25) (by norm_num)
  norm_num at h
  exact h

theorem sqrtQ_16_25 : sqrtQ (16 / 25) = 4 / 5 := by
  have h := sqrtQ_mul_self (4 / 5) (by norm_num)
  norm_num at h
  exact h

theorem bump_fresnel :
    Fresnel sqrtQ ⟨-(3 / 5), 0, 4 / 5⟩ ⟨3 / 5, 0, 4 / 5⟩ (5 / 8) = 373 / 1521 := by
  have habs : |(7 / 25 : ℚ)| = 7 / 25 := abs_of_pos (by norm_num)
  norm_num [Fresnel, fresnelSint, fresnelEtai, fresnelEtat, fresnelR, fresnelRs, fresnelRp,
    dot, sqrtQ_576_625, sqrtQ_16_25, habs]

theorem bump_first_type (sampler : Unit) :
    hitFirstType bumpEnv bumpRay bumpHit sampler = PointType.REFLECTED := by
  have hf : Fresnel sqrtQ (Vec3.neg ⟨3 / 5, 0, -4 / 5⟩) ⟨3 / 5, 0, 4 / 5⟩ (1 / (8 / 5))
      = 373 / 1521 := by
    have e : Vec3.neg ⟨3 / 5, 0, -4 / 5⟩ = ⟨-(3 / 5), 0, 4 / 5⟩ := by
      norm_num [Vec3.neg]
    rw [e]
    norm_num
    exact bump_fresnel
  simp only [hitFirstType, classify, bumpEnv, bumpRay, bumpHit, bumpMaterial, hitFromInside,
    hitVr, hitLightN, hf]
  norm_num [dot, Vec3.neg]

theorem nextDirection_reflected {σ : Type} (env : PathEnv σ) (mat : Material)
    (Vr lightN faceN : Vec3) (diffuse specular : Radiance) (sampler : σ) :
    (0 < dot (mirror Vr lightN) faceN →
      nextDirection env mat PointType.REFLECTED Vr lightN faceN diffuse specular sampler
        = { type := PointType.REFLECTED, lightN := lightN, dir := mirror Vr lightN,
            transfer_coefficients := ⟨1, 1, 1⟩,
            sampling_type := BRDFSamplingType.SAMPLING_COSINE, sampler := sampler }) ∧
    (¬ 0 < dot (mirror Vr lightN) faceN →
      nextDirection env mat PointType.REFLECTED Vr lightN faceN diffuse specular sampler
        = scatterCase env mat PointType.REFLECTED Vr lightN faceN diffuse specular sampler) := by
  constructor
  · intro h
    simp only [nextDirection]
    rw [if_pos h]
  · intro h
    simp only [nextDirection]
    rw [if_neg h]

theorem nextDirection_reclassified {σ : Type} (env : PathEnv σ) (mat : Material)
    (ty : PointType) (Vr lightN faceN : Vec3) (diffuse specular : Radiance) (sampler : σ)
    (hty : ty ≠ PointType.REFLECTED)
    (h : (nextDirection env mat ty Vr lightN faceN diffuse specular sampler).type
      = PointType.REFLECTED) :
    (nextDirection env mat ty Vr lightN faceN diffuse specular sampler).dir = mirror Vr lightN ∧
    (nextDirection env mat ty Vr lightN faceN diffuse specular sampler).lightN = lightN := by
  cases ty
  · simp [nextDirection, scatterCase] at h
  · exact absurd rfl hty
  · unfold nextDirection at h ⊢
    simp only at h ⊢
    split
    · exact ⟨rfl, rfl⟩
    · rename_i d hd
      rw [hd] at h
      simp at h
  · unfold nextDirection at h ⊢
    simp only at h ⊢
    split
    · exact ⟨rfl, rfl⟩
    · rename_i d hd
      rw [hd] at h
      simp at h

theorem bump_bounce (sampler : Unit) :
    hitBounce bumpEnv bumpRay bumpHit sampler
      = scatterCase bumpEnv bumpMaterial PointType.REFLECTED (hitVr bumpRay)
          (hitLightN bumpRay bumpHit) (hitFaceN bumpRay bumpHit) bumpHit.diffuse
          bumpHit.specular (bumpEnv.Get1D sampler).2 := by
  unfold hitBounce
  rw [bump_first_type]
  refine (nextDirection_reflected bumpEnv bumpMaterial _ _ _ _ _ _).2 ?_
  norm_num [hitVr, hitLightN, hitFaceN, hitFromInside, bumpRay, bumpHit, mirror, dot,
    Vec3.neg, Vec3.sub, Vec3.smul]

theorem bump_point (russian__ : ℚ) (skip_russian : Bool) (sampler : Unit) :
    (hitPoint bumpEnv russian__ bumpRay skip_russian [] bumpHit sampler).type
      = PointType.REFLECTED ∧
    (hitPoint bumpEnv russian__ bumpRay skip_russian [] bumpHit sampler).Vi
      = ⟨3 / 5, 0, 4 / 5⟩ ∧
    (hitPoint bumpEnv russian__ bumpRay skip_russian [] bumpHit sampler).Vr
      = ⟨-(3 / 5), 0, 4 / 5⟩ ∧
    (hitPoint bumpEnv russian__ bumpRay skip_russian [] bumpHit sampler).lightN
      = ⟨3 / 5, 0, 4 / 5⟩ := by
  simp only [hitPoint, bump_bounce]
  norm_num [scatterCase, hitVr, hitLightN, hitFaceN, hitFromInside, bumpRay, bumpHit,
    bumpMaterial, dot, Vec3.neg]

/-- C23 as stated fails: a ray that meets a bump-mapped face (face normal
`(0, 0, 1)`, shading normal `(3/5, 0, 4/5)`) with `Vr = (-3/5, 0, 4/5)` is
classified `REFLECTED`; its mirror direction `(117/125, 0, -44/125)` points
into the face, so the switch falls through to the scatter case: the committed
point keeps the type `REFLECTED` and continues in the direction returned by
the BRDF sampler, here `(3/5, 0, 4/5)`. -/
theorem C23_fallthrough_counterexample :
    ∃ p, (generateStep bumpEnv 5 (-1) (startState bumpRay)).2.path = [p] ∧
      p.type = PointType.REFLECTED ∧ p.Vi = ⟨3 / 5, 0, 4 / 5⟩ ∧
      mirror p.Vr p.lightN = ⟨117 / 125, 0, -44 / 125⟩ ∧ p.Vi ≠ mirror p.Vr p.lightN := by
  have hp := (generateStep_hit bumpEnv 5 (-1) (startState bumpRay) [] bumpHit (by decide)
    (by norm_num [terminationTest, startState]) rfl).2
  have hc : (startState bumpRay).current_ray = bumpRay := rfl
  have hnil : (startState bumpRay).path = [] := rfl
  rw [hc, hnil, List.nil_append] at hp
  obtain ⟨h1, h2, h3, h4⟩ := bump_point (-1)
    (terminationTest bumpEnv 5 (-1) ((startState bumpRay).n + 1)
      (startState bumpRay).skip_russian (startState bumpRay).sampler).2.1
    (terminationTest bumpEnv 5 (-1) ((startState bumpRay).n + 1)
      (startState bumpRay).skip_russian (startState bumpRay).sampler).2.2
  have hm : mirror (⟨-(3 / 5), 0, 4 / 5⟩ : Vec3) ⟨3 / 5, 0, 4 / 5⟩
      = ⟨117 / 125, 0, -44 / 125⟩ := by
    norm_num [mirror, dot, Vec3.sub, Vec3.smul]
  refine ⟨_, hp, h1, h2, ?_, ?_⟩
  · rw [h3, h4]
    exact hm
  · rw [h2, h3, h4, hm]
    intro hne
    have hx := congrArg Vec3.x hne
    norm_num at hx

/-- C23 (amended): for every point `p` committed by an iteration of the loop
of `GeneratePath` with `p.type = REFLECTED`: when `p` was reclassified on
total internal reflection, or was classified `REFLECTED` with a mirror
direction that leaves the face
(`dot(2*dot(Vr, lightN)*lightN - Vr, faceN) > 0`), then
`p.Vi = 2*dot(p.Vr, p.lightN)*p.lightN - p.Vr`; when `p` was classified
`REFLECTED` and the mirror direction does not leave the face, `p.Vi` is the
direction returned by the BRDF sampler `GetRay`, as for a `SCATTERED` point.
The normal `lightN` of the test is the one before the switch. -/
theorem C23_reflected_direction {σ : Type} (env : PathEnv σ) (depth__ : Nat)
    (russian__ : ℚ) (s : GenState σ)
    (hcont : (generateStep env depth__ russian__ s).1 = true) :
    ∃ p thinglass h sample,
      env.intersect s.current_ray s.last_triangle = Intersected.hit thinglass h ∧
      (generateStep env depth__ russian__ s).2.path = s.path ++ [p] ∧
      sample = (env.Get2D (env.Get1D
        (terminationTest env depth__ russian__ (s.n + 1) s.skip_russian s.sampler).2.2).2).1 ∧
      (p.type = PointType.REFLECTED →
        ((hitFirstType env s.current_ray h
              (terminationTest env depth__ russian__ (s.n + 1) s.skip_russian s.sampler).2.2
            = PointType.REFLECTED →
            0 < dot (mirror (hitVr s.current_ray) (hitLightN s.current_ray h))
              (hitFaceN s.current_ray h)) →
          p.Vi = mirror p.Vr p.lightN) ∧
        (hitFirstType env s.current_ray h
              (terminationTest env depth__ russian__ (s.n + 1) s.skip_russian s.sampler).2.2
            = PointType.REFLECTED →
          ¬ 0 < dot (mirror (hitVr s.current_ray) (hitLightN s.current_ray h))
              (hitFaceN s.current_ray h) →
          p.Vi = (h.mat.GetRay p.lightN p.Vr p.diffuse p.specular sample).1)) := by
  obtain ⟨hn2, hterm, thinglass, h, hhit⟩ := generateStep_continue env depth__ russian__ s hcont
  refine ⟨_, thinglass, h, _, hhit,
    (generateStep_hit env depth__ russian__ s thinglass h hn2 hterm hhit).2, rfl, ?_⟩
  intro hty
  have hty2 : (hitBounce env s.current_ray h
      (terminationTest env depth__ russian__ (s.n + 1) s.skip_russian s.sampler).2.2).type
      = PointType.REFLECTED := hty
  constructor
  · intro hcase
    by_cases hfirst : hitFirstType env s.current_ray h
        (terminationTest env depth__ russian__ (s.n + 1) s.skip_russian s.sampler).2.2
        = PointType.REFLECTED
    · have hb := (nextDirection_reflected env h.mat (hitVr s.current_ray)
        (hitLightN s.current_ray h) (hitFaceN s.current_ray h) h.diffuse h.specular
        (env.Get1D (terminationTest env depth__ russian__ (s.n + 1) s.skip_russian
          s.sampler).2.2).2).1 (hcase hfirst)
      simp only [hitPoint, hitBounce, hfirst, hb]
    · unfold hitBounce at hty2
      obtain ⟨hd, hl⟩ := nextDirection_reclassified _ _ _ _ _ _ _ _ _ hfirst hty2
      simp only [hitPoint, hitBounce, hd, hl]
  · intro hfirst hdot
    have hb := (nextDirection_reflected env h.mat (hitVr s.current_ray)
      (hitLightN s.current_ray h) (hitFaceN s.current_ray h) h.diffuse h.specular
      (env.Get1D (terminationTest env depth__ russian__ (s.n + 1) s.skip_russian
        s.sampler).2.2).2).2 hdot
    simp only [hitPoint, hitBounce, hfirst, hb, scatterCase]

/-- Witness for C23 (amended): a ray inside glass is reclassified `REFLECTED`
on total internal reflection and continues in the mirror direction. -/
theorem C23_reflected_direction_witness :
    (generateStep glassEnv 5 (-1) glassStart).1 = true ∧
    ∃ p, (generateStep glassEnv 5 (-1) glassStart).2.path = glassStart.path ++ [p] ∧
      (p.type = PointType.REFLECTED → p.Vi = mirror p.Vr p.lightN) := by
  refine ⟨glass_step_continues (-1), ?_⟩
  obtain ⟨p, thinglass, h, sample, hhit, hp, _, hrefl⟩ :=
    C23_reflected_direction glassEnv 5 (-1) glassStart (glass_step_continues (-1))
  refine ⟨p, hp, fun hty => (hrefl hty).1 ?_⟩
  intro hfirst
  have hh : h = glassHit := by
    have e : glassEnv.intersect glassStart.current_ray glassStart.last_triangle
        = Intersected.hit [] glassHit := rfl
    rw [e] at hhit
    injection hhit with _ h2
    exact h2.symm
  rw [hh, glass_first_type_any] at hfirst
  exact absurd hfirst (by decide)

end RGK

/-! ## Path generation: Russian roulette -/

namespace RGK

theorem hitPoint_russian_coefficient {σ : Type} (env : PathEnv σ) (russian__ : ℚ) (ray : Ray)
    (skip_russian : Bool) (thinglass : ThinglassIsections) (h : SurfaceHit) (sampler : σ) :
    (hitPoint env russian__ ray skip_russian thinglass h sampler).russian_coefficient
      = if russian__ > 0 ∧ hitSkipRussian env ray h skip_russian sampler = false
        then 1 / russian__ else 1 := rfl

theorem terminationTest_skip {σ : Type} (env : PathEnv σ) (depth__ : Nat) (russian__ : ℚ)
    (hr : 0 ≤ russian__) (n : Nat) (skip_russian : Bool) (sampler : σ)
    (h : (terminationTest env depth__ russian__ n skip_russian sampler).1 = false) :
    (terminationTest env depth__ russian__ n skip_russian sampler).2.1 = false := by
  rw [terminationTest_roulette env depth__ russian__ hr] at h ⊢
  by_cases hn : n > 1 ∧ skip_russian = false
  · rw [if_pos hn] at h ⊢
    simp only [decide_eq_false_iff_not] at h
    simp [h]
  · rw [if_neg hn]

/-- The members of a committed surface point that Russian roulette decides, in
roulette mode with `russian > 0`. -/
theorem roulette_step {σ : Type} (env : PathEnv σ) (depth__ : Nat) (russian__ : ℚ)
    (s : GenState σ) (hr : 0 < russian__)
    (hcont : (generateStep env depth__ russian__ s).1 = true) :
    ∃ p, (generateStep env depth__ russian__ s).2.path = s.path ++ [p] ∧
      p.infinity = false ∧
      p.russian_coefficient = (if p.type = PointType.SCATTERED then 1 / russian__ else 1) ∧
      (((generateStep env depth__ russian__ s).2.n + 1 > 1 ∧
          (generateStep env depth__ russian__ s).2.skip_russian = false)
        ↔ p.type = PointType.SCATTERED) := by
  obtain ⟨hn2, hterm, thinglass, h, hhit⟩ := generateStep_continue env depth__ russian__ s hcont
  obtain ⟨hn, _, hskip⟩ := generateStep_hit_state env depth__ russian__ s thinglass h hn2 hterm hhit
  have hsk := terminationTest_skip env depth__ russian__ (le_of_lt hr) _ _ _ hterm
  refine ⟨_, (generateStep_hit env depth__ russian__ s thinglass h hn2 hterm hhit).2, rfl, ?_, ?_⟩
  · rw [hitPoint_russian_coefficient, hsk]
    have hf := (hitPoint_isFree env russian__ s.current_ray false thinglass h
      (terminationTest env depth__ russian__ (s.n + 1) s.skip_russian s.sampler).2.2).1
    by_cases hty : (hitPoint env russian__ s.current_ray false thinglass h
        (terminationTest env depth__ russian__ (s.n + 1) s.skip_russian s.sampler).2.2).type
        = PointType.SCATTERED
    · rw [if_pos hty]
      rw [hty] at hf
      have hs : hitSkipRussian env s.current_ray h false
          (terminationTest env depth__ russian__ (s.n + 1) s.skip_russian s.sampler).2.2
          = false := by
        unfold hitSkipRussian
        rw [← hf]
        rfl
      rw [if_pos ⟨hr, hs⟩]
    · rw [if_neg hty]
      have hfr := (isFree_iff_ne_scattered _).mpr hty
      rw [hf] at hfr
      have hs : hitSkipRussian env s.current_ray h false
          (terminationTest env depth__ russian__ (s.n + 1) s.skip_russian s.sampler).2.2
          = true := by
        unfold hitSkipRussian
        rw [if_pos hfr]
      rw [if_neg]
      rw [hs]
      simp
  · rw [hn, hskip, hsk]
    have hf := (hitPoint_isFree env russian__ s.current_ray
      (terminationTest env depth__ russian__ (s.n + 1) s.skip_russian s.sampler).2.1
      thinglass h
      (terminationTest env depth__ russian__ (s.n + 1) s.skip_russian s.sampler).2.2).1
    rw [hsk] at hf
    by_cases hfr : (hitFirstType env s.current_ray h
        (terminationTest env depth__ russian__ (s.n + 1) s.skip_russian s.sampler).2.2).isFree
        = true
    · have hne := (isFree_iff_ne_scattered _).mp (hf.trans hfr)
      simp only [hitN, hitSkipRussian, if_pos hfr]
      constructor
      · intro hh
        exact absurd hh.2 (by simp)
      · intro hh
        exact absurd hh hne
    · have hsc : (hitPoint env russian__ s.current_ray false thinglass h
          (terminationTest env depth__ russian__ (s.n + 1) s.skip_russian s.sampler).2.2).type
          = PointType.SCATTERED := by
        by_contra hc
        exact hfr (((isFree_iff_ne_scattered _).mpr hc) ▸ hf.symm)
      simp only [hitN, hitSkipRussian, if_neg hfr]
      constructor
      · intro _
        exact hsc
      · intro _
        exact ⟨by omega, trivial⟩

theorem matte_step_continues (depth__ : Nat) (russian__ : ℚ) (hd : 1 ≤ depth__) :
    (generateStep matteEnv depth__ russian__ (startState downRay)).1 = true := by
  refine (generateStep_hit matteEnv depth__ russian__ (startState downRay) []
    (matteHit 0 ⟨0, 0, 0⟩ ⟨0, 0, 1⟩) (by decide) ?_ rfl).1
  by_cases hr : 0 ≤ russian__
  · rw [terminationTest_roulette matteEnv depth__ russian__ hr]
    simp [startState]
  · rw [terminationTest_fixed matteEnv depth__ russian__ (not_le.mp hr)]
    simp only [startState, decide_eq_false_iff_not]
    omega

/-- C27 as stated fails for `russian = 1`: a ray inside glass is reflected at
the face, a free bounce; the committed point carries the coefficient 1, which
is `1/russian`, although it is not `SCATTERED`. -/
theorem C27_unit_russian_counterexample :
    (0 : ℚ) < 1 ∧
    ∃ p, (generateStep glassEnv 5 1 glassStart).2.path = glassStart.path ++ [p] ∧
      p.russian_coefficient = 1 / 1 ∧ p.type ≠ PointType.SCATTERED := by
  refine ⟨by norm_num, ?_⟩
  obtain ⟨p, hp, _, hcoef, _⟩ :=
    roulette_step glassEnv 5 1 glassStart (by norm_num) (glass_step_continues 1)
  have hp2 := (generateStep_hit glassEnv 5 1 glassStart [] glassHit (by decide)
    (by norm_num [terminationTest, glassStart]) rfl).2
  rw [hp] at hp2
  have hpe := List.append_cancel_left hp2
  simp only [List.cons.injEq, and_true] at hpe
  have hne : p.type ≠ PointType.SCATTERED := by
    apply (isFree_iff_ne_scattered _).mp
    rw [hpe, (hitPoint_isFree _ _ _ _ _ _ _).1, glass_first_type_any]
    rfl
  refine ⟨p, hp, ?_, hne⟩
  rw [hcoef, if_neg hne]
  norm_num

/-- C27 (amended): Russian roulette is compensated exactly where it is
applied. In roulette mode with `russian > 0`, a surface point `p` committed by
an iteration of the loop of `GeneratePath` carries `russian_coefficient`
`1/russian` when it is `SCATTERED` and 1 when it is a free bounce; so, for
`russian` other than 1, it carries `1/russian` if and only if it is
`SCATTERED`. When the termination test of the next iteration lets the path go
on towards a next point, a roulette sample was drawn and survived
(`n > 1 && !skip_russian` held and `Get1D() > russian` did not) if and only if
`p` is `SCATTERED`, which for `russian` other than 1 is if and only if `p`
carries the coefficient `1/russian`. -/
theorem C27_roulette_compensation {σ : Type} (env : PathEnv σ) (depth__ : Nat)
    (russian__ : ℚ) (s : GenState σ) (hr : 0 < russian__)
    (hcont : (generateStep env depth__ russian__ s).1 = true) :
    ∃ p, (generateStep env depth__ russian__ s).2.path = s.path ++ [p] ∧
      p.russian_coefficient = (if p.type = PointType.SCATTERED then 1 / russian__ else 1) ∧
      (russian__ ≠ 1 → (p.russian_coefficient = 1 / russian__ ↔ p.type = PointType.SCATTERED)) ∧
      ((terminationTest env depth__ russian__ ((generateStep env depth__ russian__ s).2.n + 1)
          (generateStep env depth__ russian__ s).2.skip_russian
          (generateStep env depth__ russian__ s).2.sampler).1 = false →
        (((((generateStep env depth__ russian__ s).2.n + 1 > 1 ∧
              (generateStep env depth__ russian__ s).2.skip_russian = false) ∧
            ¬ (env.Get1D (generateStep env depth__ russian__ s).2.sampler).1 > russian__)
          ↔ p.type = PointType.SCATTERED) ∧
        (russian__ ≠ 1 →
          ((((generateStep env depth__ russian__ s).2.n + 1 > 1 ∧
              (generateStep env depth__ russian__ s).2.skip_russian = false) ∧
            ¬ (env.Get1D (generateStep env depth__ russian__ s).2.sampler).1 > russian__)
          ↔ p.russian_coefficient = 1 / russian__)))) := by
  obtain ⟨p, hp, _, hcoef, hdrawn⟩ := roulette_step env depth__ russian__ s hr hcont
  have hiff : russian__ ≠ 1 →
      (p.russian_coefficient = 1 / russian__ ↔ p.type = PointType.SCATTERED) := by
    intro hne
    rw [hcoef]
    by_cases hty : p.type = PointType.SCATTERED
    · simp [hty]
    · rw [if_neg hty]
      constructor
      · intro h1
        exfalso
        apply hne
        have h2 : russian__ * (1 / russian__) = 1 := by
          field_simp
        rw [← h1] at h2
        linarith
      · intro h1
        exact absurd h1 hty
  refine ⟨p, hp, hcoef, hiff, ?_⟩
  intro htest
  have hsurv : ((((generateStep env depth__ russian__ s).2.n + 1 > 1 ∧
        (generateStep env depth__ russian__ s).2.skip_russian = false) ∧
      ¬ (env.Get1D (generateStep env depth__ russian__ s).2.sampler).1 > russian__)
      ↔ p.type = PointType.SCATTERED) := by
    constructor
    · intro h1
      exact hdrawn.mp h1.1
    · intro h1
      have hd := hdrawn.mpr h1
      refine ⟨hd, ?_⟩
      rw [terminationTest_roulette env depth__ russian__ (le_of_lt hr), if_pos hd] at htest
      simpa using htest
  exact ⟨hsurv, fun hne => hsurv.trans (hiff hne).symm⟩

/-- Witness for C27 (amended): a ray onto the matte floor with
`russian = 1/2`; the committed point is `SCATTERED` and carries the
coefficient 2. -/
theorem C27_roulette_compensation_witness :
    (0 : ℚ) < 1 / 2 ∧ (generateStep matteEnv 5 (1 / 2) (startState downRay)).1 = true ∧
    ∃ p, (generateStep matteEnv 5 (1 / 2) (startState downRay)).2.path
        = (startState downRay).path ++ [p] ∧
      p.russian_coefficient = (if p.type = PointType.SCATTERED then 1 / (1 / 2) else 1) := by
  refine ⟨by norm_num, matte_step_continues 5 (1 / 2) (by decide), ?_⟩
  obtain ⟨p, hp, hcoef, _⟩ :=
    C27_roulette_compensation matteEnv 5 (1 / 2) (startState downRay) (by norm_num)
      (matte_step_continues 5 (1 / 2) (by decide))
  exact ⟨p, hp, hcoef⟩

end RGK

/-! ## Path generation: depth of the camera and light subpaths -/

namespace RGK

theorem generateStep_hit_last {σ : Type} (env : PathEnv σ) (depth__ : Nat) (russian__ : ℚ)
    (s : GenState σ) (thinglass : ThinglassIsections) (h : SurfaceHit)
    (hn2 : s.n2 + 1 < 20)
    (hterm : (terminationTest env depth__ russian__ (s.n + 1) s.skip_russian s.sampler).1 = false)
    (hhit : env.intersect s.current_ray s.last_triangle = Intersected.hit thinglass h) :
    (generateStep env depth__ russian__ s).2.last_triangle = some h.triangle := by
  unfold generateStep
  simp only
  rw [if_neg (not_le.mpr hn2), hterm, hhit]
  simp

theorem generateStep_sky {σ : Type} (env : PathEnv σ) (depth__ : Nat) (russian__ : ℚ)
    (s : GenState σ) (thinglass : ThinglassIsections)
    (hn2 : s.n2 + 1 < 20)
    (hterm : (terminationTest env depth__ russian__ (s.n + 1) s.skip_russian s.sampler).1 = false)
    (hsky : env.intersect s.current_ray s.last_triangle = Intersected.sky thinglass) :
    (generateStep env depth__ russian__ s).1 = false ∧
    (generateStep env depth__ russian__ s).2.path
      = s.path ++ [skyPoint s.current_ray thinglass] := by
  unfold generateStep
  simp only
  rw [if_neg (not_le.mpr hn2), hterm, hsky]
  simp

theorem generateLoop_succ {σ : Type} (env : PathEnv σ) (depth__ : Nat) (russian__ : ℚ)
    (fuel : Nat) (s : GenState σ) :
    generateLoop env depth__ russian__ (fuel + 1) s
      = if (generateStep env depth__ russian__ s).1
        then generateLoop env depth__ russian__ fuel (generateStep env depth__ russian__ s).2
        else some (generateStep env depth__ russian__ s).2 := rfl

theorem matte_first_type (ray : Ray) (triangle : Nat) (pos faceN : Vec3) (sampler : Unit) :
    hitFirstType matteEnv ray (matteHit triangle pos faceN) sampler = PointType.SCATTERED := by
  norm_num [hitFirstType, classify, matteEnv, matteHit, matteMaterial]

theorem matte_point_counted (russian__ : ℚ) (ray : Ray) (skip_russian : Bool)
    (triangle : Nat) (pos faceN : Vec3) (sampler : Unit) :
    (hitPoint matteEnv russian__ ray skip_russian [] (matteHit triangle pos faceN) sampler).type
      = PointType.SCATTERED ∧
    (hitPoint matteEnv russian__ ray skip_russian [] (matteHit triangle pos faceN)
      sampler).infinity = false := by
  refine ⟨?_, rfl⟩
  simp only [hitPoint, hitBounce, matte_first_type, nextDirection, scatterCase]

/-- C21 as stated fails in roulette mode: with `depth = 1` and `russian = 1`
a camera ray onto the matte floor is scattered at the floor and again at the
ceiling before it escapes; the path has two points that are neither sky
points nor free bounces. -/
theorem C21_roulette_counterexample :
    ∃ final, GeneratePath matteEnv 20 downRay 0 1 1 () = some final ∧
      final.path.length = 3 ∧ countedPoints final.path = 2 ∧ ¬ countedPoints final.path ≤ 1 := by
  have ht : ∀ (n : Nat) (sk : Bool), (terminationTest matteEnv 1 1 n sk ()).1 = false := by
    intro n sk
    rw [terminationTest_roulette matteEnv 1 1 (by norm_num)]
    by_cases hn : n > 1 ∧ sk = false
    · rw [if_pos hn]
      norm_num [matteEnv]
    · rw [if_neg hn]
  have hi0 : matteEnv.intersect (startState downRay).current_ray
      (startState downRay).last_triangle
      = Intersected.hit [] (matteHit 0 ⟨0, 0, 0⟩ ⟨0, 0, 1⟩) := rfl
  have hn0 : (startState downRay).n2 + 1 < 20 := by decide
  have e0 := generateStep_hit matteEnv 1 1 (startState downRay) [] _ hn0 (ht _ _) hi0
  have l0 := generateStep_hit_last matteEnv 1 1 (startState downRay) [] _ hn0 (ht _ _) hi0
  have n0 := (generateStep_hit_state matteEnv 1 1 (startState downRay) [] _ hn0 (ht _ _) hi0).2.1
  have hi1 : matteEnv.intersect (generateStep matteEnv 1 1 (startState downRay)).2.current_ray
      (generateStep matteEnv 1 1 (startState downRay)).2.last_triangle
      = Intersected.hit [] (matteHit 1 ⟨0, 0, 2⟩ ⟨0, 0, -1⟩) := by
    rw [l0]
    rfl
  have hn1 : (generateStep matteEnv 1 1 (startState downRay)).2.n2 + 1 < 20 := by
    rw [n0]
    decide
  have e1 := generateStep_hit matteEnv 1 1 _ [] _ hn1 (ht _ _) hi1
  have l1 := generateStep_hit_last matteEnv 1 1 _ [] _ hn1 (ht _ _) hi1
  have n1 := (generateStep_hit_state matteEnv 1 1 _ [] _ hn1 (ht _ _) hi1).2.1
  have hi2 : matteEnv.intersect
      (generateStep matteEnv 1 1 (generateStep matteEnv 1 1 (startState downRay)).2).2.current_ray
      (generateStep matteEnv 1 1 (generateStep matteEnv 1 1 (startState downRay)).2).2.last_triangle
      = Intersected.sky [] := by
    rw [l1]
    rfl
  have hn2 : (generateStep matteEnv 1 1
      (generateStep matteEnv 1 1 (startState downRay)).2).2.n2 + 1 < 20 := by
    rw [n1, n0]
    decide
  have e2 := generateStep_sky matteEnv 1 1 _ [] hn2 (ht _ _) hi2
  have hgen : GeneratePath matteEnv 20 downRay 0 1 1 ()
      = some (generateStep matteEnv 1 1 (generateStep matteEnv 1 1
          (generateStep matteEnv 1 1 (startState downRay)).2).2).2 := by
    have hs : GeneratePath matteEnv 20 downRay 0 1 1 ()
        = generateLoop matteEnv 1 1 (19 + 1) (startState downRay) := rfl
    rw [hs, generateLoop_succ, e0.1, if_pos rfl]
    have h18 : 19 = 18 + 1 := rfl
    rw [h18, generateLoop_succ, e1.1, if_pos rfl]
    have h17 : 18 = 17 + 1 := rfl
    rw [h17, generateLoop_succ, e2.1]
    rfl
  have hpath := e2.2
  rw [e1.2, e0.2] at hpath
  have hnil : (startState downRay).path = [] := rfl
  rw [hnil] at hpath
  have hc : countedPoints (generateStep matteEnv 1 1 (generateStep matteEnv 1 1
      (generateStep matteEnv 1 1 (startState downRay)).2).2).2.path = 2 := by
    rw [hpath]
    simp [countedPoints, List.countP_cons, matte_point_counted, skyPoint, PointType.isFree]
  refine ⟨_, hgen, ?_, hc, ?_⟩
  · rw [hpath]
    rfl
  · rw [hc]
    decide

theorem generateLoop_invariant {σ : Type} (env : PathEnv σ) (depth__ : Nat) (russian__ : ℚ)
    (Inv : GenState σ → Prop)
    (hstep : ∀ s, Inv s → Inv (generateStep env depth__ russian__ s).2) :
    ∀ (fuel : Nat) (s final : GenState σ), Inv s →
      generateLoop env depth__ russian__ fuel s = some final → Inv final := by
  intro fuel
  induction fuel with
  | zero =>
    intro s final _ h
    simp [generateLoop] at h
  | succ fuel ih =>
    intro s final hs h
    rw [generateLoop_succ] at h
    by_cases hc : (generateStep env depth__ russian__ s).1 = true
    · rw [if_pos hc] at h
      exact ih _ _ (hstep s hs) h
    · rw [if_neg hc] at h
      simp only [Option.some.injEq] at h
      rw [← h]
      exact hstep s hs

theorem countedPoints_append (path : List PathPoint) (p : PathPoint) :
    countedPoints (path ++ [p])
      = countedPoints path + (if p.infinity = false ∧ p.type.isFree = false then 1 else 0) := by
  unfold countedPoints
  rw [List.countP_append, List.countP_cons, List.countP_nil]
  cases hi : p.infinity <;> cases hf : p.type.isFree <;> simp

/-- What one iteration of the loop of `GeneratePath` does to the path: it is
left as it is, or a sky point is appended, or (when the loop goes on) a
surface point is. -/
theorem generateStep_path {σ : Type} (env : PathEnv σ) (depth__ : Nat) (russian__ : ℚ)
    (s : GenState σ) :
    ((generateStep env depth__ russian__ s).1 = false ∧
      ((generateStep env depth__ russian__ s).2.path = s.path ∨
        ∃ thinglass, (generateStep env depth__ russian__ s).2.path
          = s.path ++ [skyPoint s.current_ray thinglass])) ∨
    ((generateStep env depth__ russian__ s).1 = true ∧
      (terminationTest env depth__ russian__ (s.n + 1) s.skip_russian s.sampler).1 = false ∧
      ∃ thinglass h,
        (generateStep env depth__ russian__ s).2.path
          = s.path ++ [hitPoint env russian__ s.current_ray
              (terminationTest env depth__ russian__ (s.n + 1) s.skip_russian s.sampler).2.1
              thinglass h
              (terminationTest env depth__ russian__ (s.n + 1) s.skip_russian s.sampler).2.2] ∧
        (generateStep env depth__ russian__ s).2.n
          = hitN env s.current_ray h (s.n + 1)
              (terminationTest env depth__ russian__ (s.n + 1) s.skip_russian
                s.sampler).2.2) := by
  by_cases hc : (generateStep env depth__ russian__ s).1 = true
  · right
    obtain ⟨hn2, hterm, thinglass, h, hhit⟩ := generateStep_continue env depth__ russian__ s hc
    exact ⟨hc, hterm, thinglass, h,
      (generateStep_hit env depth__ russian__ s thinglass h hn2 hterm hhit).2,
      (generateStep_hit_state env depth__ russian__ s thinglass h hn2 hterm hhit).1⟩
  · left
    refine ⟨by simpa using hc, ?_⟩
    unfold generateStep
    simp only
    by_cases h20 : s.n2 + 1 ≥ 20
    · rw [if_pos h20]
      exact Or.inl rfl
    · rw [if_neg h20]
      by_cases ht : (terminationTest env depth__ russian__ (s.n + 1) s.skip_russian
          s.sampler).1 = true
      · rw [if_pos ht]
        exact Or.inl rfl
      · rw [if_neg ht]
        cases hi : env.intersect s.current_ray s.last_triangle with
        | sky thinglass => exact Or.inr ⟨thinglass, rfl⟩
        | degenerate => exact Or.inl rfl
        | hit thinglass h =>
          exfalso
          apply hc
          exact (generateStep_hit env depth__ russian__ s thinglass h (not_le.mp h20)
            (by simpa using ht) hi).1

theorem generateStep_n_le {σ : Type} (env : PathEnv σ) (depth__ : Nat) (russian__ : ℚ)
    (s : GenState σ) (hc : (generateStep env depth__ russian__ s).1 = false) :
    s.n ≤ (generateStep env depth__ russian__ s).2.n := by
  unfold generateStep at hc ⊢
  simp only at hc ⊢
  by_cases h20 : s.n2 + 1 ≥ 20
  · rw [if_pos h20]
    simp
  · rw [if_neg h20] at hc ⊢
    by_cases ht : (terminationTest env depth__ russian__ (s.n + 1) s.skip_russian
        s.sampler).1 = true
    · rw [if_pos ht]
      simp
    · rw [if_neg ht] at hc ⊢
      cases hi : env.intersect s.current_ray s.last_triangle with
      | sky thinglass => simp
      | degenerate => simp
      | hit thinglass h => simp [hi] at hc

/-- In fixed-depth mode the counter `n` bounds the number of counted points,
and both stay within `depth__`. -/
theorem fixed_depth_step {σ : Type} (env : PathEnv σ) (depth__ : Nat) (russian__ : ℚ)
    (hr : russian__ < 0) (s : GenState σ)
    (hs : countedPoints s.path ≤ s.n ∧ countedPoints s.path ≤ depth__) :
    countedPoints (generateStep env depth__ russian__ s).2.path
        ≤ (generateStep env depth__ russian__ s).2.n ∧
      countedPoints (generateStep env depth__ russian__ s).2.path ≤ depth__ := by
  rcases generateStep_path env depth__ russian__ s with ⟨hstop, hp⟩ | ⟨_, hterm, tg, h, hp, hn⟩
  · have hle := generateStep_n_le env depth__ russian__ s hstop
    rcases hp with hp | ⟨tg, hp⟩
    · rw [hp]
      exact ⟨by omega, hs.2⟩
    · rw [hp, countedPoints_append]
      have : (skyPoint s.current_ray tg).infinity = true := rfl
      simp only [this, Bool.true_eq_false, false_and, if_false, add_zero]
      exact ⟨by omega, hs.2⟩
  · rw [terminationTest_fixed env depth__ russian__ hr] at hterm
    simp only [decide_eq_false_iff_not, not_lt] at hterm
    rw [hp, hn, countedPoints_append]
    obtain ⟨hfree, hinf⟩ := hitPoint_isFree env russian__ s.current_ray
      (terminationTest env depth__ russian__ (s.n + 1) s.skip_russian s.sampler).2.1 tg h
      (terminationTest env depth__ russian__ (s.n + 1) s.skip_russian s.sampler).2.2
    rw [hfree, hinf]
    unfold hitN
    cases hf : (hitFirstType env s.current_ray h
      (terminationTest env depth__ russian__ (s.n + 1) s.skip_russian s.sampler).2.2).isFree
    · simp
      omega
    · simp
      omega

theorem fixed_depth_bound {σ : Type} (env : PathEnv σ) (depth__ : Nat) (russian__ : ℚ)
    (hr : russian__ < 0) (fuel : Nat) (r : Ray) (raycount : Nat) (sampler : σ)
    (final : GenState σ)
    (h : GeneratePath env fuel r raycount depth__ russian__ sampler = some final) :
    countedPoints final.path ≤ depth__ :=
  (generateLoop_invariant env depth__ russian__
    (fun s => countedPoints s.path ≤ s.n ∧ countedPoints s.path ≤ depth__)
    (fixed_depth_step env depth__ russian__ hr) fuel _ final
    ⟨Nat.zero_le _, Nat.zero_le _⟩ h).2

theorem terminationTest_depth_indep {σ : Type} (env : PathEnv σ) (d1 d2 : Nat)
    (russian__ : ℚ) (hr : 0 ≤ russian__) (n : Nat) (skip_russian : Bool) (sampler : σ) :
    terminationTest env d1 russian__ n skip_russian sampler
      = terminationTest env d2 russian__ n skip_russian sampler := by
  rw [terminationTest_roulette env d1 russian__ hr, terminationTest_roulette env d2 russian__ hr]

theorem generateLoop_depth_indep {σ : Type} (env : PathEnv σ) (d1 d2 : Nat)
    (russian__ : ℚ) (hr : 0 ≤ russian__) :
    ∀ (fuel : Nat) (s : GenState σ),
      generateLoop env d1 russian__ fuel s = generateLoop env d2 russian__ fuel s := by
  have hstep : ∀ s : GenState σ, generateStep env d1 russian__ s
      = generateStep env d2 russian__ s := by
    intro s
    unfold generateStep
    simp only [terminationTest_depth_indep env d1 d2 russian__ hr]
  intro fuel
  induction fuel with
  | zero =>
    intro s
    rfl
  | succ fuel ih =>
    intro s
    rw [generateLoop_succ, generateLoop_succ, hstep s, ih]

/-- C21 (amended): the forward subpath built by `TracePath`,
`GeneratePath(r, raycount, depth, russian)`, bounces at most `depth` times in
fixed-depth mode: for every depth and every `russian < 0` the number of path
points that are neither sky points nor free bounces is at most `depth`. For
`russian >= 0` the depth is not consulted: the path is the same for every
depth, and is ended by Russian roulette, by the geometry or by the hard limit
of 19 points. -/
theorem C21_forward_path_depth {σ : Type} (env : PathEnv σ) (extra : Nat) (r : Ray)
    (raycount depth : Nat) (russian : ℚ) (sampler : σ) :
    ∃ final, GeneratePath env (20 + extra) r raycount depth russian sampler = some final ∧
      final.path.length ≤ 19 ∧
      (russian < 0 → countedPoints final.path ≤ depth) ∧
      (0 ≤ russian → ∀ depth2,
        GeneratePath env (20 + extra) r raycount depth2 russian sampler = some final) := by
  obtain ⟨final, hfinal, hlen, _⟩ :=
    generateLoop_terminates env depth russian (20 + extra)
      { current_ray := r, n := 0, n2 := 0, skip_russian := false, last_triangle := none,
        path := [], sampler := sampler, raycount := raycount }
      (by simp) (by simp) (by simp)
  have hgen : GeneratePath env (20 + extra) r raycount depth russian sampler = some final :=
    hfinal
  refine ⟨final, hgen, hlen, ?_, ?_⟩
  · intro hr
    exact fixed_depth_bound env depth russian hr _ r raycount sampler final hgen
  · intro hr depth2
    rw [← hgen]
    exact generateLoop_depth_indep env depth2 depth russian hr _ _

/-- Witness for C21 (amended): the matte scene in fixed-depth mode with
`depth = 1`. -/
theorem C21_forward_path_depth_witness :
    (-1 : ℚ) < 0 ∧
    ∃ final, GeneratePath matteEnv (20 + 0) downRay 0 1 (-1) () = some final ∧
      countedPoints final.path ≤ 1 := by
  obtain ⟨final, hgen, _, hfix, _⟩ := C21_forward_path_depth matteEnv 0 downRay 0 1 (-1) ()
  exact ⟨by norm_num, final, hgen, hfix (by norm_num)⟩

end RGK

/-! ## Light phase of `TracePath` -/

namespace RGK

theorem sqrtQ_one : sqrtQ 1 = 1 := by
  have h := sqrtQ_mul_self 1 (by norm_num)
  norm_num at h
  exact h

theorem generateStep_break {σ : Type} (env : PathEnv σ) (depth__ : Nat) (russian__ : ℚ)
    (s : GenState σ) (hn2 : s.n2 + 1 < 20)
    (hterm : (terminationTest env depth__ russian__ (s.n + 1) s.skip_russian s.sampler).1 = true) :
    (generateStep env depth__ russian__ s).1 = false ∧
    (generateStep env depth__ russian__ s).2.path = s.path := by
  unfold generateStep
  simp only
  rw [if_neg (not_le.mpr hn2), hterm]
  simp

/-- The deposit of a `SCATTERED` point of the light path: `light_carried` at
line 544 already holds the factor
`transfer_coefficients * russian_coefficient` of the point. -/
theorem lightPhaseStep_deposit (e : LightPhaseEnv) (camerapos : Vec3) (p : PathPoint)
    (light_carried : Radiance) (x y : Int) (q : Radiance)
    (h : (lightPhaseStep e camerapos p light_carried).2.2 = some (x, y, q)) :
    p.type = PointType.SCATTERED ∧
    ∃ direction mat, normalize e.sqrt (p.pos.sub camerapos) = some direction ∧
      p.mat = some mat ∧
      q = (((lightPhaseStep e camerapos p light_carried).1.light_from_source.mul
              (p.transfer_coefficients.scale p.russian_coefficient)).mul
            (mat.Apply p.diffuse p.specular p.lightN p.Vr direction.neg)).scale
          (max 0 (dot p.lightN direction.neg) / distance2 camerapos p.pos) := by
  simp only [lightPhaseStep, sideEffect] at h ⊢
  by_cases hty : p.type = PointType.SCATTERED
  · refine ⟨hty, ?_⟩
    rw [if_pos hty] at h
    split_ifs at h with hv
    split at h
    · rename_i direction mat hd hm
      split_ifs at h with hG
      split at h
      · rename_i xy hxy
        simp only [Option.some.injEq, Prod.mk.injEq] at h
        refine ⟨direction, mat, hd, hm, ?_⟩
        rw [← h.2.2]
        simp only [carryLight, hty]
      · exact absurd h (by simp)
    · exact absurd h (by simp)
  · rw [if_neg hty] at h
    exact absurd h (by simp)

theorem matte_floor_point (skip_russian : Bool) (sampler : Unit) :
    hitPoint matteEnv (-1) downRay skip_russian [] (matteHit 0 ⟨0, 0, 0⟩ ⟨0, 0, 1⟩) sampler
      = { PathPoint.init with
          pos := ⟨0, 0, 0⟩, faceN := ⟨0, 0, 1⟩, Vr := ⟨0, 0, 1⟩, mat := some matteMaterial,
          diffuse := ⟨1 / 2, 1 / 2, 1 / 2⟩, lightN := ⟨0, 0, 1⟩,
          type := PointType.SCATTERED, Vi := ⟨0, 0, 1⟩, russian_coefficient := 1,
          transfer_coefficients := ⟨1 / 2, 1 / 2, 1 / 2⟩ } := by
  have hpi : PI ≠ 0 := ne_of_gt PI_pos
  have hq : PI * (1 / 2 / PI) = 1 / 2 := by
    field_simp
    ring
  have hsc := fun (mat : Material) (tc d sp : Radiance) (lN Vi Vr : Vec3) =>
    (scatteredTransfer_cases mat tc d sp lN Vi Vr).1
  simp only [hitPoint, hitBounce, matte_first_type, nextDirection, scatterCase, if_true]
  simp only [matteHit, matteMaterial, hsc]
  simp only [PathPoint.init, hitFaceN, hitFromInside, hitLightN,
    hitVr, downRay, hitSkipRussian, Radiance.scale, Radiance.mul,
    Radiance.divS, dot, Vec3.neg, one_mul, hq]
  norm_num

theorem matte_light_path :
    ∃ final, GeneratePath matteEnv 20 downRay 0 1 (-1) () = some final ∧
      final.path = [hitPoint matteEnv (-1) downRay false []
        (matteHit 0 ⟨0, 0, 0⟩ ⟨0, 0, 1⟩) ()] := by
  have hr : (-1 : ℚ) < 0 := by norm_num
  have hi0 : matteEnv.intersect (startState downRay).current_ray
      (startState downRay).last_triangle
      = Intersected.hit [] (matteHit 0 ⟨0, 0, 0⟩ ⟨0, 0, 1⟩) := rfl
  have hn0 : (startState downRay).n2 + 1 < 20 := by decide
  have ht0 : (terminationTest matteEnv 1 (-1) ((startState downRay).n + 1)
      (startState downRay).skip_russian (startState downRay).sampler).1 = false := by
    rw [terminationTest_fixed matteEnv 1 (-1) hr]
    simp [startState]
  have e0 := generateStep_hit matteEnv 1 (-1) (startState downRay) [] _ hn0 ht0 hi0
  obtain ⟨n0, n20, _⟩ :=
    generateStep_hit_state matteEnv 1 (-1) (startState downRay) [] _ hn0 ht0 hi0
  have hn1 : (generateStep matteEnv 1 (-1) (startState downRay)).2.n2 + 1 < 20 := by
    rw [n20]
    decide
  have ht1 : (terminationTest matteEnv 1 (-1)
      ((generateStep matteEnv 1 (-1) (startState downRay)).2.n + 1)
      (generateStep matteEnv 1 (-1) (startState downRay)).2.skip_russian
      (generateStep matteEnv 1 (-1) (startState downRay)).2.sampler).1 = true := by
    rw [terminationTest_fixed matteEnv 1 (-1) hr, n0]
    simp [hitN, matte_first_type, PointType.isFree, startState]
  have e1 := generateStep_break matteEnv 1 (-1) _ hn1 ht1
  have hgen : GeneratePath matteEnv 20 downRay 0 1 (-1) ()
      = some (generateStep matteEnv 1 (-1)
          (generateStep matteEnv 1 (-1) (startState downRay)).2).2 := by
    have hs : GeneratePath matteEnv 20 downRay 0 1 (-1) ()
        = generateLoop matteEnv 1 (-1) (19 + 1) (startState downRay) := rfl
    rw [hs, generateLoop_succ, e0.1, if_pos rfl]
    have h18 : 19 = 18 + 1 := rfl
    rw [h18, generateLoop_succ, e1.1]
    rfl
  refine ⟨_, hgen, ?_⟩
  rw [e1.2, e0.2]
  have hsk : (terminationTest matteEnv 1 (-1) ((startState downRay).n + 1)
      (startState downRay).skip_russian (startState downRay).sampler).2.1 = false := by
    rw [terminationTest_fixed matteEnv 1 (-1) hr]
    rfl
  rw [hsk]
  rfl

theorem matte_light_phase :
    lightPhase openView ⟨0, 0, 1⟩
        [hitPoint matteEnv (-1) downRay false [] (matteHit 0 ⟨0, 0, 0⟩ ⟨0, 0, 1⟩) ()] ⟨1, 1, 1⟩
      = ([{ hitPoint matteEnv (-1) downRay false [] (matteHit 0 ⟨0, 0, 0⟩ ⟨0, 0, 1⟩) () with
            light_from_source := ⟨1, 1, 1⟩ }],
         [(0, 0, ⟨1 / (4 * PI), 1 / (4 * PI), 1 / (4 * PI)⟩)]) := by
  have hpi : PI ≠ 0 := ne_of_gt PI_pos
  have hq : (1 : ℚ) / 2 * (1 / 2 / PI) = 1 / (4 * PI) := by
    field_simp
    ring
  have hn : normalize sqrtQ (⟨0, 0, -1⟩ : Vec3) = some ⟨0, 0, -1⟩ := by
    norm_num [normalize, dot, sqrtQ_one, Vec3.smul]
  rw [matte_floor_point]
  simp only [lightPhase, lightPhaseStep, sideEffect, carryLight, ApplyThinglass,
    thinglassVisitOrder, PathPoint.init, openView, Vec3.sub]
  norm_num [hn, matteMaterial, distance2, dot, Vec3.sub, Vec3.neg, Radiance.mul,
    Radiance.scale, Radiance.divS, hq]

/-- C26 (code behaviour): a light ray onto a matte floor of albedo 1/2, light
path of depth 1, emitted radiance `(1, 1, 1)`, camera at `(0, 0, 1)` straight
above the hit. The point is `SCATTERED` with
`transfer_coefficients * russian_coefficient = (1/2, 1/2, 1/2)`; the radiance
stored as `light_from_source` is `(1, 1, 1)`, the BRDF towards the camera is
`1/(2*pi)` and `G = 1`, so `L_at_point * brdf * G` is `1/(2*pi)` per channel,
but the side effect deposited is `1/(4*pi)`: `light_carried` has been
multiplied by the transfer coefficients of the point before the deposit is
computed. -/
theorem C26_side_effect_carries_transfer :
    ∃ final p, GeneratePath matteEnv 20 downRay 0 1 (-1) () = some final ∧
      final.path = [p] ∧ p.type = PointType.SCATTERED ∧ p.infinity = false ∧
      p.transfer_coefficients.scale p.russian_coefficient = ⟨1 / 2, 1 / 2, 1 / 2⟩ ∧
      (lightPhase openView ⟨0, 0, 1⟩ final.path ⟨1, 1, 1⟩).1.map
          (fun q => q.light_from_source) = [⟨1, 1, 1⟩] ∧
      TracePath_side_effects matteEnv openView 20 ⟨0, 0, 1⟩ downRay ⟨1, 1, 1⟩ 0 1 ()
        = some [(0, 0, ⟨1 / (4 * PI), 1 / (4 * PI), 1 / (4 * PI)⟩)] ∧
      normalize sqrtQ (p.pos.sub ⟨0, 0, 1⟩) = some ⟨0, 0, -1⟩ ∧
      (((⟨1, 1, 1⟩ : Radiance).mul
          (matteMaterial.Apply p.diffuse p.specular p.lightN p.Vr (Vec3.neg ⟨0, 0, -1⟩))).scale
        (max 0 (dot p.lightN (Vec3.neg ⟨0, 0, -1⟩)) / distance2 ⟨0, 0, 1⟩ p.pos))
        = ⟨1 / (2 * PI), 1 / (2 * PI), 1 / (2 * PI)⟩ ∧
      (1 / (4 * PI) : ℚ) ≠ 1 / (2 * PI) := by
  have hpi : PI ≠ 0 := ne_of_gt PI_pos
  obtain ⟨final, hgen, hpath⟩ := matte_light_path
  refine ⟨final, _, hgen, hpath, ?_, ?_, ?_, ?_, ?_, ?_, ?_, ?_⟩
  · rw [matte_floor_point]
  · rw [matte_floor_point]
    rfl
  · rw [matte_floor_point]
    norm_num [Radiance.scale]
  · rw [hpath, matte_light_phase]
    rfl
  · unfold TracePath_side_effects
    rw [hgen, Option.map_some', hpath, matte_light_phase]
  · rw [matte_floor_point]
    norm_num [normalize, dot, sqrtQ_one, Vec3.smul, Vec3.sub]
  · rw [matte_floor_point]
    have hq : (1 : ℚ) / 2 / PI = 1 / (2 * PI) := by
      field_simp
    norm_num [matteMaterial, distance2, dot, Vec3.sub, Vec3.neg, Radiance.mul,
      Radiance.scale, Radiance.divS, hq]
  · intro h
    field_simp at h
    rcases h with h | h
    · norm_num at h
    · exact hpi h

/-- Witness for C24: a ray onto the matte floor; the committed point is
`SCATTERED`, sampled with the cosine strategy, and its transfer coefficients
are `c * pi * f`. -/
theorem C24_scattered_transfer_coefficients_witness :
    (generateStep matteEnv 5 (-1) (startState downRay)).1 = true ∧
    ∃ p mat sample,
      (generateStep matteEnv 5 (-1) (startState downRay)).2.path
        = (startState downRay).path ++ [p] ∧ p.mat = some mat ∧
      (p.type = PointType.SCATTERED →
        ((mat.GetRay p.lightN p.Vr p.diffuse p.specular sample).2.2
            = BRDFSamplingType.SAMPLING_COSINE →
          p.transfer_coefficients
            = ((mat.GetRay p.lightN p.Vr p.diffuse p.specular sample).2.1.scale PI).mul
                (mat.Apply p.diffuse p.specular p.lightN p.Vi p.Vr))) := by
  refine ⟨matte_step_continues 5 (-1) (by decide), ?_⟩
  obtain ⟨p, mat, sample, hp, hmat, _, hsc⟩ :=
    C24_scattered_transfer_coefficients matteEnv 5 (-1) (startState downRay)
      (matte_step_continues 5 (-1) (by decide))
  exact ⟨p, mat, sample, hp, hmat, fun hty => (hsc hty).2.1⟩

end RGK

/-! ## Whitted tracer: the reflection chain -/

namespace RGK

/-- The recursion of `trace_ray`: with a hit, `depth >= 2` and `exponent < 1`
the colour is blended from the nested call for the reflected ray, made with
`depth - 1`; otherwise there is no nested call. -/
theorem trace_ray_reflection (sc : WhittedScene) (lights : List Light) (r : ClipRay)
    (shadow_cache : List (List Nat)) (depth : Int) (raycount : Nat) (h : WhittedHit)
    (hhit : sc.FindIntersectKd r = some h) (hd : depth ≥ 2 ∧ h.exponent < 1) :
    (trace_ray sc lights r shadow_cache depth raycount).1
      = ((trace_ray sc lights
            { sc.RayFromTo h.ipos (h.ipos.add (mirror r.direction.neg h.N)) (1 / 100) with
              far := 1000 }
            (lightsLoop sc h r.direction.neg depth lights shadow_cache ⟨0, 0, 0⟩
              (wrapU (raycount + 1))).2.1
            (depth - 1)
            (lightsLoop sc h r.direction.neg depth lights shadow_cache ⟨0, 0, 0⟩
              (wrapU (raycount + 1))).2.2).1.scale h.exponent).add
          (((if lights.length = 0 then
                (lightsLoop sc h r.direction.neg depth lights shadow_cache ⟨0, 0, 0⟩
                  (wrapU (raycount + 1))).1.add h.diffuse
              else (lightsLoop sc h r.direction.neg depth lights shadow_cache ⟨0, 0, 0⟩
                  (wrapU (raycount + 1))).1).add (h.ambient.scale (1 / 10))).scale
            (1 - h.exponent)) := by
  rw [trace_ray]
  simp only [hhit, dif_pos hd]

/-- The instrumented function computes the result of `trace_ray`. -/
theorem trace_ray_calls_result (sc : WhittedScene) (lights : List Light) :
    ∀ (n : Nat) (depth : Int), depth.toNat ≤ n →
      ∀ (r : ClipRay) (shadow_cache : List (List Nat)) (raycount : Nat),
      (trace_ray_calls sc lights r shadow_cache depth raycount).1
        = trace_ray sc lights r shadow_cache depth raycount := by
  intro n
  induction n with
  | zero =>
    intro depth hd r shadow_cache raycount
    rw [trace_ray_calls, trace_ray]
    cases hhit : sc.FindIntersectKd r with
    | none => rfl
    | some h =>
      have hnr : ¬ (depth ≥ 2 ∧ h.exponent < 1) := by
        intro hh
        omega
      simp only [dif_neg hnr]
  | succ n ih =>
    intro depth hd r shadow_cache raycount
    rw [trace_ray_calls, trace_ray]
    cases hhit : sc.FindIntersectKd r with
    | none => rfl
    | some h =>
      by_cases hnr : depth ≥ 2 ∧ h.exponent < 1
      · simp only [dif_pos hnr]
        rw [ih (depth - 1) (by omega)]
      · simp only [dif_neg hnr]

theorem trace_ray_calls_chain (sc : WhittedScene) (lights : List Light) :
    ∀ (n : Nat) (depth : Int), depth.toNat ≤ n →
      ∀ (r : ClipRay) (shadow_cache : List (List Nat)) (raycount : Nat),
      ∃ rest, (trace_ray_calls sc lights r shadow_cache depth raycount).2 = depth :: rest ∧
        List.Chain (fun a b => a ≥ 2 ∧ b = a - 1) depth rest ∧
        ((rest.length : Int) + 1 ≤ max 1 depth) ∧ ∀ d ∈ rest, 1 ≤ d := by
  intro n
  induction n with
  | zero =>
    intro depth hd r shadow_cache raycount
    refine ⟨[], ?_, List.Chain.nil, by simp, by simp⟩
    rw [trace_ray_calls]
    cases hhit : sc.FindIntersectKd r with
    | none => rfl
    | some h =>
      have hnr : ¬ (depth ≥ 2 ∧ h.exponent < 1) := by
        intro hh
        omega
      simp only [dif_neg hnr]
  | succ n ih =>
    intro depth hd r shadow_cache raycount
    rw [trace_ray_calls]
    cases hhit : sc.FindIntersectKd r with
    | none => exact ⟨[], rfl, List.Chain.nil, by simp, by simp⟩
    | some h =>
      by_cases hnr : depth ≥ 2 ∧ h.exponent < 1
      · simp only [dif_pos hnr]
        obtain ⟨rest, hrest, hchain, hlen, hge⟩ := ih (depth - 1) (by omega)
          { sc.RayFromTo h.ipos (h.ipos.add (mirror r.direction.neg h.N)) (1 / 100) with
            far := 1000 }
          (lightsLoop sc h r.direction.neg depth lights shadow_cache ⟨0, 0, 0⟩
            (wrapU (raycount + 1))).2.1
          (lightsLoop sc h r.direction.neg depth lights shadow_cache ⟨0, 0, 0⟩
            (wrapU (raycount + 1))).2.2
        refine ⟨(depth - 1) :: rest, by rw [hrest], List.Chain.cons ⟨hnr.1, rfl⟩ hchain, ?_, ?_⟩
        · have h1 : max 1 (depth - 1) = depth - 1 := max_eq_right (by omega)
          have h2 : max 1 depth = depth := max_eq_right (by omega)
          rw [h1] at hlen
          rw [h2, List.length_cons]
          push_cast
          omega
        · intro d hdm
          rcases List.mem_cons.mp hdm with h1 | h1
          · omega
          · exact hge d h1
      · simp only [dif_neg hnr]
        exact ⟨[], rfl, List.Chain.nil, by simp, by simp⟩

/-- Without lights no shadow ray is traced, and the counter `raycount` that
`trace_ray` leaves has grown by the number of calls of the chain. -/
theorem trace_ray_raycount (sc : WhittedScene) :
    ∀ (n : Nat) (depth : Int), depth.toNat ≤ n →
      ∀ (r : ClipRay) (shadow_cache : List (List Nat)) (raycount : Nat),
      raycount + (trace_ray_calls sc [] r shadow_cache depth raycount).2.length < UINT_RANGE →
      (trace_ray sc [] r shadow_cache depth raycount).2.2
        = raycount + (trace_ray_calls sc [] r shadow_cache depth raycount).2.length := by
  intro n
  induction n with
  | zero =>
    intro depth hd r shadow_cache raycount
    rw [trace_ray_calls, trace_ray]
    cases hhit : sc.FindIntersectKd r with
    | none =>
      intro hlt
      simp only [List.length_singleton] at hlt ⊢
      exact Nat.mod_eq_of_lt hlt
    | some h =>
      have hnr : ¬ (depth ≥ 2 ∧ h.exponent < 1) := by
        intro hh
        omega
      simp only [dif_neg hnr, lightsLoop, List.length_singleton]
      intro hlt
      exact Nat.mod_eq_of_lt hlt
  | succ n ih =>
    intro depth hd r shadow_cache raycount
    rw [trace_ray_calls, trace_ray]
    cases hhit : sc.FindIntersectKd r with
    | none =>
      intro hlt
      simp only [List.length_singleton] at hlt ⊢
      exact Nat.mod_eq_of_lt hlt
    | some h =>
      by_cases hnr : depth ≥ 2 ∧ h.exponent < 1
      · simp only [dif_pos hnr, lightsLoop, List.length_cons]
        intro hlt
        have hw : wrapU (raycount + 1) = raycount + 1 := Nat.mod_eq_of_lt (by omega)
        rw [hw] at hlt ⊢
        rw [ih (depth - 1) (by omega) _ _ _ (by omega)]
        omega
      · simp only [dif_neg hnr, lightsLoop, List.length_singleton]
        intro hlt
        exact Nat.mod_eq_of_lt hlt

/-- C28: the Whitted tracer is recursive with a hard depth limit.
`trace_ray_calls` computes the result of `trace_ray` together with the depths
of its calls along one reflection chain. The chain starts with the call at
`depth`; there is a nested call only when the ray hits a surface with
`depth >= 2` and `exponent < 1`, and then the colour of `trace_ray` is blended
from `trace_ray` at `depth - 1`; each nested call runs with the depth of its
caller, which is at least 2, minus one, hence with depth at least 1, where the
shadow search of line 80 is made; the chain has at most `max(1, depth)`
calls, and without lights (no shadow rays) the ray counter grows by exactly
that number of calls. The recursion is well founded, so `trace_ray` returns
for every scene and depth. -/
theorem C28_trace_ray_depth_limit (sc : WhittedScene) (lights : List Light) (r : ClipRay)
    (shadow_cache : List (List Nat)) (depth : Int) (raycount : Nat) :
    (trace_ray_calls sc lights r shadow_cache depth raycount).1
      = trace_ray sc lights r shadow_cache depth raycount ∧
    (∀ h, sc.FindIntersectKd r = some h →
      (depth ≥ 2 ∧ h.exponent < 1 →
        (trace_ray sc lights r shadow_cache depth raycount).1
          = ((trace_ray sc lights
                { sc.RayFromTo h.ipos (h.ipos.add (mirror r.direction.neg h.N)) (1 / 100) with
                  far := 1000 }
                (lightsLoop sc h r.direction.neg depth lights shadow_cache ⟨0, 0, 0⟩
                  (wrapU (raycount + 1))).2.1
                (depth - 1)
                (lightsLoop sc h r.direction.neg depth lights shadow_cache ⟨0, 0, 0⟩
                  (wrapU (raycount + 1))).2.2).1.scale h.exponent).add
              (((if lights.length = 0 then
                    (lightsLoop sc h r.direction.neg depth lights shadow_cache ⟨0, 0, 0⟩
                      (wrapU (raycount + 1))).1.add h.diffuse
                  else (lightsLoop sc h r.direction.neg depth lights shadow_cache ⟨0, 0, 0⟩
                      (wrapU (raycount + 1))).1).add (h.ambient.scale (1 / 10))).scale
                (1 - h.exponent))) ∧
      (¬ (depth ≥ 2 ∧ h.exponent < 1) →
        trace_ray sc lights r shadow_cache depth raycount
          = ((if lights.length = 0 then
                (lightsLoop sc h r.direction.neg depth lights shadow_cache ⟨0, 0, 0⟩
                  (wrapU (raycount + 1))).1.add h.diffuse
              else (lightsLoop sc h r.direction.neg depth lights shadow_cache ⟨0, 0, 0⟩
                  (wrapU (raycount + 1))).1).add (h.ambient.scale (1 / 10)),
             (lightsLoop sc h r.direction.neg depth lights shadow_cache ⟨0, 0, 0⟩
                (wrapU (raycount + 1))).2.1,
             (lightsLoop sc h r.direction.neg depth lights shadow_cache ⟨0, 0, 0⟩
                (wrapU (raycount + 1))).2.2))) ∧
    (lights = [] →
      raycount + (trace_ray_calls sc lights r shadow_cache depth raycount).2.length
        < UINT_RANGE →
      (trace_ray sc lights r shadow_cache depth raycount).2.2
        = raycount + (trace_ray_calls sc lights r shadow_cache depth raycount).2.length) ∧
    ∃ rest, (trace_ray_calls sc lights r shadow_cache depth raycount).2 = depth :: rest ∧
      (rest ≠ [] → ∃ h, sc.FindIntersectKd r = some h ∧ depth ≥ 2 ∧ h.exponent < 1) ∧
      List.Chain (fun a b => a ≥ 2 ∧ b = a - 1) depth rest ∧
      ((trace_ray_calls sc lights r shadow_cache depth raycount).2.length : Int)
        ≤ max 1 depth ∧
      (∀ d ∈ rest, 1 ≤ d ∧
        ∀ h l buf, shadowTriangle sc h d l buf = shadowSearch sc (rayToLight sc h l) buf) := by
  obtain ⟨rest, hrest, hchain, hlen, hge⟩ :=
    trace_ray_calls_chain sc lights depth.toNat depth le_rfl r shadow_cache raycount
  refine ⟨trace_ray_calls_result sc lights depth.toNat depth le_rfl r shadow_cache raycount,
    ?_, ?_, rest, hrest, ?_, hchain, ?_, ?_⟩
  · intro h hhit
    constructor
    · intro hd
      exact trace_ray_reflection sc lights r shadow_cache depth raycount h hhit hd
    · intro hnr
      rw [trace_ray]
      simp only [hhit, dif_neg hnr]
  · intro hl
    subst hl
    exact trace_ray_raycount sc depth.toNat depth le_rfl r shadow_cache raycount
  · intro hne
    rw [trace_ray_calls] at hrest
    cases hhit : sc.FindIntersectKd r with
    | none =>
      rw [hhit] at hrest
      simp only [List.cons.injEq, true_and] at hrest
      exact absurd hrest.symm hne
    | some h =>
      rw [hhit] at hrest
      by_cases hnr : depth ≥ 2 ∧ h.exponent < 1
      · exact ⟨h, rfl, hnr⟩
      · simp only [dif_neg hnr, List.cons.injEq, true_and] at hrest
        exact absurd hrest.symm hne
  · rw [hrest, List.length_cons]
    push_cast
    exact hlen
  · intro d hd
    refine ⟨hge d hd, ?_⟩
    intro h l buf
    unfold shadowTriangle
    rw [if_pos]
    have := hge d hd
    omega

end RGK

/-! ## LTC table lookups -/

namespace RGK

theorem sqrtQ_quarter : sqrtQ (1 / 4) = 1 / 2 := by
  have h := sqrtQ_mul_self (1 / 2) (by norm_num)
  norm_num at h
  exact h

/-- For every table size from 1 to 1000 and every `theta` of at least
`0.5f*3.14159f`, `get_bilinear` reads the rows `size - 1` and `size`. -/
theorem LTC_BECKMANN.get_bilinear_row_overflow (size : Int) (hs1 : 1 ≤ size)
    (hs2 : size ≤ 1000) (sqrt : ℚ → ℚ) (theta alpha : ℚ)
    (hth : (1 / 2) * (314159 / 100000) ≤ theta) :
    (LTC_BECKMANN.get_bilinear size sqrt theta alpha).map Prod.fst
      = [size - 1, size - 1, size, size] := by
  have ht : LTC_BECKMANN.bilinear_t theta = 999 / 1000 := by
    unfold LTC_BECKMANN.bilinear_t
    have h1 : (1 : ℚ) ≤ theta / ((1 / 2) * (314159 / 100000)) := by
      rw [le_div_iff₀ (by norm_num)]
      linarith
    simp only [min_eq_left h1]
    norm_num
  have hf : ⌊(999 / 1000 : ℚ) * (size : ℚ)⌋ = size - 1 := by
    rw [Int.floor_eq_iff]
    have h1 : (1 : ℚ) ≤ (size : ℚ) := by exact_mod_cast hs1
    have h2 : (size : ℚ) ≤ 1000 := by exact_mod_cast hs2
    push_cast
    constructor <;> linarith
  simp only [LTC_BECKMANN.get_bilinear, ht, hf, List.map_cons, List.map_nil]
  simp

/-- C29 (code behaviour): with a table of `size = 64`, at the grazing angle
`theta = 1.57` and `alpha = 1/4` `get_bilinear` reads the rows 63 and 64, and
the linear index of `(64, 32)` is 4128, past the `64*64` entries of the
table; at `theta = 1/2` and `alpha = 1` it reads the columns 63 and 64, and
the linear index of `(20, 64)` is that of `(21, 0)`, in the next row. At the
same arguments `getAMP` clamps both indices to 63. -/
theorem C29_get_bilinear_reads_past_table :
    LTC_BECKMANN.get_bilinear 64 sqrtQ (157 / 100) (1 / 4)
      = [(63, 32), (63, 33), (64, 32), (64, 33)] ∧
    LTC_BECKMANN.get_n 64 64 32 = 4128 ∧ ¬ LTC_BECKMANN.get_n 64 64 32 < 64 * 64 ∧
    LTC_BECKMANN.get_bilinear 64 sqrtQ (1 / 2) 1
      = [(20, 63), (20, 64), (21, 63), (21, 64)] ∧
    LTC_BECKMANN.get_n 64 20 64 = LTC_BECKMANN.get_n 64 21 0 ∧
    LTC_BECKMANN.getAMP 64 sqrtQ (157 / 100) 1 = (63, 63) := by
  have ht1 : LTC_BECKMANN.bilinear_t (157 / 100) = 314000 / 314159 := by
    unfold LTC_BECKMANN.bilinear_t
    norm_num
  have ht2 : LTC_BECKMANN.bilinear_t (1 / 2) = 100000 / 314159 := by
    unfold LTC_BECKMANN.bilinear_t
    norm_num
  have ha1 : LTC_BECKMANN.bilinear_a sqrtQ (1 / 4) = 1 / 2 := by
    unfold LTC_BECKMANN.bilinear_a
    rw [sqrtQ_quarter]
    norm_num
  have ha2 : LTC_BECKMANN.bilinear_a sqrtQ 1 = 999 / 1000 := by
    unfold LTC_BECKMANN.bilinear_a
    rw [sqrtQ_one]
    norm_num
  have f1 : ⌊(314000 / 314159 : ℚ) * ((64 : Int) : ℚ)⌋ = 63 := by
    rw [Int.floor_eq_iff]
    norm_num
  have f2 : ⌊(100000 / 314159 : ℚ) * ((64 : Int) : ℚ)⌋ = 20 := by
    rw [Int.floor_eq_iff]
    norm_num
  have f3 : ⌊(1 / 2 : ℚ) * ((64 : Int) : ℚ)⌋ = 32 := by
    rw [Int.floor_eq_iff]
    norm_num
  have f4 : ⌊(999 / 1000 : ℚ) * ((64 : Int) : ℚ)⌋ = 63 := by
    rw [Int.floor_eq_iff]
    norm_num
  have f5 : ⌊(157 / 100 : ℚ) / ((1 / 2) * (314159 / 100000)) * ((64 : Int) : ℚ)⌋ = 63 := by
    rw [Int.floor_eq_iff]
    norm_num
  have f6 : ⌊sqrtQ 1 * ((64 : Int) : ℚ)⌋ = 64 := by
    rw [sqrtQ_one, Int.floor_eq_iff]
    norm_num
  refine ⟨?_, by norm_num [LTC_BECKMANN.get_n], by norm_num [LTC_BECKMANN.get_n], ?_,
    by norm_num [LTC_BECKMANN.get_n], ?_⟩
  · simp only [LTC_BECKMANN.get_bilinear, ht1, ha1, f1, f3]
    norm_num
  · simp only [LTC_BECKMANN.get_bilinear, ht2, ha2, f2, f4]
    norm_num
  · simp only [LTC_BECKMANN.getAMP, f5, f6]
    norm_num

end RGK
